import Mathlib

/-! Reconciliation filters (`pkg/scheduler/reconciliation/filter.go`)

A shallow embedding of the reconciliation filter algebra: every filter has a
query form (`FilterByQuery`, which extends a `db.Select`) and an instance
form (`FilterByInstance`, which keeps or drops one materialised entity).

Conventions of the embedding:

* a `*model.ReconciliationEntity` is an `Option ReconciliationEntity`
  (`none` is the nil pointer); dereferencing nil is the fault
  `Fault.nilDereference`;
* a `time.Time` is a `Time`: the instant it denotes, an `Int` count of
  nanoseconds, and the offset of its Location; `After` and `Before` compare
  instants, `Format` prints the wall clock of the Location; of the `Created`
  time of an entity only the instant is read, so that field is the `Int`;
* Go `int` / `int64` values are `Int` (the only arithmetic is
  `actualCount++` below `Count`, which cannot overflow);
* a method with a pointer receiver that mutates its receiver returns the
  updated receiver next to its result.
-/

namespace Reconciliation

/-! ## Entities -/

/-- The run-time fault of the embedding: a field read through a nil pointer. -/
inductive Fault where
  | nilDereference
  deriving DecidableEq, Repr

/-- Modelled from the spec: `model.ReconciliationEntity` is declared outside
the sources at hand; these are the fields that `filter.go` reads (`Status`
is the string-typed `model.Status`; `Created` is a `time.Time`, read only
through `After` and `Before`, which compare instants: the field holds the
instant in nanoseconds). -/
structure ReconciliationEntity where
  RuntimeID : String
  ClusterConfigStatus : Int
  Finished : Bool
  SchedulingID : String
  Created : Int
  Status : String
  deriving DecidableEq, Repr

/-! ## The query builder -/

/-- A `time.Time`: the instant it denotes (`nanos`, nanoseconds since the
Unix epoch) and the offset of its Location at that instant (`offset`, seconds
east of UTC; zero for `time.UTC`). -/
structure Time where
  nanos : Int
  offset : Int
  deriving DecidableEq, Repr

/-- A value bound to a placeholder or stored in a column. `stamp ms` is the
text produced by `Time.Format("2006-01-02 15:04:05.000")`, a date and a time
of day without zone, identified with the whole number of milliseconds that it
spells out; `instant ns` is a stored timestamp. -/
inductive Value where
  | str (s : String)
  | bool (b : Bool)
  | int (i : Int)
  | instant (ns : Int)
  | stamp (ms : Int)
  deriving DecidableEq, Repr

/-- The comparison operators that `filter.go` writes into raw conditions. -/
inductive CmpOp where
  | eq
  | gt
  | lt
  deriving DecidableEq, Repr

/-- One comparison `column op $placeholder` of a raw condition. -/
structure Cmp where
  column : String
  op : CmpOp
  placeholder : Nat
  deriving DecidableEq, Repr

/-- A condition added to a query by one call of the builder. -/
inductive Clause where
  /-- The call `q.Where(conds)` with a map from field names to values: every
  field equals its value. -/
  | whereEq (conds : List (String × Value))
  /-- The call `q.WhereRaw(raw, args...)`: `raw` is the text built by the
  caller, `terms` its reading as a disjunction of comparisons. -/
  | whereRaw (raw : String) (terms : List Cmp)
  /-- The call `q.WhereIn(field, values, args...)`: `values` is the text of
  the placeholder list, `placeholders` its reading. -/
  | whereIn (field : String) (values : String) (placeholders : List Nat)
  deriving DecidableEq, Repr

/-- Modelled from the spec: `db.Select` is declared outside the sources at
hand. The builder records the conditions in call order, the arguments bound
to the placeholders `$1, $2, ...`, the ordering and the row limit; `columns`
stands for the column handler reached through `q.Conn` (field name to column
name). -/
structure Select where
  columns : List (String × String)
  clauses : List Clause
  args : List Value
  orderBy : List (String × String)
  limit : Option Int
  deriving DecidableEq, Repr

namespace Select

/-- The method `q.NextPlaceholderCount()`: the index of the next free placeholder. -/
def NextPlaceholderCount (q : Select) : Nat := q.args.length + 1

/-- The method `q.Where(conds)`. -/
def Where (q : Select) (conds : List (String × Value)) : Select :=
  { q with clauses := q.clauses ++ [Clause.whereEq conds], args := q.args ++ conds.map Prod.snd }

/-- The method `q.WhereRaw(raw, args...)`. -/
def WhereRaw (q : Select) (raw : String) (terms : List Cmp) (args : List Value) : Select :=
  { q with clauses := q.clauses ++ [Clause.whereRaw raw terms], args := q.args ++ args }

/-- The method `q.WhereIn(field, values, args...)`. -/
def WhereIn (q : Select) (field values : String) (placeholders : List Nat)
    (args : List Value) : Select :=
  { q with clauses := q.clauses ++ [Clause.whereIn field values placeholders],
           args := q.args ++ args }

/-- The method `q.OrderBy(map)`. -/
def OrderBy (q : Select) (m : List (String × String)) : Select :=
  { q with orderBy := q.orderBy ++ m }

/-- The method `q.Limit(n)`. -/
def Limit (q : Select) (n : Int) : Select :=
  { q with limit := some n }

/-- The argument bound to placeholder `$n` (placeholders count from 1). -/
def arg (q : Select) : Nat → Option Value
  | 0 => none
  | n + 1 => q.args[n]?

end Select

/-- The fields of an entity, by name. -/
def entityFields : List String :=
  ["RuntimeID", "ClusterConfigStatus", "Finished", "SchedulingID", "Created", "Status"]

/-- The stored value of a field of an entity. -/
def fieldValue (e : ReconciliationEntity) (field : String) : Option Value :=
  if field = "RuntimeID" then some (Value.str e.RuntimeID)
  else if field = "ClusterConfigStatus" then some (Value.int e.ClusterConfigStatus)
  else if field = "Finished" then some (Value.bool e.Finished)
  else if field = "SchedulingID" then some (Value.str e.SchedulingID)
  else if field = "Created" then some (Value.instant e.Created)
  else if field = "Status" then some (Value.str e.Status)
  else none

/-- The function `columnName(q, name)`: the column of a field, or an error
when the column handler does not know the field. -/
def columnName (q : Select) (name : String) : Except String String :=
  match q.columns.lookup name with
  | some column => Except.ok column
  | none => Except.error ("no column for field " ++ name)

/-- The value an entity's row holds in a column: the value of the first
entity field that the column handler maps to that column. -/
def columnValue (q : Select) (e : ReconciliationEntity) (column : String) : Option Value :=
  match entityFields.find? (fun f => q.columns.lookup f == some column) with
  | some f => fieldValue e f
  | none => none

/-- Nanoseconds in a millisecond. -/
def nanosPerMilli : Int := 1000000

/-- Nanoseconds in a second. -/
def nanosPerSecond : Int := 1000000000

/-- The wall clock that a `time.Time` shows in its Location, as nanoseconds:
the instant moved by the offset of the Location. -/
def Time.wallClock (t : Time) : Int := t.nanos + t.offset * nanosPerSecond

/-- `Time.Format("2006-01-02 15:04:05.000")`: the text is the wall clock of
the time in its Location, without the zone, and the fraction of a second is
cut (not rounded) to three digits, so the text spells the whole milliseconds
of the wall clock. -/
def formatMillis (t : Time) : Value := Value.stamp (t.wallClock / nanosPerMilli)

/-- The instant that the store reads from the text of `formatMillis`: the
wall clock cut to whole milliseconds, taken as a time in UTC. -/
def cutToMillis (t : Time) : Int := t.wallClock / nanosPerMilli * nanosPerMilli

/-- Modelled from the spec: how the store compares a column value with a bound
argument. A stored timestamp is compared with a bound text as the time that
the text spells, read in UTC (the text carries no zone). -/
def Value.compare : CmpOp → Value → Value → Bool
  | CmpOp.eq, v, a => v == a
  | CmpOp.gt, Value.instant ns, Value.stamp ms => decide (ms * nanosPerMilli < ns)
  | CmpOp.lt, Value.instant ns, Value.stamp ms => decide (ns < ms * nanosPerMilli)
  | CmpOp.gt, Value.int x, Value.int y => decide (y < x)
  | CmpOp.lt, Value.int x, Value.int y => decide (x < y)
  | _, _, _ => false

/-- Does the row of `e` satisfy one comparison of a raw condition? -/
def Cmp.holds (q : Select) (e : ReconciliationEntity) (t : Cmp) : Bool :=
  match columnValue q e t.column, q.arg t.placeholder with
  | some v, some a => Value.compare t.op v a
  | _, _ => false

/-- Does the row of `e` satisfy a condition of the query `q`? -/
def Clause.holds (q : Select) (e : ReconciliationEntity) : Clause → Bool
  | Clause.whereEq conds => conds.all (fun c => fieldValue e c.1 == some c.2)
  | Clause.whereRaw _ terms => terms.any (Cmp.holds q e)
  | Clause.whereIn field _ placeholders =>
    match fieldValue e field with
    | some v => placeholders.any (fun n => q.arg n == some v)
    | none => false

/-- The rows of `S` that satisfy the conditions which `q2` has on top of `q1`
(the conditions a filter added when it took the query from `q1` to `q2`). -/
def selectAdded (q1 q2 : Select) (S : List ReconciliationEntity) : List ReconciliationEntity :=
  S.filter (fun e => (q2.clauses.drop q1.clauses.length).all (Clause.holds q2 e))

/-! ## The filters -/

/-- The concrete filters of `filter.go`; `Limit` carries its private counter
`actualCount`. -/
inductive Filter where
  | Limit (Count actualCount : Int)
  | WithStatuses (Statuses : List String)
  | WithCreationDateAfter (Time : Time)
  | WithCreationDateBefore (Time : Time)
  | WithSchedulingID (SchedulingID : String)
  | WithRuntimeIDs (RuntimeIDs : List String)
  | WithRuntimeID (RuntimeID : String)
  | CurrentlyReconciling
  | CurrentlyReconcilingWithRuntimeID (RuntimeID : String)
  | WithClusterConfigStatus (ClusterConfigStatus : Int)
  deriving DecidableEq, Repr

/-- The function `toInterfaceSlice`: copies the strings, index by index. -/
def toInterfaceSlice (args : List String) : List Value :=
  (List.range args.length).foldl
    (fun result i => match args[i]? with
      | some s => result ++ [Value.str s]
      | none => result) []

/-- The loop of `WithStatuses.FilterByQuery` over the indices of `Statuses`:
` OR ` goes before every comparison but the first. -/
def statusesWhereRaw (column : String) (argsOffset : Nat) (n : Nat) : String × List Cmp :=
  (List.range n).foldl
    (fun acc i =>
      let whereRaw := if i > 0 then acc.1 ++ " OR " else acc.1
      (whereRaw ++ column ++ "=$" ++ toString (argsOffset + i),
       acc.2 ++ [Cmp.mk column CmpOp.eq (argsOffset + i)])) ("", [])

/-- The loop of `WithRuntimeIDs.FilterByQuery` over the indices of
`RuntimeIDs`: every placeholder but the last is followed by a comma, and the
loop is left after the last. -/
def runtimeIDsValues (argsOffset : Nat) (runtimeIDsLen : Nat) : String × List Nat :=
  (List.range runtimeIDsLen).foldl
    (fun acc i =>
      if i = runtimeIDsLen - 1 then
        (acc.1 ++ "$" ++ toString (i + argsOffset), acc.2 ++ [i + argsOffset])
      else
        (acc.1 ++ "$" ++ toString (i + argsOffset) ++ ",", acc.2 ++ [i + argsOffset])) ("", [])

/-- The method `FilterByQuery` of each concrete filter: the query after the
call and the returned error (`none` is Go's nil error). -/
def Filter.FilterByQuery : Filter → Select → Select × Option String
  | Filter.Limit Count _, q => ((q.OrderBy [("Created", "DESC")]).Limit Count, none)
  | Filter.WithStatuses Statuses, q =>
    if Statuses.length < 1 then (q, none)
    else match columnName q "Status" with
      | Except.error err => (q, some err)
      | Except.ok column =>
        let built := statusesWhereRaw column q.NextPlaceholderCount Statuses.length
        (q.WhereRaw built.1 built.2 (toInterfaceSlice Statuses), none)
  | Filter.WithCreationDateAfter Time, q =>
    match columnName q "Created" with
    | Except.error err => (q, some err)
    | Except.ok column =>
      (q.WhereRaw (column ++ ">$" ++ toString q.NextPlaceholderCount)
        [Cmp.mk column CmpOp.gt q.NextPlaceholderCount] [formatMillis Time], none)
  | Filter.WithCreationDateBefore Time, q =>
    match columnName q "Created" with
    | Except.error err => (q, some err)
    | Except.ok column =>
      (q.WhereRaw (column ++ "<$" ++ toString q.NextPlaceholderCount)
        [Cmp.mk column CmpOp.lt q.NextPlaceholderCount] [formatMillis Time], none)
  | Filter.WithSchedulingID SchedulingID, q =>
    (q.Where [("SchedulingID", Value.str SchedulingID)], none)
  | Filter.WithRuntimeIDs RuntimeIDs, q =>
    if RuntimeIDs.length < 1 then (q, none)
    else
      let built := runtimeIDsValues q.NextPlaceholderCount RuntimeIDs.length
      (q.WhereIn "RuntimeID" built.1 built.2 (toInterfaceSlice RuntimeIDs), none)
  | Filter.WithRuntimeID RuntimeID, q =>
    (q.Where [("RuntimeID", Value.str RuntimeID)], none)
  | Filter.CurrentlyReconciling, q =>
    (q.Where [("Finished", Value.bool false)], none)
  | Filter.CurrentlyReconcilingWithRuntimeID RuntimeID, q =>
    (q.Where [("Finished", Value.bool false), ("RuntimeID", Value.str RuntimeID)], none)
  | Filter.WithClusterConfigStatus ClusterConfigStatus, q =>
    (q.Where [("ClusterConfigStatus", Value.int ClusterConfigStatus)], none)

/-- The loop of `WithStatuses.FilterByInstance`: the first status equal to
`string(re.Status)` returns `re`; reading `re.Status` needs `re` non-nil. -/
def statusesLoop : List String → Option ReconciliationEntity →
    Except Fault (Option ReconciliationEntity)
  | [], _ => Except.ok none
  | _ :: _, none => Except.error Fault.nilDereference
  | s :: rest, some re =>
    if s = re.Status then Except.ok (some re) else statusesLoop rest (some re)

/-- The loop of `WithRuntimeIDs.FilterByInstance`: the first runtime ID equal
to `i.RuntimeID` returns `i`; reading `i.RuntimeID` needs `i` non-nil. -/
def runtimeIDsLoop : List String → Option ReconciliationEntity →
    Except Fault (Option ReconciliationEntity)
  | [], _ => Except.ok none
  | _ :: _, none => Except.error Fault.nilDereference
  | runtimeID :: rest, some i =>
    if i.RuntimeID = runtimeID then Except.ok (some i) else runtimeIDsLoop rest (some i)

/-- The method `FilterByInstance` of each concrete filter: the returned
pointer and the filter after the call, or the fault of reading through nil. -/
def Filter.FilterByInstance : Filter → Option ReconciliationEntity →
    Except Fault (Option ReconciliationEntity × Filter)
  | Filter.Limit Count actualCount, re =>
    if actualCount < Count then Except.ok (re, Filter.Limit Count (actualCount + 1))
    else Except.ok (none, Filter.Limit Count actualCount)
  | Filter.WithStatuses Statuses, re =>
    if Statuses.length < 1 then Except.ok (none, Filter.WithStatuses Statuses)
    else match statusesLoop Statuses re with
      | Except.error x => Except.error x
      | Except.ok r => Except.ok (r, Filter.WithStatuses Statuses)
  | Filter.WithCreationDateAfter Time, re =>
    match re with
    | none => Except.error Fault.nilDereference
    | some i =>
      if Time.nanos < i.Created then Except.ok (some i, Filter.WithCreationDateAfter Time)
      else Except.ok (none, Filter.WithCreationDateAfter Time)
  | Filter.WithCreationDateBefore Time, re =>
    match re with
    | none => Except.error Fault.nilDereference
    | some i =>
      if i.Created < Time.nanos then Except.ok (some i, Filter.WithCreationDateBefore Time)
      else Except.ok (none, Filter.WithCreationDateBefore Time)
  | Filter.WithSchedulingID SchedulingID, re =>
    match re with
    | none => Except.error Fault.nilDereference
    | some i =>
      if i.SchedulingID = SchedulingID then Except.ok (some i, Filter.WithSchedulingID SchedulingID)
      else Except.ok (none, Filter.WithSchedulingID SchedulingID)
  | Filter.WithRuntimeIDs RuntimeIDs, re =>
    if RuntimeIDs.length < 1 then Except.ok (none, Filter.WithRuntimeIDs RuntimeIDs)
    else match runtimeIDsLoop RuntimeIDs re with
      | Except.error x => Except.error x
      | Except.ok r => Except.ok (r, Filter.WithRuntimeIDs RuntimeIDs)
  | Filter.WithRuntimeID RuntimeID, re =>
    match re with
    | none => Except.error Fault.nilDereference
    | some i =>
      if i.RuntimeID = RuntimeID then Except.ok (some i, Filter.WithRuntimeID RuntimeID)
      else Except.ok (none, Filter.WithRuntimeID RuntimeID)
  | Filter.CurrentlyReconciling, re =>
    match re with
    | none => Except.error Fault.nilDereference
    | some i =>
      if !i.Finished then Except.ok (some i, Filter.CurrentlyReconciling)
      else Except.ok (none, Filter.CurrentlyReconciling)
  | Filter.CurrentlyReconcilingWithRuntimeID RuntimeID, re =>
    match re with
    | none => Except.error Fault.nilDereference
    | some i =>
      if !i.Finished && i.RuntimeID = RuntimeID then
        Except.ok (some i, Filter.CurrentlyReconcilingWithRuntimeID RuntimeID)
      else Except.ok (none, Filter.CurrentlyReconcilingWithRuntimeID RuntimeID)
  | Filter.WithClusterConfigStatus ClusterConfigStatus, re =>
    match re with
    | none => Except.error Fault.nilDereference
    | some i =>
      if i.ClusterConfigStatus = ClusterConfigStatus then
        Except.ok (some i, Filter.WithClusterConfigStatus ClusterConfigStatus)
      else Except.ok (none, Filter.WithClusterConfigStatus ClusterConfigStatus)

/-- The type `FilterMixer`: a list of filters applied together. -/
structure FilterMixer where
  Filters : List Filter
  deriving DecidableEq, Repr

/-- The loop of `FilterMixer.FilterByInstance` from filter `i` on: `entity`
is passed to the filter and replaced by its result; a nil result leaves the
loop, so the filters behind it are not called. -/
def instanceLoop : List Filter → Option ReconciliationEntity →
    Except Fault (Option ReconciliationEntity × List Filter)
  | [], entity => Except.ok (entity, [])
  | f :: rest, entity =>
    match f.FilterByInstance entity with
    | Except.error x => Except.error x
    | Except.ok (entity1, f1) =>
      if entity1 = none then Except.ok (none, f1 :: rest)
      else match instanceLoop rest entity1 with
        | Except.error x => Except.error x
        | Except.ok (result, rest1) => Except.ok (result, f1 :: rest1)

/-- The method `FilterMixer.FilterByInstance`. -/
def FilterMixer.FilterByInstance (fm : FilterMixer) (re : Option ReconciliationEntity) :
    Except Fault (Option ReconciliationEntity × FilterMixer) :=
  match instanceLoop fm.Filters re with
  | Except.error x => Except.error x
  | Except.ok (entity, filters) => Except.ok (entity, FilterMixer.mk filters)

/-- The loop of `FilterMixer.FilterByQuery`: the first error is returned and
the filters behind it are not applied. -/
def queryLoop : List Filter → Select → Select × Option String
  | [], q => (q, none)
  | f :: rest, q =>
    match f.FilterByQuery q with
    | (q1, some err) => (q1, some err)
    | (q1, none) => queryLoop rest q1

/-- The method `FilterMixer.FilterByQuery`. -/
def FilterMixer.FilterByQuery (fm : FilterMixer) (q : Select) : Select × Option String :=
  queryLoop fm.Filters q

/-! ## Derived notions used to state the properties -/

/-- Does the instance form of `F` keep the (non-nil) entity `e`, that is,
return a non-nil pointer? -/
def keptBy (F : Filter) (e : ReconciliationEntity) : Bool :=
  match F.FilterByInstance (some e) with
  | Except.ok (some _, _) => true
  | _ => false

/-- The filter after its instance form was called on the (non-nil) entity `e`. -/
def Filter.after (F : Filter) (e : ReconciliationEntity) : Filter :=
  match F.FilterByInstance (some e) with
  | Except.ok (_, F1) => F1
  | Except.error _ => F

/-- The filters without mutable state: all but `Limit`. -/
def Filter.stateless : Filter → Bool
  | Filter.Limit _ _ => false
  | _ => true

/-- The entities of `S` that the instance form of `F` keeps, each entity
being offered to the filter as constructed (the filter's state is not
carried from one entity to the next). -/
def keptOf (F : Filter) (S : List ReconciliationEntity) : List ReconciliationEntity :=
  S.filter (keptBy F)

/-- A mixer applied to a sequence of (non-nil) entities in order, the state of
its filters carried from one call to the next: the entities it returned and
the mixer after the last call. -/
def applyInOrder : FilterMixer → List ReconciliationEntity →
    Except Fault (List ReconciliationEntity × FilterMixer)
  | fm, [] => Except.ok ([], fm)
  | fm, e :: es =>
    match fm.FilterByInstance (some e) with
    | Except.error x => Except.error x
    | Except.ok (r, fm1) =>
      match applyInOrder fm1 es with
      | Except.error x => Except.error x
      | Except.ok (kept, fm2) =>
        Except.ok ((match r with
          | some x => x :: kept
          | none => kept), fm2)

/-- The pointer returned by a call of an instance form, the receiver after
the call left out. -/
def returned {α : Type} (r : Except Fault (Option ReconciliationEntity × α)) :
    Except Fault (Option ReconciliationEntity) :=
  match r with
  | Except.ok (x, _) => Except.ok x
  | Except.error x => Except.error x

/-- The column handler of `q` knows every field of the entity and maps
different fields to different columns. -/
def columnsResolve (q : Select) : Bool :=
  entityFields.all (fun f =>
    match q.columns.lookup f with
    | some c => entityFields.find? (fun g => q.columns.lookup g == some c) == some f
    | none => false)

/-- The column handler used in the examples: snake-case column names. -/
def exampleColumns : List (String × String) :=
  [("RuntimeID", "runtime_id"), ("ClusterConfigStatus", "cluster_config_status"),
   ("Finished", "finished"), ("SchedulingID", "scheduling_id"),
   ("Created", "created"), ("Status", "status")]

/-- An empty query over the example columns. -/
def exampleSelect : Select :=
  { columns := exampleColumns, clauses := [], args := [], orderBy := [], limit := none }

/-- The entities of `S` that the text of a creation-date filter tells apart
from `Time`: the query form compares `Created` with the instant read from the
text (`cutToMillis`: the wall clock of `Time` cut to whole milliseconds), the
instance form with the instant of `Time`, so the two forms differ on an
entity created between these two instants. The check is true when `S` has no
such entity, which is always so when `Time` is in UTC and a whole number of
milliseconds. -/
def clearOfDateCut (S : List ReconciliationEntity) : Filter → Bool
  | Filter.WithCreationDateAfter Time =>
    S.all (fun e =>
      !(decide (cutToMillis Time < e.Created) && decide (e.Created ≤ Time.nanos))
      && !(decide (Time.nanos < e.Created) && decide (e.Created ≤ cutToMillis Time)))
  | Filter.WithCreationDateBefore Time =>
    S.all (fun e =>
      !(decide (cutToMillis Time ≤ e.Created) && decide (e.Created < Time.nanos))
      && !(decide (Time.nanos ≤ e.Created) && decide (e.Created < cutToMillis Time)))
  | _ => true

/-- The filters whose two forms agree on the collection `S`: every filter but
`Limit`, the two list filters with an empty list, and a creation-date filter
when `S` has an entity that the text of the filter tells apart from `Time`. -/
def coherentOn (S : List ReconciliationEntity) : Filter → Bool
  | Filter.Limit _ _ => false
  | Filter.WithStatuses Statuses => !Statuses.isEmpty
  | Filter.WithRuntimeIDs RuntimeIDs => !RuntimeIDs.isEmpty
  | F => clearOfDateCut S F

/-- An entity used in the examples. -/
def exampleEntity : ReconciliationEntity :=
  { RuntimeID := "r1", ClusterConfigStatus := 7, Finished := false,
    SchedulingID := "s1", Created := 1500000, Status := "reconciling" }

/-- A finished entity used in the examples. -/
def finishedEntity : ReconciliationEntity :=
  { RuntimeID := "r2", ClusterConfigStatus := 7, Finished := true,
    SchedulingID := "s2", Created := 1200000, Status := "ready" }

/-- One filter applied to a sequence of (non-nil) entities in order, its state
carried from one call to the next: the pointer returned for each arrival and
the filter after the last call. -/
def applySuccessively : Filter → List ReconciliationEntity →
    Except Fault (List (Option ReconciliationEntity) × Filter)
  | F, [] => Except.ok ([], F)
  | F, e :: es =>
    match F.FilterByInstance (some e) with
    | Except.error x => Except.error x
    | Except.ok (r, F1) =>
      match applySuccessively F1 es with
      | Except.error x => Except.error x
      | Except.ok (rs, F2) => Except.ok (r :: rs, F2)

/-- The filters of a list applied to a query one after the other, errors
disregarded: the query after the last call. -/
def queryAfter (fs : List Filter) (q : Select) : Select :=
  fs.foldl (fun q1 f => (f.FilterByQuery q1).1) q

/-- Does the row of `e` satisfy the conditions that the query form of `F` adds
to the query `q`? -/
def queryKeeps (F : Filter) (q : Select) (e : ReconciliationEntity) : Bool :=
  ((F.FilterByQuery q).1.clauses.drop q.clauses.length).all
    (Clause.holds (F.FilterByQuery q).1 e)

/-- The pointers that the loop of `FilterMixer.FilterByInstance` passes to the
filters, in call order: the loop run on the filters and the pointer, with
every argument of a call recorded. -/
def calledWith : List Filter → Option ReconciliationEntity → List (Option ReconciliationEntity)
  | [], _ => []
  | f :: rest, entity =>
    entity ::
      (match f.FilterByInstance entity with
      | Except.error _ => []
      | Except.ok (entity1, _) => if entity1 = none then [] else calledWith rest entity1)

end Reconciliation

/-! ## Other packages: `pkg/reconciler/instances/istio/bootstrap.go`

A Go string is modelled by the list of its characters (the text is taken to
be valid UTF-8); `len` of a string is its number of bytes in UTF-8. -/

namespace Istio

/-- The constant `istioctlBinaryPathEnvKey`. -/
def istioctlBinaryPathEnvKey : String := "ISTIOCTL_PATH"

/-- The constant `istioctlBinaryPathMaxLen`: 3 times 4096 (maxpath) + 2 colons. -/
def istioctlBinaryPathMaxLen : Nat := 12290

/-- Go's `unicode.IsSpace`: the white space characters of Unicode. -/
def isSpace (c : Char) : Bool :=
  (9 ≤ c.toNat && c.toNat ≤ 13) || c.toNat = 32 || c.toNat = 133 || c.toNat = 160
    || c.toNat = 5760 || (8192 ≤ c.toNat && c.toNat ≤ 8202) || c.toNat = 8232
    || c.toNat = 8233 || c.toNat = 8239 || c.toNat = 8287 || c.toNat = 12288

/-- Go's `strings.TrimSpace`: the string without its leading and trailing
white space. -/
def TrimSpace (s : List Char) : List Char :=
  (s.dropWhile isSpace).rdropWhile isSpace

/-- Go's `strings.Split(s, sep)` for a separator of one character: the pieces
of `s` between the separators, in order (one piece more than separators). -/
def Split : List Char → Char → List (List Char)
  | [], _ => [[]]
  | c :: cs, sep =>
    if c = sep then [] :: Split cs sep
    else match Split cs sep with
      | [] => [[c]]
      | piece :: pieces => (c :: piece) :: pieces

/-- Go's `len(s)` for a string: its number of bytes. -/
def len (s : List Char) : Nat := (s.map Char.utf8Size).sum

/-- The loop of `parsePaths` over `pathDefs`, entered with the paths collected
so far: the first empty or invalid path returns a nil list and the error. -/
def pathsLoop (isValid : List Char → Option String) :
    List (List Char) → List (List Char) → Option (List (List Char)) × Option String
  | [], res => (some res, none)
  | path :: rest, res =>
    if TrimSpace path = [] then (none, some "Invalid (empty) path provided")
    else match isValid (TrimSpace path) with
      | some err => (none, some err)
      | none => pathsLoop isValid rest (res ++ [TrimSpace path])

/-- The function `parsePaths`: the list of paths (`none` is the nil slice) and
the error (`none` is the nil error). `isValid` returns the error of a path,
`none` for a valid one. -/
def parsePaths (input : List Char) (isValid : List Char → Option String) :
    Option (List (List Char)) × Option String :=
  if TrimSpace input = [] then (none, some "No paths defined")
  else if len (TrimSpace input) > istioctlBinaryPathMaxLen then
    (none, some (istioctlBinaryPathEnvKey
      ++ " env variable exceeds the maximum istio path limit of "
      ++ toString istioctlBinaryPathMaxLen ++ " characters"))
  else pathsLoop isValid (Split (TrimSpace input) ':') []

/-- Go's `strings.Join(elems, sep)` for a separator of one character: the
elements in order with the separator between them. -/
def Join : List (List Char) → Char → List Char
  | [], _ => []
  | [a], _ => a
  | a :: b :: rest, sep => a ++ sep :: Join (b :: rest) sep

end Istio

/-! ## `pkg/reconciler/instances/ory/hydra/hydra.go`

A `time.Time` is the instant it denotes, an `Int` count of nanoseconds since
the Unix epoch. The Kubernetes client is an external collaborator: it is
taken as a parameter that lists pods and patches deployments. -/

namespace Hydra

/-- The fields of a `corev1.Pod` that `hydra.go` reads: `Name`,
`Status.Phase` and `CreationTimestamp`. -/
structure Pod where
  Name : String
  Phase : String
  CreationTimestamp : Int
  deriving DecidableEq, Repr

/-- The constant `corev1.PodRunning`. -/
def PodRunning : String := "Running"

/-- The constant `hydraPodName`. -/
def hydraPodName : String := "app.kubernetes.io/name=hydra"

/-- The constant `hydraMaesterPodName`. -/
def hydraMaesterPodName : String := "app.kubernetes.io/name=hydra-maester"

/-- The constant `hydraMaesterDeployment`. -/
def hydraMaesterDeployment : String := "ory-hydra-maester"

/-- The part of `kubernetes.Interface` that `hydra.go` calls:
`CoreV1().Pods(namespace).List` with a label selector, and
`AppsV1().Deployments(namespace).Patch` of a named deployment (`none` is the
nil error). -/
structure Client where
  listPods : String → String → Except String (List Pod)
  patchDeployment : String → String → Option String

/-- The value `time.Date(9999, 12, 31, 12, 59, 59, 59, time.UTC)`. -/
def maxStartTime : Int := 253402261199 * 1000000000 + 59

/-- The zero value `time.Time{}`: January 1, year 1, 00:00:00 UTC. -/
def zeroTime : Int := -62135596800 * 1000000000

/-- The loop of `getEarliestPodStartTime` over `podList.Items`, entered with
the earliest start time found so far: a running pod created before it
replaces it. -/
def earliestLoop : List Pod → Int → Int
  | [], earliestPodStartTime => earliestPodStartTime
  | pod :: rest, earliestPodStartTime =>
    if pod.Phase = PodRunning then
      if pod.CreationTimestamp < earliestPodStartTime then
        earliestLoop rest pod.CreationTimestamp
      else earliestLoop rest earliestPodStartTime
    else earliestLoop rest earliestPodStartTime

/-- The function `getEarliestPodStartTime`: the returned time and error
(`none` is the nil error). -/
def getEarliestPodStartTime (label : String) (client : Client) (kubeNamespace : String) :
    Int × Option String :=
  match client.listPods kubeNamespace label with
  | Except.error err => (zeroTime, some ("failed to read pods for label " ++ label ++ ": " ++ err))
  | Except.ok items =>
    if items.length < 1 then
      (zeroTime, some ("Could not find pods for label " ++ label ++ " in namespace "
        ++ kubeNamespace))
    else if earliestLoop items maxStartTime = maxStartTime then
      (zeroTime, some ("Could not find any running pod for label " ++ label
        ++ " in namespace " ++ kubeNamespace))
    else (earliestLoop items maxStartTime, none)

/-- The function `restartHydraMaesterDeploymentNeeded`: the last line is
`earliestHydraPodStartTime.After(earliestHydraMaesterPodStartTime)`. -/
def restartHydraMaesterDeploymentNeeded (client : Client) (kubeNamespace : String) :
    Bool × Option String :=
  match getEarliestPodStartTime hydraPodName client kubeNamespace with
  | (_, some err) => (false, some err)
  | (earliestHydraPodStartTime, none) =>
    match getEarliestPodStartTime hydraMaesterPodName client kubeNamespace with
    | (_, some err) => (false, some err)
    | (earliestHydraMaesterPodStartTime, none) =>
      (decide (earliestHydraMaesterPodStartTime < earliestHydraPodStartTime), none)

/-- The method `TriggerSynchronization`: whether the patch of the
`ory-hydra-maester` deployment was sent, and the returned error. -/
def TriggerSynchronization (client : Client) (kubeNamespace : String) : Bool × Option String :=
  match restartHydraMaesterDeploymentNeeded client kubeNamespace with
  | (_, some err) => (false, some ("Failed to determine hydra pod status: " ++ err))
  | (true, none) =>
    match client.patchDeployment kubeNamespace hydraMaesterDeployment with
    | some err => (true, some ("Failed to patch ory hydra-maester deployment: " ++ err))
    | none => (true, none)
  | (false, none) => (false, none)

/-- A cluster with one running pod per label, created at the given instants;
every patch succeeds. -/
def exampleClient (hydraCreated maesterCreated : Int) : Client :=
  { listPods := fun _ label =>
      if label = hydraPodName then
        Except.ok [Pod.mk "ory-hydra-0" PodRunning hydraCreated]
      else if label = hydraMaesterPodName then
        Except.ok [Pod.mk "ory-hydra-maester-0" PodRunning maesterCreated]
      else Except.ok [],
    patchDeployment := fun _ _ => none }

end Hydra

/-! ## `pkg/cluster`: the inventory

Only the tests of the inventory (`inventory_test.go`) are among the sources;
the inventory itself is modelled from the specification. Versions, IDs and
times are `Int`; every operation takes the store and returns the store after
it, and the operations that write take the current time. -/

namespace Cluster

/-- Modelled from the spec: the status enumeration `model.Status` (its
declaration is not among the sources; the tests name the constants). -/
inductive Status where
  | ReconcilePending
  | Reconciling
  | Ready
  | ReconcileError
  | ReconcileErrorRetryable
  | DeletePending
  | Deleting
  | DeleteError
  | Deleted
  deriving DecidableEq, Repr

/-- Modelled from the spec: the error kinds of the inventory (section 7). -/
inductive Error where
  | NotFound
  | InvalidArgument
  | TransactionAborted
  | PersistenceUnavailable
  | Internal
  deriving DecidableEq, Repr

/-- Modelled from the spec: a component record of the wire form, with its
name, namespace, URL and configuration entries. -/
structure Component where
  Name : String
  Namespace : String
  URL : String
  Configuration : List (String × String)
  deriving DecidableEq, Repr

/-- Modelled from the spec: the `KymaConfig` part of the wire form. -/
structure KymaConfig where
  Profile : String
  Version : String
  Components : List Component
  Administrators : List String
  deriving DecidableEq, Repr

/-- Modelled from the spec: the cluster record wire form `keb.Cluster`
consumed by `CreateOrUpdate`; `Metadata` and `RuntimeInput` are blobs. -/
structure KebCluster where
  RuntimeID : String
  Metadata : String
  RuntimeInput : String
  KymaConfig : KymaConfig
  deriving DecidableEq, Repr

/-- Modelled from the spec: a row of the `cluster` table. -/
structure ClusterEntity where
  RuntimeID : String
  Version : Int
  Contract : Int
  Metadata : String
  Runtime : String
  deriving DecidableEq, Repr

/-- Modelled from the spec: a row of the `cluster_configuration` table. -/
structure ClusterConfigurationEntity where
  RuntimeID : String
  Version : Int
  ClusterVersion : Int
  Contract : Int
  KymaVersion : String
  KymaProfile : String
  Components : List Component
  Administrators : List String
  deriving DecidableEq, Repr

/-- Modelled from the spec: a row of the `cluster_status` table. -/
structure ClusterStatusEntity where
  ID : Int
  RuntimeID : String
  ConfigVersion : Int
  Status : Status
  Created : Int
  deriving DecidableEq, Repr

/-- Modelled from the spec: a `State`, the snapshot of a cluster, its
configuration and its status, carried by value. -/
structure State where
  Cluster : ClusterEntity
  Configuration : ClusterConfigurationEntity
  Status : ClusterStatusEntity
  deriving DecidableEq, Repr

/-- Modelled from the spec: the store behind the inventory, its three tables
in insertion order and the sequence that numbers the status rows. -/
structure Inventory where
  clusters : List ClusterEntity
  configurations : List ClusterConfigurationEntity
  statuses : List ClusterStatusEntity
  nextStatusID : Int
  deriving DecidableEq, Repr

/-- The row with the greatest key (the latest version or ID), if any. -/
def latestBy {α : Type} (key : α → Int) : List α → Option α
  | [] => none
  | x :: xs =>
    match latestBy key xs with
    | none => some x
    | some y => if key x < key y then some y else some x

/-- Modelled from the spec: the latest Cluster of a RuntimeID (greatest
`Version`). -/
def latestCluster (inv : Inventory) (runtimeID : String) : Option ClusterEntity :=
  latestBy (fun c => c.Version) (inv.clusters.filter (fun c => c.RuntimeID = runtimeID))

/-- Modelled from the spec: the latest Configuration of a Cluster Version
(greatest `Version` among the configurations that point to it). -/
def latestConfiguration (inv : Inventory) (runtimeID : String) (clusterVersion : Int) :
    Option ClusterConfigurationEntity :=
  latestBy (fun c => c.Version)
    (inv.configurations.filter
      (fun c => c.RuntimeID = runtimeID ∧ c.ClusterVersion = clusterVersion))

/-- The status rows of a Configuration, in the order of the store. -/
def statusRows (inv : Inventory) (runtimeID : String) (configVersion : Int) :
    List ClusterStatusEntity :=
  inv.statuses.filter (fun s => s.RuntimeID = runtimeID ∧ s.ConfigVersion = configVersion)

/-- Modelled from the spec: the latest Status of a Configuration (greatest
`ID`). -/
def latestStatus (inv : Inventory) (runtimeID : String) (configVersion : Int) :
    Option ClusterStatusEntity :=
  latestBy (fun s => s.ID) (statusRows inv runtimeID configVersion)

/-- Modelled from the spec: the canonical form of a component list used when
configurations are compared, the components sorted by name. -/
def sortedComponents (components : List Component) : List Component :=
  components.insertionSort (fun a b => a.Name ≤ b.Name)

/-- Modelled from the spec: step (1) of `CreateOrUpdate`. The latest Cluster
of the RuntimeID is fetched; if it is absent or its `Metadata` or `Runtime`
differ from the submission, a new Cluster Version is inserted. -/
def createCluster (inv : Inventory) (contract : Int) (cluster : KebCluster) :
    Inventory × ClusterEntity :=
  match latestCluster inv cluster.RuntimeID with
  | some old =>
    if old.Metadata = cluster.Metadata ∧ old.Runtime = cluster.RuntimeInput then (inv, old)
    else
      let new : ClusterEntity :=
        { RuntimeID := cluster.RuntimeID, Version := old.Version + 1, Contract := contract,
          Metadata := cluster.Metadata, Runtime := cluster.RuntimeInput }
      ({ inv with clusters := inv.clusters ++ [new] }, new)
  | none =>
    let new : ClusterEntity :=
      { RuntimeID := cluster.RuntimeID, Version := 1, Contract := contract,
        Metadata := cluster.Metadata, Runtime := cluster.RuntimeInput }
    ({ inv with clusters := inv.clusters ++ [new] }, new)

/-- Modelled from the spec: content equality of a stored Configuration and a
submission, over profile, version, sorted components and administrators. -/
def sameConfiguration (old : ClusterConfigurationEntity) (cluster : KebCluster) : Bool :=
  old.KymaProfile = cluster.KymaConfig.Profile ∧ old.KymaVersion = cluster.KymaConfig.Version
    ∧ sortedComponents old.Components = sortedComponents cluster.KymaConfig.Components
    ∧ old.Administrators = cluster.KymaConfig.Administrators

/-- Modelled from the spec: the Configuration Version that a new configuration
of a RuntimeID gets, one more than the greatest so far, 1 for the first. -/
def nextConfigurationVersion (inv : Inventory) (runtimeID : String) : Int :=
  match latestBy (fun c => c.Version)
      (inv.configurations.filter (fun c => c.RuntimeID = runtimeID)) with
  | some c => c.Version + 1
  | none => 1

/-- Modelled from the spec: the Configuration row minted for a submission and
a Cluster Version. -/
def newConfiguration (inv : Inventory) (contract : Int) (cluster : KebCluster)
    (clusterEntity : ClusterEntity) : ClusterConfigurationEntity :=
  { RuntimeID := clusterEntity.RuntimeID,
    Version := nextConfigurationVersion inv clusterEntity.RuntimeID,
    ClusterVersion := clusterEntity.Version, Contract := contract,
    KymaVersion := cluster.KymaConfig.Version, KymaProfile := cluster.KymaConfig.Profile,
    Components := cluster.KymaConfig.Components,
    Administrators := cluster.KymaConfig.Administrators }

/-- Modelled from the spec: step (2) of `CreateOrUpdate`. The latest
Configuration of the current Cluster Version is fetched; if it is absent or
content-inequal, a new Configuration Version is inserted. The flag tells
whether one was minted. -/
def createConfiguration (inv : Inventory) (contract : Int) (cluster : KebCluster)
    (clusterEntity : ClusterEntity) : Inventory × ClusterConfigurationEntity × Bool :=
  match latestConfiguration inv clusterEntity.RuntimeID clusterEntity.Version with
  | some old =>
    if sameConfiguration old cluster then (inv, old, false)
    else
      ({ inv with configurations :=
          inv.configurations ++ [newConfiguration inv contract cluster clusterEntity] },
        newConfiguration inv contract cluster clusterEntity, true)
  | none =>
    ({ inv with configurations :=
        inv.configurations ++ [newConfiguration inv contract cluster clusterEntity] },
      newConfiguration inv contract cluster clusterEntity, true)

/-- Modelled from the spec: a Status row appended for a Configuration; it
takes the next ID of the sequence. -/
def appendStatus (inv : Inventory) (config : ClusterConfigurationEntity) (status : Status)
    (now : Int) : Inventory × ClusterStatusEntity :=
  let new : ClusterStatusEntity :=
    { ID := inv.nextStatusID, RuntimeID := config.RuntimeID, ConfigVersion := config.Version,
      Status := status, Created := now }
  ({ inv with statuses := inv.statuses ++ [new], nextStatusID := inv.nextStatusID + 1 }, new)

/-- Modelled from the spec: `CreateOrUpdate(contract, desiredCluster)`. Steps
(1) and (2) as above; (3) if a new Configuration Version was minted, an
initial `ReconcilePending` status is appended; (4) the resulting State is
returned. -/
def CreateOrUpdate (inv : Inventory) (contract : Int) (cluster : KebCluster) (now : Int) :
    Except Error (Inventory × State) :=
  match createConfiguration (createCluster inv contract cluster).1 contract cluster
      (createCluster inv contract cluster).2 with
  | (inv2, config, true) =>
    Except.ok ((appendStatus inv2 config Status.ReconcilePending now).1,
      State.mk (createCluster inv contract cluster).2 config
        (appendStatus inv2 config Status.ReconcilePending now).2)
  | (inv2, config, false) =>
    match latestStatus inv2 config.RuntimeID config.Version with
    | some status =>
      Except.ok (inv2, State.mk (createCluster inv contract cluster).2 config status)
    | none => Except.error Error.NotFound

/-- Modelled from the spec: `UpdateStatus(state, newStatus)`. A Status row is
appended for the state's own Configuration only if the new status differs
from the latest stored for that Configuration (section 3); otherwise nothing
is written and the state is returned with that latest status, which for a
current state is the state unchanged. The test "Get clusters with particular
status" updates a state whose status is no longer the latest and needs this
reading. -/
def UpdateStatus (inv : Inventory) (state : State) (newStatus : Status) (now : Int) :
    Except Error (Inventory × State) :=
  match latestStatus inv state.Configuration.RuntimeID state.Configuration.Version with
  | some old =>
    if old.Status = newStatus then Except.ok (inv, { state with Status := old })
    else
      Except.ok ((appendStatus inv state.Configuration newStatus now).1,
        { state with Status := (appendStatus inv state.Configuration newStatus now).2 })
  | none =>
    Except.ok ((appendStatus inv state.Configuration newStatus now).1,
      { state with Status := (appendStatus inv state.Configuration newStatus now).2 })

/-- The sentence of section 4.D read by the letter: a Status row is appended
if and only if the new status differs from `state.Status.Status`, the status
of the caller's snapshot. -/
def UpdateStatusBySnapshot (inv : Inventory) (state : State) (newStatus : Status) (now : Int) :
    Except Error (Inventory × State) :=
  if state.Status.Status = newStatus then Except.ok (inv, state)
  else
    Except.ok ((appendStatus inv state.Configuration newStatus now).1,
      { state with Status := (appendStatus inv state.Configuration newStatus now).2 })

/-- Modelled from the spec: `GetLatest(runtimeID)`, the latest Cluster, its
latest Configuration and that Configuration's latest Status; `NotFound` when
one of them is absent. -/
def GetLatest (inv : Inventory) (runtimeID : String) : Except Error State :=
  match latestCluster inv runtimeID with
  | none => Except.error Error.NotFound
  | some cluster =>
    match latestConfiguration inv runtimeID cluster.Version with
    | none => Except.error Error.NotFound
    | some config =>
      match latestStatus inv runtimeID config.Version with
      | none => Except.error Error.NotFound
      | some status => Except.ok (State.mk cluster config status)

/-- The RuntimeIDs of the store, each once. -/
def runtimeIDs (inv : Inventory) : List String :=
  (inv.clusters.map (fun c => c.RuntimeID)).dedup

/-- The latest State of every RuntimeID that has one. -/
def latestStates (inv : Inventory) : List State :=
  (runtimeIDs inv).filterMap (fun r =>
    match GetLatest inv r with
    | Except.ok state => some state
    | Except.error _ => none)

/-- Modelled from the spec: `ClustersToReconcile(reconcileInterval)`. The
latest State of every RuntimeID whose current status is `ReconcilePending` or
`DeletePending`, or is `Ready` or `Deleted` with the last transition older
than `reconcileInterval`; for `reconcileInterval = 0` the age clause is left
out. -/
def ClustersToReconcile (inv : Inventory) (reconcileInterval : Int) (now : Int) : List State :=
  (latestStates inv).filter (fun state =>
    state.Status.Status = Status.ReconcilePending ∨ state.Status.Status = Status.DeletePending
    ∨ (reconcileInterval ≠ 0
        ∧ (state.Status.Status = Status.Ready ∨ state.Status.Status = Status.Deleted)
        ∧ state.Status.Created < now - reconcileInterval))

/-- Modelled from the spec: `ClustersNotReady()`. The latest State of every
RuntimeID whose current status is `Reconciling`, `ReconcileError`, `Deleting`
or `DeleteError`. -/
def ClustersNotReady (inv : Inventory) : List State :=
  (latestStates inv).filter (fun state =>
    state.Status.Status = Status.Reconciling ∨ state.Status.Status = Status.ReconcileError
    ∨ state.Status.Status = Status.Deleting ∨ state.Status.Status = Status.DeleteError)

/-- Modelled from the spec: the walk of `CountRetries` (section 4.F) over the
statuses of a timeline, most recent first; `later` is the status that follows the current one in forward time.
The walk stops at the first `Ready`; before that, every member of the given
status list that is immediately followed by `Reconciling` counts as one
retry. -/
def countLoop (retryable : List Status) : List Status → Option Status → Nat
  | [], _ => 0
  | s :: older, later =>
    if s = Status.Ready then 0
    else
      (if s ∈ retryable ∧ later = some Status.Reconciling then 1 else 0)
        + countLoop retryable older (some s)

/-- Modelled from the spec: `CountRetries(runtimeID, configurationVersion,
window, retryableStatuses...)`, section 4.F. An empty RuntimeID fails with
`InvalidArgument` and the sentinel `-1`. Otherwise the status rows of the
Configuration are taken most recent first (by `ID`), at most `window` of
them, and walked backward: leading statuses outside the list add nothing,
every member of the list immediately followed in forward time by
`Reconciling` is one retry, and the walk stops at the first `Ready`, so that
the count is the one "after the most recent" `Ready` and a timeline with a
final `Ready` gives 0 (scenario S6). -/
def CountRetries (inv : Inventory) (runtimeID : String) (configVersion : Int) (window : Int)
    (retryable : List Status) : Int × Option Error :=
  if runtimeID = "" then (-1, some Error.InvalidArgument)
  else
    (((countLoop retryable
        ((((statusRows inv runtimeID configVersion).insertionSort
            (fun a b => b.ID ≤ a.ID)).take window.toNat).map (fun s => s.Status))
        none : Nat) : Int), none)

/-! ### Derived notions and the scripts of `inventory_test.go` -/

/-- The store is well formed when its status rows are stored in the order of
their IDs and every ID is below the next value of the sequence. Every store
built by the operations from the empty store is well formed. -/
def Inventory.wellFormed (inv : Inventory) : Prop :=
  inv.statuses.Pairwise (fun a b => a.ID < b.ID) ∧ ∀ s ∈ inv.statuses, s.ID < inv.nextStatusID

instance (inv : Inventory) : Decidable inv.wellFormed :=
  inferInstanceAs (Decidable (_ ∧ _))

/-- The status timeline of a Configuration in forward time: the statuses of
its rows by ascending `ID`. -/
def statusTimeline (inv : Inventory) (runtimeID : String) (configVersion : Int) : List Status :=
  ((statusRows inv runtimeID configVersion).insertionSort (fun a b => a.ID ≤ b.ID)).map
    (fun s => s.Status)

/-- The part of a timeline after its most recent `Ready`. -/
def afterLastReady (timeline : List Status) : List Status :=
  timeline.rtakeWhile (fun s => s ≠ Status.Ready)

/-- The number of positions of a timeline at which a member of the given
status list is immediately followed by `Reconciling`. -/
def countPairs (retryable : List Status) : List Status → Nat
  | a :: b :: rest =>
    (if a ∈ retryable ∧ b = Status.Reconciling then 1 else 0) + countPairs retryable (b :: rest)
  | _ => 0

/-- The retries since the most recent `Ready`: the positions after it at which
a member of the status list is immediately followed by `Reconciling`. -/
def retriesSinceReady (retryable : List Status) (timeline : List Status) : Nat :=
  countPairs retryable (afterLastReady timeline)

/-- The empty store. -/
def emptyInventory : Inventory :=
  { clusters := [], configurations := [], statuses := [], nextStatusID := 1 }

/-- A stand-in for the helper `test.NewCluster(t, runtimeID, clusterVersion,
newConfigVersion, ...)` of the tests (not among the sources): a submission
whose cluster content depends on `clusterVersion` and whose configuration
content depends on `newConfigVersion`. -/
def newCluster (runtimeID : String) (clusterVersion : Nat) (newConfigVersion : Bool) :
    KebCluster :=
  { RuntimeID := runtimeID,
    Metadata := "metadata" ++ toString clusterVersion,
    RuntimeInput := "runtime" ++ toString clusterVersion,
    KymaConfig :=
      { Profile := "production",
        Version := if newConfigVersion then "1.2.4" else "1.2.3",
        Components := [Component.mk "istio" "istio-system" "" [],
          Component.mk "cluster-essentials" "kyma-system" "" []],
        Administrators := ["admin"] } }

/-- The variable `clusterStatuses` of `inventory_test.go`. -/
def clusterStatuses : List Status :=
  [Status.ReconcileError, Status.Ready, Status.ReconcilePending, Status.Reconciling,
   Status.DeleteError, Status.Deleted, Status.DeletePending, Status.Deleting]

/-- The function `listStatuses` of `inventory_test.go`. -/
def listStatuses (states : List State) : List Status :=
  states.map (fun state => state.Status.Status)

/-- The loop of the test "Get clusters with particular status" from index
`idx` on, over an `UpdateStatus` given as parameter: for each status a
cluster is created, then the state returned by `CreateOrUpdate` is updated
twice, first to `ReconcileError`, then to the status. -/
def particularStatusLoop
    (update : Inventory → State → Status → Int → Except Error (Inventory × State)) :
    List Status → Nat → Inventory → Except Error Inventory
  | [], _, inv => Except.ok inv
  | clusterStatus :: rest, idx, inv =>
    match CreateOrUpdate inv 1 (newCluster (toString (idx + 1)) 1 false) 0 with
    | Except.error e => Except.error e
    | Except.ok (inv1, clusterState) =>
      match update inv1 clusterState Status.ReconcileError 0 with
      | Except.error e => Except.error e
      | Except.ok (inv2, _) =>
        match update inv2 clusterState clusterStatus 0 with
        | Except.error e => Except.error e
        | Except.ok (inv3, _) => particularStatusLoop update rest (idx + 1) inv3

/-- The loop of the test "Calculate retry count for a retryable cluster":
the cluster is updated to `ReconcileErrorRetryable` and to `Reconciling`,
`n` times. -/
def retryLoop : Nat → Inventory → State → Except Error (Inventory × State)
  | 0, inv, clusterState => Except.ok (inv, clusterState)
  | n + 1, inv, clusterState =>
    match UpdateStatus inv clusterState Status.ReconcileErrorRetryable 0 with
    | Except.error e => Except.error e
    | Except.ok (inv1, clusterState1) =>
      match UpdateStatus inv1 clusterState1 Status.Reconciling 0 with
      | Except.error e => Except.error e
      | Except.ok (inv2, clusterState2) => retryLoop n inv2 clusterState2

/-- The tests of `TestCountRetries` that count: a cluster is created, updated
to `ReconcileErrorRetryable` and to `Ready`, then taken `n` times through the
retry loop, and the retries are counted with the given window. -/
def countRetriesScript (n : Nat) (window : Int) : Except Error (Int × Option Error) :=
  match CreateOrUpdate emptyInventory 1 (newCluster "1" 1 false) 0 with
  | Except.error e => Except.error e
  | Except.ok (inv1, s1) =>
    match UpdateStatus inv1 s1 Status.ReconcileErrorRetryable 0 with
    | Except.error e => Except.error e
    | Except.ok (inv2, s2) =>
      match UpdateStatus inv2 s2 Status.Ready 0 with
      | Except.error e => Except.error e
      | Except.ok (inv3, s3) =>
        match retryLoop n inv3 s3 with
        | Except.error e => Except.error e
        | Except.ok (inv4, s4) =>
          Except.ok (CountRetries inv4 s4.Configuration.RuntimeID s4.Configuration.Version
            window [Status.ReconcileErrorRetryable, Status.ReconcileError])

/-- The store after the first submission of cluster `"1"`. -/
def exampleInventory : Inventory :=
  { clusters := [ClusterEntity.mk "1" 1 1 "metadata1" "runtime1"],
    configurations := [ClusterConfigurationEntity.mk "1" 1 1 1 "1.2.3" "production"
      [Component.mk "istio" "istio-system" "" [],
        Component.mk "cluster-essentials" "kyma-system" "" []] ["admin"]],
    statuses := [ClusterStatusEntity.mk 1 "1" 1 Status.ReconcilePending 0],
    nextStatusID := 2 }

/-- The State returned by the first submission of cluster `"1"`. -/
def exampleState : State :=
  { Cluster := ClusterEntity.mk "1" 1 1 "metadata1" "runtime1",
    Configuration := ClusterConfigurationEntity.mk "1" 1 1 1 "1.2.3" "production"
      [Component.mk "istio" "istio-system" "" [],
        Component.mk "cluster-essentials" "kyma-system" "" []] ["admin"],
    Status := ClusterStatusEntity.mk 1 "1" 1 Status.ReconcilePending 0 }

/-- The test "Get clusters with particular status" as a whole, over an
`UpdateStatus` given as parameter: the statuses listed from
`ClustersToReconcile(0)` and from `ClustersNotReady()` after the loop. -/
def particularStatusTest
    (update : Inventory → State → Status → Int → Except Error (Inventory × State)) :
    Option (List Status × List Status) :=
  match particularStatusLoop update clusterStatuses 0 emptyInventory with
  | Except.ok inv =>
    some (listStatuses (ClustersToReconcile inv 0 0), listStatuses (ClustersNotReady inv))
  | Except.error _ => none

/-- The statuses appended by `n` rounds of the retry loop, in forward time:
`ReconcileErrorRetryable` then `Reconciling`, `n` times. -/
def retryRounds : Nat → List Status
  | 0 => []
  | n + 1 => Status.ReconcileErrorRetryable :: Status.Reconciling :: retryRounds n

/-- The store that the counting tests of `TestCountRetries` build before they
call `CountRetries` (the empty store if a step fails). -/
def retryInventory (n : Nat) : Inventory :=
  match CreateOrUpdate emptyInventory 1 (newCluster "1" 1 false) 0 with
  | Except.error _ => emptyInventory
  | Except.ok (inv1, s1) =>
    match UpdateStatus inv1 s1 Status.ReconcileErrorRetryable 0 with
    | Except.error _ => emptyInventory
    | Except.ok (inv2, s2) =>
      match UpdateStatus inv2 s2 Status.Ready 0 with
      | Except.error _ => emptyInventory
      | Except.ok (inv3, s3) =>
        match retryLoop n inv3 s3 with
        | Except.error _ => emptyInventory
        | Except.ok (inv4, _) => inv4

end Cluster

namespace Reconciliation

/-! ## Properties -/

theorem statusesLoop_some (ss : List String) (e : ReconciliationEntity) :
    statusesLoop ss (some e) = Except.ok (if e.Status ∈ ss then some e else none) := by
  induction ss with
  | nil => simp [statusesLoop]
  | cons s rest ih =>
    by_cases h : s = e.Status
    · simp [statusesLoop, h]
    · have h2 : ¬ e.Status = s := fun h3 => h h3.symm
      simp [statusesLoop, h, h2, ih]

theorem runtimeIDsLoop_some (rs : List String) (e : ReconciliationEntity) :
    runtimeIDsLoop rs (some e) = Except.ok (if e.RuntimeID ∈ rs then some e else none) := by
  induction rs with
  | nil => simp [runtimeIDsLoop]
  | cons r rest ih =>
    by_cases h : e.RuntimeID = r
    · simp [runtimeIDsLoop, h]
    · simp [runtimeIDsLoop, h, ih]

theorem filterByInstance_some (F : Filter) (e : ReconciliationEntity) :
    F.FilterByInstance (some e)
      = Except.ok (if keptBy F e then some e else none, F.after e) := by
  cases F <;> simp only [keptBy, Filter.after, Filter.FilterByInstance,
    statusesLoop_some, runtimeIDsLoop_some] <;> split_ifs <;> simp_all

theorem keptBy_withStatuses (L : List String) (e : ReconciliationEntity) :
    keptBy (Filter.WithStatuses L) e = decide (e.Status ∈ L) := by
  cases L with
  | nil => simp [keptBy, Filter.FilterByInstance]
  | cons s rest =>
    simp only [keptBy, Filter.FilterByInstance, statusesLoop_some]
    split_ifs <;> simp_all

theorem keptBy_withRuntimeIDs (L : List String) (e : ReconciliationEntity) :
    keptBy (Filter.WithRuntimeIDs L) e = decide (e.RuntimeID ∈ L) := by
  cases L with
  | nil => simp [keptBy, Filter.FilterByInstance]
  | cons s rest =>
    simp only [keptBy, Filter.FilterByInstance, runtimeIDsLoop_some]
    split_ifs <;> simp_all

theorem after_of_stateless (F : Filter) (e : ReconciliationEntity) (h : F.stateless = true) :
    F.after e = F := by
  cases F <;> simp only [Filter.after, Filter.FilterByInstance, statusesLoop_some,
    runtimeIDsLoop_some] <;> first
      | (simp [Filter.stateless] at h; done)
      | (split_ifs <;> simp_all)

theorem instanceLoop_all_kept (fs : List Filter) (e : ReconciliationEntity)
    (h : ∀ f ∈ fs, keptBy f e = true) :
    instanceLoop fs (some e) = Except.ok (some e, fs.map (fun f => f.after e)) := by
  induction fs with
  | nil => simp [instanceLoop]
  | cons f rest ih =>
    have hf : keptBy f e = true := h f (List.mem_cons_self f rest)
    have hr : ∀ g ∈ rest, keptBy g e = true := fun g hg => h g (List.mem_cons_of_mem f hg)
    simp [instanceLoop, filterByInstance_some, hf, ih hr]

theorem instanceLoop_first_drop (pre : List Filter) (f : Filter) (post : List Filter)
    (e : ReconciliationEntity) (hpre : ∀ g ∈ pre, keptBy g e = true)
    (hf : keptBy f e = false) :
    instanceLoop (pre ++ f :: post) (some e)
      = Except.ok (none, pre.map (fun g => g.after e) ++ f.after e :: post) := by
  induction pre with
  | nil => simp [instanceLoop, filterByInstance_some, hf]
  | cons g rest ih =>
    have hg : keptBy g e = true := hpre g (List.mem_cons_self g rest)
    have hr : ∀ x ∈ rest, keptBy x e = true := fun x hx => hpre x (List.mem_cons_of_mem g hx)
    simp [instanceLoop, filterByInstance_some, hg, ih hr]

theorem instanceLoop_some (fs : List Filter) (e : ReconciliationEntity) :
    ∃ fs1, instanceLoop fs (some e)
      = Except.ok (if fs.all (fun f => keptBy f e) then some e else none, fs1) := by
  induction fs with
  | nil => exact ⟨[], by simp [instanceLoop]⟩
  | cons f rest ih =>
    obtain ⟨r1, hr1⟩ := ih
    by_cases hf : keptBy f e = true
    · refine ⟨f.after e :: r1, ?_⟩
      simp [instanceLoop, filterByInstance_some, hf, hr1]
    · refine ⟨f.after e :: rest, ?_⟩
      simp [instanceLoop, filterByInstance_some, hf]

theorem instanceLoop_stateless (fs : List Filter) (e : ReconciliationEntity)
    (h : ∀ f ∈ fs, f.stateless = true) :
    instanceLoop fs (some e)
      = Except.ok (if fs.all (fun f => keptBy f e) then some e else none, fs) := by
  induction fs with
  | nil => simp [instanceLoop]
  | cons f rest ih =>
    have hf : f.stateless = true := h f (List.mem_cons_self f rest)
    have hr : ∀ g ∈ rest, g.stateless = true := fun g hg => h g (List.mem_cons_of_mem f hg)
    by_cases hk : keptBy f e = true
    · simp [instanceLoop, filterByInstance_some, hk, ih hr, after_of_stateless f e hf]
    · simp [instanceLoop, filterByInstance_some, hk, after_of_stateless f e hf]

/-! ### The mixer in instance form -/

/-- C2: `FilterMixer.FilterByInstance` is a short-circuiting conjunction. For a
non-nil entity `e`: the empty filter list returns `e`; when every filter (in
its current state) keeps `e` the result is `e` and every filter was called;
when `f` is the first filter that drops `e` the result is nil, the filters
up to `f` were called and the filters behind `f` were not (they are
unchanged); the result is `e` exactly when every filter keeps `e`; and for
stateless filters the mixer is left as it was. -/
theorem mixer_filterByInstance_short_circuit (fs : List Filter) (e : ReconciliationEntity) :
    (FilterMixer.mk []).FilterByInstance (some e) = Except.ok (some e, FilterMixer.mk [])
    ∧ ((∀ f ∈ fs, keptBy f e = true) →
        (FilterMixer.mk fs).FilterByInstance (some e)
          = Except.ok (some e, FilterMixer.mk (fs.map (fun f => f.after e))))
    ∧ (∀ pre f post, fs = pre ++ f :: post → (∀ g ∈ pre, keptBy g e = true) →
        keptBy f e = false →
        (FilterMixer.mk fs).FilterByInstance (some e)
          = Except.ok (none, FilterMixer.mk (pre.map (fun g => g.after e) ++ f.after e :: post)))
    ∧ ((∃ fm, (FilterMixer.mk fs).FilterByInstance (some e) = Except.ok (some e, fm))
        ↔ ∀ f ∈ fs, keptBy f e = true)
    ∧ ((∀ f ∈ fs, f.stateless = true) →
        (FilterMixer.mk fs).FilterByInstance (some e)
          = Except.ok (if fs.all (fun f => keptBy f e) then some e else none,
              FilterMixer.mk fs)) := by
  refine ⟨by simp [FilterMixer.FilterByInstance, instanceLoop], ?_, ?_, ?_, ?_⟩
  · intro h
    simp [FilterMixer.FilterByInstance, instanceLoop_all_kept fs e h]
  · intro pre f post hfs hpre hf
    subst hfs
    simp [FilterMixer.FilterByInstance, instanceLoop_first_drop pre f post e hpre hf]
  · obtain ⟨fs1, h1⟩ := instanceLoop_some fs e
    constructor
    · rintro ⟨fm, hfm⟩
      by_cases hall : fs.all (fun f => keptBy f e) = true
      · simpa using hall
      · simp [FilterMixer.FilterByInstance, h1, hall] at hfm
    · intro h
      exact ⟨FilterMixer.mk (fs.map (fun f => f.after e)),
        by simp [FilterMixer.FilterByInstance, instanceLoop_all_kept fs e h]⟩
  · intro h
    simp [FilterMixer.FilterByInstance, instanceLoop_stateless fs e h]

/-- C2, at a concrete input: a mixer whose second filter drops the entity
returns nil and leaves the `Limit` behind it untouched. -/
theorem mixer_filterByInstance_short_circuit_witness :
    (FilterMixer.mk [Filter.CurrentlyReconciling, Filter.WithRuntimeID "r2",
        Filter.Limit 5 0]).FilterByInstance (some exampleEntity)
      = Except.ok (none, FilterMixer.mk [Filter.CurrentlyReconciling,
          Filter.WithRuntimeID "r2", Filter.Limit 5 0]) :=
  (mixer_filterByInstance_short_circuit
      [Filter.CurrentlyReconciling, Filter.WithRuntimeID "r2", Filter.Limit 5 0]
      exampleEntity).2.2.1
    [Filter.CurrentlyReconciling] (Filter.WithRuntimeID "r2") [Filter.Limit 5 0] rfl
    (by decide) (by decide)

/-! ### Frame: an instance form returns its argument or nil -/

/-- C4: for every non-nil entity `e`, the instance form of every concrete
filter and of the mixer returns without fault, and what it returns is either
`e` itself (all fields as they were) or nil. -/
theorem filterByInstance_same_or_nil (F : Filter) (fm : FilterMixer) (e : ReconciliationEntity) :
    (∃ F1, F.FilterByInstance (some e) = Except.ok (some e, F1)
        ∨ F.FilterByInstance (some e) = Except.ok (none, F1))
    ∧ (∃ fm1, fm.FilterByInstance (some e) = Except.ok (some e, fm1)
        ∨ fm.FilterByInstance (some e) = Except.ok (none, fm1)) := by
  constructor
  · refine ⟨F.after e, ?_⟩
    rw [filterByInstance_some]
    by_cases h : keptBy F e = true
    · left; simp [h]
    · right; simp [h]
  · obtain ⟨fs1, h1⟩ := instanceLoop_some fm.Filters e
    refine ⟨FilterMixer.mk fs1, ?_⟩
    by_cases h : fm.Filters.all (fun f => keptBy f e) = true
    · left; simp [FilterMixer.FilterByInstance, h1, h]
    · right; simp [FilterMixer.FilterByInstance, h1, h]

/-! ### The list filters in instance form -/

/-- C5: `WithStatuses.FilterByInstance` keeps a (non-nil) entity exactly when
`string(e.Status)` is an element of the list; the result therefore depends
only on the set of names in the list, not on their order or repetition. (The
statement also covers the empty list, which keeps nothing.) -/
theorem withStatuses_filterByInstance_mem (L : List String) (e : ReconciliationEntity) :
    (Filter.WithStatuses L).FilterByInstance (some e)
        = Except.ok (if e.Status ∈ L then some e else none, Filter.WithStatuses L)
    ∧ (keptBy (Filter.WithStatuses L) e = true ↔ e.Status ∈ L)
    ∧ (∀ L2 : List String, (∀ s, s ∈ L ↔ s ∈ L2) →
        keptBy (Filter.WithStatuses L2) e = keptBy (Filter.WithStatuses L) e) := by
  refine ⟨?_, by simp [keptBy_withStatuses], ?_⟩
  · cases L with
    | nil => simp [Filter.FilterByInstance]
    | cons s rest => simp [Filter.FilterByInstance, statusesLoop_some]
  · intro L2 h
    simp [keptBy_withStatuses, h]

/-- C5, at a concrete input: a list with a repeated name, in another order. -/
theorem withStatuses_filterByInstance_mem_witness :
    keptBy (Filter.WithStatuses ["reconciling", "ready", "reconciling"]) exampleEntity
      = keptBy (Filter.WithStatuses ["ready", "reconciling"]) exampleEntity :=
  (withStatuses_filterByInstance_mem ["ready", "reconciling"] exampleEntity).2.2
    ["reconciling", "ready", "reconciling"] (by intro s; simp; tauto)

/-- C8: for a non-empty list of runtime IDs, `WithRuntimeIDs.FilterByInstance`
keeps a (non-nil) entity exactly when `e.RuntimeID` is an element of the list. -/
theorem withRuntimeIDs_filterByInstance_mem (L : List String) (e : ReconciliationEntity)
    (hL : L ≠ []) :
    (Filter.WithRuntimeIDs L).FilterByInstance (some e)
        = Except.ok (if e.RuntimeID ∈ L then some e else none, Filter.WithRuntimeIDs L)
    ∧ (keptBy (Filter.WithRuntimeIDs L) e = true ↔ e.RuntimeID ∈ L) := by
  refine ⟨?_, by simp [keptBy_withRuntimeIDs]⟩
  cases L with
  | nil => exact absurd rfl hL
  | cons s rest => simp [Filter.FilterByInstance, runtimeIDsLoop_some]

/-- C8, at a concrete input. -/
theorem withRuntimeIDs_filterByInstance_mem_witness :
    ["r0", "r1"] ≠ ([] : List String)
    ∧ (keptBy (Filter.WithRuntimeIDs ["r0", "r1"]) exampleEntity = true
        ↔ exampleEntity.RuntimeID ∈ ["r0", "r1"]) :=
  ⟨by decide,
   (withRuntimeIDs_filterByInstance_mem ["r0", "r1"] exampleEntity (by decide)).2⟩

/-! ### The creation-date filters in instance form -/

/-- C9: the creation-date filters use strict inequality. `WithCreationDateAfter`
keeps a (non-nil) entity exactly when `Created` is strictly after `Time`,
`WithCreationDateBefore` exactly when it is strictly before; an entity created
at `Time` is dropped by both, and no entity is kept by both. The instants are
compared, whatever the Location of `Time`. -/
theorem creationDate_filterByInstance_strict (T : Time) (e : ReconciliationEntity) :
    (Filter.WithCreationDateAfter T).FilterByInstance (some e)
        = Except.ok (if T.nanos < e.Created then some e else none,
            Filter.WithCreationDateAfter T)
    ∧ (Filter.WithCreationDateBefore T).FilterByInstance (some e)
        = Except.ok (if e.Created < T.nanos then some e else none,
            Filter.WithCreationDateBefore T)
    ∧ (keptBy (Filter.WithCreationDateAfter T) e = true ↔ T.nanos < e.Created)
    ∧ (keptBy (Filter.WithCreationDateBefore T) e = true ↔ e.Created < T.nanos)
    ∧ (e.Created = T.nanos → keptBy (Filter.WithCreationDateAfter T) e = false
        ∧ keptBy (Filter.WithCreationDateBefore T) e = false)
    ∧ ¬ (keptBy (Filter.WithCreationDateAfter T) e = true
        ∧ keptBy (Filter.WithCreationDateBefore T) e = true) := by
  have hA : keptBy (Filter.WithCreationDateAfter T) e = decide (T.nanos < e.Created) := by
    simp only [keptBy, Filter.FilterByInstance]
    split_ifs <;> simp_all
  have hB : keptBy (Filter.WithCreationDateBefore T) e = decide (e.Created < T.nanos) := by
    simp only [keptBy, Filter.FilterByInstance]
    split_ifs <;> simp_all
  refine ⟨?_, ?_, by simp [hA], by simp [hB], ?_, ?_⟩
  · simp only [Filter.FilterByInstance]; split_ifs <;> rfl
  · simp only [Filter.FilterByInstance]; split_ifs <;> rfl
  · intro h
    simp [hA, hB, h]
  · simp only [hA, hB, decide_eq_true_eq]
    omega

/-- C9, at a concrete input: an entity created at `Time` is dropped by both. -/
theorem creationDate_filterByInstance_strict_witness :
    keptBy (Filter.WithCreationDateAfter (Time.mk 1500000 0)) exampleEntity = false
      ∧ keptBy (Filter.WithCreationDateBefore (Time.mk 1500000 0)) exampleEntity = false :=
  (creationDate_filterByInstance_strict (Time.mk 1500000 0) exampleEntity).2.2.2.2.1 rfl

/-! ### `CurrentlyReconcilingWithRuntimeID` -/

/-- C10: `CurrentlyReconcilingWithRuntimeID` is the conjunction of
`CurrentlyReconciling` and `WithRuntimeID`: on every pointer (nil included,
where all three fault) its instance form returns what the mixer of the two
filters returns, in either order; a (non-nil) entity is kept exactly when
`Finished` is false and `RuntimeID` is the given one. -/
theorem currentlyReconcilingWithRuntimeID_conjunction (r : String)
    (re : Option ReconciliationEntity) (e : ReconciliationEntity) :
    returned ((Filter.CurrentlyReconcilingWithRuntimeID r).FilterByInstance re)
        = returned ((FilterMixer.mk [Filter.CurrentlyReconciling,
            Filter.WithRuntimeID r]).FilterByInstance re)
    ∧ returned ((Filter.CurrentlyReconcilingWithRuntimeID r).FilterByInstance re)
        = returned ((FilterMixer.mk [Filter.WithRuntimeID r,
            Filter.CurrentlyReconciling]).FilterByInstance re)
    ∧ (Filter.CurrentlyReconcilingWithRuntimeID r).FilterByInstance (some e)
        = Except.ok (if e.Finished = false ∧ e.RuntimeID = r then some e else none,
            Filter.CurrentlyReconcilingWithRuntimeID r)
    ∧ (keptBy (Filter.CurrentlyReconcilingWithRuntimeID r) e = true
        ↔ e.Finished = false ∧ e.RuntimeID = r) := by
  refine ⟨?_, ?_, ?_, ?_⟩
  · cases re with
    | none => simp [returned, FilterMixer.FilterByInstance, instanceLoop, Filter.FilterByInstance]
    | some i =>
      by_cases hf : i.Finished = true <;> by_cases hr : i.RuntimeID = r <;>
        simp [returned, FilterMixer.FilterByInstance, instanceLoop, Filter.FilterByInstance,
          hf, hr]
  · cases re with
    | none => simp [returned, FilterMixer.FilterByInstance, instanceLoop, Filter.FilterByInstance]
    | some i =>
      by_cases hf : i.Finished = true <;> by_cases hr : i.RuntimeID = r <;>
        simp [returned, FilterMixer.FilterByInstance, instanceLoop, Filter.FilterByInstance,
          hf, hr]
  · by_cases hf : e.Finished = true <;> by_cases hr : e.RuntimeID = r <;>
      simp [Filter.FilterByInstance, hf, hr]
  · by_cases hf : e.Finished = true <;> by_cases hr : e.RuntimeID = r <;>
      simp [keptBy, Filter.FilterByInstance, hf, hr]

/-! ### The list filters with an empty list -/

theorem selectAdded_self (q : Select) (S : List ReconciliationEntity) :
    selectAdded q q S = S := by
  simp [selectAdded]

/-- C6: `WithStatuses` with an empty list matches everything in query form and
nothing in instance form. `FilterByQuery` returns the query as it was and a nil
error, whatever the column handler (it is not consulted: with a handler that
does not know `Status` a non-empty list returns the handler's error, the empty
list does not), so the added conditions select every row; `FilterByInstance`
returns nil for every pointer and keeps no entity. -/
theorem withStatuses_empty_asymmetry (q : Select) (re : Option ReconciliationEntity)
    (S : List ReconciliationEntity) :
    (Filter.WithStatuses []).FilterByQuery q = (q, none)
    ∧ selectAdded q ((Filter.WithStatuses []).FilterByQuery q).1 S = S
    ∧ (∀ err, columnName q "Status" = Except.error err →
        (∀ s L, (Filter.WithStatuses (s :: L)).FilterByQuery q = (q, some err))
        ∧ (Filter.WithStatuses []).FilterByQuery q = (q, none))
    ∧ (Filter.WithStatuses []).FilterByInstance re = Except.ok (none, Filter.WithStatuses [])
    ∧ keptOf (Filter.WithStatuses []) S = [] := by
  refine ⟨by simp [Filter.FilterByQuery], ?_, ?_, by simp [Filter.FilterByInstance], ?_⟩
  · simp [Filter.FilterByQuery, selectAdded_self]
  · intro err herr
    refine ⟨?_, by simp [Filter.FilterByQuery]⟩
    intro s L
    simp [Filter.FilterByQuery, herr]
  · simp [keptOf, keptBy_withStatuses]

/-- C6, at a concrete input: a query whose column handler knows no field. -/
theorem withStatuses_empty_asymmetry_witness :
    (∀ s L, (Filter.WithStatuses (s :: L)).FilterByQuery
          { exampleSelect with columns := [] }
        = ({ exampleSelect with columns := [] }, some "no column for field Status"))
    ∧ (Filter.WithStatuses []).FilterByQuery { exampleSelect with columns := [] }
        = ({ exampleSelect with columns := [] }, none) :=
  (withStatuses_empty_asymmetry { exampleSelect with columns := [] } none []).2.2.1
    "no column for field Status" rfl

/-- C7 as stated fails: with an empty list the instance form of
`WithRuntimeIDs` does not return the entity; it returns nil. -/
theorem withRuntimeIDs_empty_instance_drops :
    (Filter.WithRuntimeIDs []).FilterByInstance (some exampleEntity)
        ≠ Except.ok (some exampleEntity, Filter.WithRuntimeIDs [])
    ∧ returned ((Filter.WithRuntimeIDs []).FilterByInstance (some exampleEntity))
        = Except.ok none := by
  constructor
  · simp [Filter.FilterByInstance]
  · simp [returned, Filter.FilterByInstance]

/-- C7, amended: `WithRuntimeIDs` with an empty list is a no-op in query form
only. `FilterByQuery` returns the query as it was and a nil error, so the
added conditions select every row; `FilterByInstance` returns nil for every
pointer and keeps no entity. -/
theorem withRuntimeIDs_empty_query_noop_instance_nil (q : Select)
    (re : Option ReconciliationEntity) (S : List ReconciliationEntity) :
    (Filter.WithRuntimeIDs []).FilterByQuery q = (q, none)
    ∧ selectAdded q ((Filter.WithRuntimeIDs []).FilterByQuery q).1 S = S
    ∧ (Filter.WithRuntimeIDs []).FilterByInstance re
        = Except.ok (none, Filter.WithRuntimeIDs [])
    ∧ keptOf (Filter.WithRuntimeIDs []) S = [] := by
  refine ⟨by simp [Filter.FilterByQuery], ?_, by simp [Filter.FilterByInstance], ?_⟩
  · simp [Filter.FilterByQuery, selectAdded_self]
  · simp [keptOf, keptBy_withRuntimeIDs]

/-! ### `Limit` as the last filter of a mixer -/

theorem instanceLoop_limit_last (Fs : List Filter) (c a : Int) (e : ReconciliationEntity)
    (hFs : ∀ f ∈ Fs, f.stateless = true) :
    instanceLoop (Fs ++ [Filter.Limit c a]) (some e)
      = Except.ok
          (if Fs.all (fun f => keptBy f e) = true ∧ a < c then some e else none,
           Fs ++ [Filter.Limit c
             (if Fs.all (fun f => keptBy f e) = true ∧ a < c then a + 1 else a)]) := by
  induction Fs with
  | nil =>
    by_cases h : a < c <;> simp [instanceLoop, Filter.FilterByInstance, h]
  | cons f rest ih =>
    have hf : f.stateless = true := hFs f (List.mem_cons_self f rest)
    have hr : ∀ g ∈ rest, g.stateless = true := fun g hg => hFs g (List.mem_cons_of_mem f hg)
    by_cases hk : keptBy f e = true
    · by_cases h : (rest.all (fun f => keptBy f e) = true ∧ a < c)
      · simp [instanceLoop, filterByInstance_some, hk, ih hr, after_of_stateless f e hf, h]
      · simp [instanceLoop, filterByInstance_some, hk, ih hr, after_of_stateless f e hf, h]
    · simp [instanceLoop, filterByInstance_some, hk, after_of_stateless f e hf]

theorem applyInOrder_limit_last (Fs : List Filter) (c : Int)
    (hFs : ∀ f ∈ Fs, f.stateless = true) (es : List ReconciliationEntity) :
    ∀ a : Int, 0 ≤ a → a ≤ c →
    applyInOrder (FilterMixer.mk (Fs ++ [Filter.Limit c a])) es
      = Except.ok
          ((es.filter (fun e => Fs.all (fun f => keptBy f e))).take (c - a).toNat,
           FilterMixer.mk (Fs ++ [Filter.Limit c
             (min c (a + ((es.filter (fun e => Fs.all (fun f => keptBy f e))).length : Int)))])) := by
  induction es with
  | nil =>
    intro a _ hac
    simp [applyInOrder, hac]
  | cons e es ih =>
    intro a ha hac
    by_cases hP : Fs.all (fun f => keptBy f e) = true
    · by_cases hlt : a < c
      · have h1 := ih (a + 1) (by omega) (by omega)
        have h2 : (c - a).toNat = (c - (a + 1)).toNat + 1 := by omega
        have h3 : ∀ n : Nat, min c (a + 1 + (n : Int)) = min c (a + ((n + 1 : Nat) : Int)) := by
          intro n
          congr 1
          push_cast
          ring
        simp only [applyInOrder, FilterMixer.FilterByInstance,
          instanceLoop_limit_last Fs c a e hFs, hP, hlt, and_self, if_true, h1,
          List.filter_cons_of_pos, h2, List.take_succ_cons, List.length_cons, h3]
      · have hca : a = c := by omega
        subst hca
        have h1 := ih a ha (le_refl a)
        have h3 : ∀ n : Nat, min a (a + ((n + 1 : Nat) : Int)) = min a (a + (n : Int)) := by
          intro n
          rw [min_eq_left (by omega), min_eq_left (by omega)]
        simp only [applyInOrder, FilterMixer.FilterByInstance,
          instanceLoop_limit_last Fs a a e hFs, hP, lt_irrefl, and_false, if_false, h1,
          List.filter_cons_of_pos, List.length_cons, h3, sub_self, Int.toNat_zero,
          List.take_zero]
    · have h1 := ih a ha hac
      have hfil : (e :: es).filter (fun e => Fs.all (fun f => keptBy f e))
          = es.filter (fun e => Fs.all (fun f => keptBy f e)) :=
        List.filter_cons_of_neg hP
      rw [hfil]
      simp only [applyInOrder, FilterMixer.FilterByInstance,
        instanceLoop_limit_last Fs c a e hFs, hP, Bool.false_eq_true, false_and, if_false, h1]

/-- C3: `Limit` composes as the terminal predicate. For stateless filters `Fs`,
a count `c ≥ 0` and a sequence `es` of (non-nil) entities, the mixer of `Fs`
followed by a fresh `Limit` with `Count = c`, applied to `es` in order, returns
exactly the first `min c m` of the `m` entities that every filter of `Fs`
keeps, in arrival order; afterwards the counter of `Limit` is `min c m`, so
the entities dropped by a filter of `Fs` did not advance it. -/
theorem limit_terminal_keeps_first (Fs : List Filter) (c : Int)
    (es : List ReconciliationEntity) (hFs : ∀ f ∈ Fs, f.stateless = true) (hc : 0 ≤ c) :
    applyInOrder (FilterMixer.mk (Fs ++ [Filter.Limit c 0])) es
      = Except.ok
          ((es.filter (fun e => Fs.all (fun f => keptBy f e))).take
              (min c.toNat (es.filter (fun e => Fs.all (fun f => keptBy f e))).length),
           FilterMixer.mk (Fs ++ [Filter.Limit c
             (min c ((es.filter (fun e => Fs.all (fun f => keptBy f e))).length : Int))])) := by
  have h := applyInOrder_limit_last Fs c hFs es 0 (le_refl 0) hc
  simp only [sub_zero, zero_add] at h
  rw [h]
  congr 2
  exact List.take_eq_take.mpr (by simp)

/-- C3, at a concrete input: of three arrivals, the finished one is dropped
without advancing the counter and the first unfinished one is kept. -/
theorem limit_terminal_keeps_first_witness :
    applyInOrder (FilterMixer.mk ([Filter.CurrentlyReconciling] ++ [Filter.Limit 1 0]))
        [finishedEntity, exampleEntity, exampleEntity]
      = Except.ok ([exampleEntity],
          FilterMixer.mk [Filter.CurrentlyReconciling, Filter.Limit 1 1]) :=
  limit_terminal_keeps_first [Filter.CurrentlyReconciling] 1
    [finishedEntity, exampleEntity, exampleEntity] (by decide) (by decide)

/-! ### Coherence of the query form and the instance form -/

theorem toInterfaceSlice_eq_map (args : List String) :
    toInterfaceSlice args = args.map Value.str := by
  have h : ∀ n, n ≤ args.length →
      (List.range n).foldl
        (fun result i => match args[i]? with
          | some s => result ++ [Value.str s]
          | none => result) [] = (args.take n).map Value.str := by
    intro n
    induction n with
    | zero => simp
    | succ k ih =>
      intro hk
      have hlt : k < args.length := hk
      rw [List.range_succ, List.foldl_append, ih (Nat.le_of_succ_le hk)]
      simp only [List.foldl_cons, List.foldl_nil, List.getElem?_eq_getElem hlt, List.take_succ,
        Option.toList, List.map_append, List.map_cons, List.map_nil]
  simpa [toInterfaceSlice] using h args.length (le_refl _)

theorem statusesWhereRaw_terms (column : String) (argsOffset n : Nat) :
    (statusesWhereRaw column argsOffset n).2
      = (List.range n).map (fun i => Cmp.mk column CmpOp.eq (argsOffset + i)) := by
  unfold statusesWhereRaw
  induction n with
  | zero => simp
  | succ k ih => simp [List.range_succ, List.foldl_append, ih]

theorem runtimeIDsValues_placeholders (argsOffset n : Nat) :
    (runtimeIDsValues argsOffset n).2 = (List.range n).map (fun i => i + argsOffset) := by
  have h : ∀ k,
      ((List.range k).foldl
        (fun (acc : String × List Nat) i =>
          if i = n - 1 then
            (acc.1 ++ "$" ++ toString (i + argsOffset), acc.2 ++ [i + argsOffset])
          else
            (acc.1 ++ "$" ++ toString (i + argsOffset) ++ ",", acc.2 ++ [i + argsOffset]))
        ("", [])).2 = (List.range k).map (fun i => i + argsOffset) := by
    intro k
    induction k with
    | zero => simp
    | succ k ih =>
      rw [List.range_succ, List.foldl_append]
      simp only [List.foldl_cons, List.foldl_nil]
      split_ifs <;> simp [ih]
  exact h n

theorem columnsResolve_field (q : Select) (hq : columnsResolve q = true) (f : String)
    (hf : f ∈ entityFields) :
    ∃ c, q.columns.lookup f = some c
      ∧ entityFields.find? (fun g => q.columns.lookup g == some c) = some f := by
  have h := (List.all_eq_true.mp hq) f hf
  cases hl : q.columns.lookup f with
  | none => simp [hl] at h
  | some c =>
    refine ⟨c, rfl, ?_⟩
    simpa [hl] using h

theorem arg_append (q : Select) (new : List Value) (i : Nat) (q2 : Select)
    (h2 : q2.args = q.args ++ new) :
    q2.arg (q.NextPlaceholderCount + i) = new[i]? := by
  have h : q.NextPlaceholderCount + i = (q.args.length + i) + 1 := by
    simp [Select.NextPlaceholderCount]; omega
  rw [h]
  simp [Select.arg, h2, List.getElem?_append_right]

theorem whereEq_added (q : Select) (conds : List (String × Value)) (e : ReconciliationEntity) :
    ((q.Where conds).clauses.drop q.clauses.length).all (Clause.holds (q.Where conds) e)
      = conds.all (fun c => fieldValue e c.1 == some c.2) := by
  simp [Select.Where, Clause.holds]

theorem whereRaw_added (q : Select) (raw : String) (terms : List Cmp) (args : List Value)
    (e : ReconciliationEntity) :
    ((q.WhereRaw raw terms args).clauses.drop q.clauses.length).all
        (Clause.holds (q.WhereRaw raw terms args) e)
      = terms.any (Cmp.holds (q.WhereRaw raw terms args) e) := by
  simp [Select.WhereRaw, Clause.holds]

theorem arg_whereRaw (q : Select) (raw : String) (terms : List Cmp) (args : List Value)
    (i : Nat) : (q.WhereRaw raw terms args).arg (q.NextPlaceholderCount + i) = args[i]? :=
  arg_append q args i _ rfl

theorem arg_whereIn (q : Select) (field values : String) (phs : List Nat) (args : List Value)
    (i : Nat) : (q.WhereIn field values phs args).arg (q.NextPlaceholderCount + i) = args[i]? :=
  arg_append q args i _ rfl

theorem columnValue_whereRaw (q : Select) (hq : columnsResolve q = true) (raw : String)
    (terms : List Cmp) (args : List Value) (e : ReconciliationEntity) (f c : String)
    (hf : f ∈ entityFields) (hc : q.columns.lookup f = some c) :
    columnValue (q.WhereRaw raw terms args) e c = fieldValue e f := by
  obtain ⟨c2, h1, h2⟩ := columnsResolve_field q hq f hf
  rw [hc] at h1
  cases h1
  simp [columnValue, Select.WhereRaw, h2]

theorem withStatuses_added (q : Select) (hq : columnsResolve q = true) (L : List String)
    (hL : L ≠ []) (e : ReconciliationEntity) :
    ((Filter.WithStatuses L).FilterByQuery q).2 = none
    ∧ (((Filter.WithStatuses L).FilterByQuery q).1.clauses.drop q.clauses.length).all
        (Clause.holds ((Filter.WithStatuses L).FilterByQuery q).1 e)
      = keptBy (Filter.WithStatuses L) e := by
  obtain ⟨c, hc, _⟩ := columnsResolve_field q hq "Status" (by simp [entityFields])
  have hlen : ¬ L.length < 1 := by
    cases L with
    | nil => exact absurd rfl hL
    | cons s rest => simp
  simp only [Filter.FilterByQuery, hlen, if_false, columnName, hc, whereRaw_added,
    statusesWhereRaw_terms, toInterfaceSlice_eq_map, keptBy_withStatuses, true_and]
  rw [Bool.eq_iff_iff]
  simp only [List.any_eq_true, List.mem_map, List.mem_range, decide_eq_true_eq]
  constructor
  · rintro ⟨t, ⟨i, hi, rfl⟩, hholds⟩
    simp only [Cmp.holds, columnValue_whereRaw q hq _ _ _ e "Status" c (by simp [entityFields]) hc,
      arg_whereRaw] at hholds
    simp [fieldValue, List.getElem?_eq_getElem hi, Value.compare] at hholds
    rw [hholds]
    exact List.getElem_mem _
  · intro hmem
    obtain ⟨i, hi, hget⟩ := List.getElem_of_mem hmem
    refine ⟨_, ⟨i, hi, rfl⟩, ?_⟩
    simp only [Cmp.holds, columnValue_whereRaw q hq _ _ _ e "Status" c (by simp [entityFields]) hc,
      arg_whereRaw]
    simp [fieldValue, List.getElem?_eq_getElem hi, Value.compare, hget]

theorem withRuntimeIDs_added (q : Select) (L : List String) (hL : L ≠ [])
    (e : ReconciliationEntity) :
    ((Filter.WithRuntimeIDs L).FilterByQuery q).2 = none
    ∧ (((Filter.WithRuntimeIDs L).FilterByQuery q).1.clauses.drop q.clauses.length).all
        (Clause.holds ((Filter.WithRuntimeIDs L).FilterByQuery q).1 e)
      = keptBy (Filter.WithRuntimeIDs L) e := by
  have hlen : ¬ L.length < 1 := by
    cases L with
    | nil => exact absurd rfl hL
    | cons s rest => simp
  have hdrop : ∀ vals phs args,
      ((q.WhereIn "RuntimeID" vals phs args).clauses.drop q.clauses.length)
        = [Clause.whereIn "RuntimeID" vals phs] := by
    intro vals phs args
    simp [Select.WhereIn]
  simp only [Filter.FilterByQuery, hlen, if_false, hdrop, runtimeIDsValues_placeholders,
    toInterfaceSlice_eq_map, keptBy_withRuntimeIDs, true_and, List.all_cons, List.all_nil,
    Bool.and_true, Clause.holds, fieldValue, if_true]
  rw [Bool.eq_iff_iff]
  simp only [List.any_eq_true, List.mem_map, List.mem_range, decide_eq_true_eq]
  constructor
  · rintro ⟨n, ⟨i, hi, rfl⟩, hholds⟩
    rw [Nat.add_comm i, arg_whereIn] at hholds
    simp [List.getElem?_eq_getElem hi] at hholds
    rw [← hholds]
    exact List.getElem_mem _
  · intro hmem
    obtain ⟨i, hi, hget⟩ := List.getElem_of_mem hmem
    refine ⟨_, ⟨i, hi, rfl⟩, ?_⟩
    rw [Nat.add_comm i, arg_whereIn]
    simp [List.getElem?_eq_getElem hi, hget]

theorem cutToMillis_utc_whole (T : Time) (hz : T.offset = 0)
    (hT : T.nanos % nanosPerMilli = 0) : cutToMillis T = T.nanos := by
  have h := Int.ediv_add_emod T.nanos nanosPerMilli
  simp only [cutToMillis, Time.wallClock, hz, zero_mul, add_zero]
  rw [hT] at h
  rw [mul_comm]
  omega

theorem cutToMillis_utc_le (T : Time) (hz : T.offset = 0) : cutToMillis T ≤ T.nanos := by
  simp only [cutToMillis, Time.wallClock, hz, zero_mul, add_zero]
  exact Int.ediv_mul_le T.nanos (by simp [nanosPerMilli])

theorem creationDateAfter_added (q : Select) (hq : columnsResolve q = true) (T : Time)
    (e : ReconciliationEntity)
    (hcut : cutToMillis T < e.Created ↔ T.nanos < e.Created) :
    ((Filter.WithCreationDateAfter T).FilterByQuery q).2 = none
    ∧ (((Filter.WithCreationDateAfter T).FilterByQuery q).1.clauses.drop q.clauses.length).all
        (Clause.holds ((Filter.WithCreationDateAfter T).FilterByQuery q).1 e)
      = keptBy (Filter.WithCreationDateAfter T) e := by
  obtain ⟨c, hc, _⟩ := columnsResolve_field q hq "Created" (by simp [entityFields])
  have hk : keptBy (Filter.WithCreationDateAfter T) e = decide (T.nanos < e.Created) := by
    simp only [keptBy, Filter.FilterByInstance]
    split_ifs <;> simp_all
  have harg := arg_whereRaw q (c ++ ">$" ++ toString q.NextPlaceholderCount)
    [Cmp.mk c CmpOp.gt q.NextPlaceholderCount] [formatMillis T] 0
  simp only [Nat.add_zero] at harg
  simp only [Filter.FilterByQuery, columnName, hc, whereRaw_added, hk, true_and, List.any_cons,
    List.any_nil, Bool.or_false, Cmp.holds,
    columnValue_whereRaw q hq _ _ _ e "Created" c (by simp [entityFields]) hc, harg]
  rw [Bool.eq_iff_iff]
  simp only [fieldValue, formatMillis, Value.compare, decide_eq_true_eq]
  simpa [cutToMillis] using hcut

theorem creationDateBefore_added (q : Select) (hq : columnsResolve q = true) (T : Time)
    (e : ReconciliationEntity)
    (hcut : e.Created < cutToMillis T ↔ e.Created < T.nanos) :
    ((Filter.WithCreationDateBefore T).FilterByQuery q).2 = none
    ∧ (((Filter.WithCreationDateBefore T).FilterByQuery q).1.clauses.drop q.clauses.length).all
        (Clause.holds ((Filter.WithCreationDateBefore T).FilterByQuery q).1 e)
      = keptBy (Filter.WithCreationDateBefore T) e := by
  obtain ⟨c, hc, _⟩ := columnsResolve_field q hq "Created" (by simp [entityFields])
  have hk : keptBy (Filter.WithCreationDateBefore T) e = decide (e.Created < T.nanos) := by
    simp only [keptBy, Filter.FilterByInstance]
    split_ifs <;> simp_all
  have harg := arg_whereRaw q (c ++ "<$" ++ toString q.NextPlaceholderCount)
    [Cmp.mk c CmpOp.lt q.NextPlaceholderCount] [formatMillis T] 0
  simp only [Nat.add_zero] at harg
  simp only [Filter.FilterByQuery, columnName, hc, whereRaw_added, hk, true_and, List.any_cons,
    List.any_nil, Bool.or_false, Cmp.holds,
    columnValue_whereRaw q hq _ _ _ e "Created" c (by simp [entityFields]) hc, harg]
  rw [Bool.eq_iff_iff]
  simp only [fieldValue, formatMillis, Value.compare, decide_eq_true_eq]
  simpa [cutToMillis] using hcut

theorem whereEq_filters_added (q : Select) (F : Filter) (e : ReconciliationEntity)
    (hF : (∃ x, F = Filter.WithSchedulingID x) ∨ (∃ x, F = Filter.WithRuntimeID x)
      ∨ F = Filter.CurrentlyReconciling ∨ (∃ x, F = Filter.CurrentlyReconcilingWithRuntimeID x)
      ∨ (∃ x, F = Filter.WithClusterConfigStatus x)) :
    (F.FilterByQuery q).2 = none
    ∧ ((F.FilterByQuery q).1.clauses.drop q.clauses.length).all
        (Clause.holds (F.FilterByQuery q).1 e)
      = keptBy F e := by
  rcases hF with ⟨x, rfl⟩ | ⟨x, rfl⟩ | rfl | ⟨x, rfl⟩ | ⟨x, rfl⟩
  · refine ⟨rfl, ?_⟩
    simp only [Filter.FilterByQuery, whereEq_added, keptBy, Filter.FilterByInstance]
    by_cases h : e.SchedulingID = x <;> simp [fieldValue, h]
  · refine ⟨rfl, ?_⟩
    simp only [Filter.FilterByQuery, whereEq_added, keptBy, Filter.FilterByInstance]
    by_cases h : e.RuntimeID = x <;> simp [fieldValue, h]
  · refine ⟨rfl, ?_⟩
    simp only [Filter.FilterByQuery, whereEq_added, keptBy, Filter.FilterByInstance]
    by_cases h : e.Finished = true <;> simp [fieldValue, h]
  · refine ⟨rfl, ?_⟩
    simp only [Filter.FilterByQuery, whereEq_added, keptBy, Filter.FilterByInstance]
    by_cases h : e.Finished = true <;> by_cases h2 : e.RuntimeID = x <;> simp [fieldValue, h, h2]
  · refine ⟨rfl, ?_⟩
    simp only [Filter.FilterByQuery, whereEq_added, keptBy, Filter.FilterByInstance]
    by_cases h : e.ClusterConfigStatus = x <;> simp [fieldValue, h]

theorem added_holds_eq_keptBy (q : Select) (hq : columnsResolve q = true) (F : Filter)
    (e : ReconciliationEntity) (hF : coherentOn [e] F = true) :
    (F.FilterByQuery q).2 = none
    ∧ ((F.FilterByQuery q).1.clauses.drop q.clauses.length).all
        (Clause.holds (F.FilterByQuery q).1 e)
      = keptBy F e := by
  cases F with
  | Limit c a => simp [coherentOn] at hF
  | WithStatuses L =>
    exact withStatuses_added q hq L (by intro h; simp [coherentOn, h] at hF) e
  | WithCreationDateAfter T =>
    have h : (e.Created ≤ cutToMillis T ∨ T.nanos < e.Created)
        ∧ (e.Created ≤ T.nanos ∨ cutToMillis T < e.Created) := by
      simpa [coherentOn, clearOfDateCut] using hF
    exact creationDateAfter_added q hq T e (by constructor <;> intro h1 <;> omega)
  | WithCreationDateBefore T =>
    have h : (e.Created < cutToMillis T ∨ T.nanos ≤ e.Created)
        ∧ (e.Created < T.nanos ∨ cutToMillis T ≤ e.Created) := by
      simpa [coherentOn, clearOfDateCut] using hF
    exact creationDateBefore_added q hq T e (by constructor <;> intro h1 <;> omega)
  | WithSchedulingID x => exact whereEq_filters_added q _ e (Or.inl ⟨x, rfl⟩)
  | WithRuntimeIDs L =>
    exact withRuntimeIDs_added q L (by intro h; simp [coherentOn, h] at hF) e
  | WithRuntimeID x => exact whereEq_filters_added q _ e (Or.inr (Or.inl ⟨x, rfl⟩))
  | CurrentlyReconciling => exact whereEq_filters_added q _ e (Or.inr (Or.inr (Or.inl rfl)))
  | CurrentlyReconcilingWithRuntimeID x =>
    exact whereEq_filters_added q _ e (Or.inr (Or.inr (Or.inr (Or.inl ⟨x, rfl⟩))))
  | WithClusterConfigStatus x =>
    exact whereEq_filters_added q _ e (Or.inr (Or.inr (Or.inr (Or.inr ⟨x, rfl⟩))))

theorem coherentOn_of_mem (S : List ReconciliationEntity) (F : Filter)
    (hF : coherentOn S F = true) (e : ReconciliationEntity) (he : e ∈ S) :
    coherentOn [e] F = true := by
  cases F <;> simp_all [coherentOn, clearOfDateCut]

theorem filterByQuery_no_error (q : Select) (hq : columnsResolve q = true) (F : Filter) :
    (F.FilterByQuery q).2 = none := by
  obtain ⟨c1, hc1, _⟩ := columnsResolve_field q hq "Status" (by simp [entityFields])
  obtain ⟨c2, hc2, _⟩ := columnsResolve_field q hq "Created" (by simp [entityFields])
  cases F <;> simp only [Filter.FilterByQuery, columnName, hc1, hc2] <;>
    first | rfl | (split_ifs <;> rfl)

theorem coherentOn_utc_whole (S : List ReconciliationEntity) (T : Time) (hz : T.offset = 0)
    (hT : T.nanos % nanosPerMilli = 0) :
    coherentOn S (Filter.WithCreationDateAfter T) = true
    ∧ coherentOn S (Filter.WithCreationDateBefore T) = true := by
  have hcut := cutToMillis_utc_whole T hz hT
  constructor
  · simp only [coherentOn, clearOfDateCut, hcut, List.all_eq_true]
    intro e _
    simp only [Bool.and_eq_true, Bool.not_eq_true', Bool.and_eq_false_iff,
      decide_eq_false_iff_not, and_self]
    omega
  · simp only [coherentOn, clearOfDateCut, hcut, List.all_eq_true]
    intro e _
    simp only [Bool.and_eq_true, Bool.not_eq_true', Bool.and_eq_false_iff,
      decide_eq_false_iff_not, and_self]
    omega

/-- C1 as stated fails, in three ways. `WithRuntimeIDs` with an empty list adds
no condition, so the query selects the entity, while its instance form drops
it. The query form of a creation-date filter binds `Time` cut to whole
milliseconds: with `Time` in UTC, an entity created at 1.5 ms is selected by
`Created > 1.5 ms` cut to `Created > 1 ms` and dropped by the instance form;
it is not selected by `Created < 1.999999 ms` cut to `Created < 1 ms` and kept
by the instance form. The bound text is the wall clock of `Time` in its
Location, without zone: for `Time` the instant 1 ms in a Location one hour
east of UTC the text spells 01:00:00.001, so the entity created at 1.5 ms is
not selected, while the instance form, which compares instants, keeps it. -/
theorem coherence_fails_on_empty_runtimeIDs_and_date_cut :
    Multiset.ofList (selectAdded exampleSelect
        ((Filter.WithRuntimeIDs []).FilterByQuery exampleSelect).1 [exampleEntity])
      ≠ Multiset.ofList (keptOf (Filter.WithRuntimeIDs []) [exampleEntity])
    ∧ Multiset.ofList (selectAdded exampleSelect
        ((Filter.WithCreationDateAfter (Time.mk 1500000 0)).FilterByQuery exampleSelect).1
          [exampleEntity])
      ≠ Multiset.ofList (keptOf (Filter.WithCreationDateAfter (Time.mk 1500000 0))
          [exampleEntity])
    ∧ Multiset.ofList (selectAdded exampleSelect
        ((Filter.WithCreationDateBefore (Time.mk 1999999 0)).FilterByQuery exampleSelect).1
          [exampleEntity])
      ≠ Multiset.ofList (keptOf (Filter.WithCreationDateBefore (Time.mk 1999999 0))
          [exampleEntity])
    ∧ Multiset.ofList (selectAdded exampleSelect
        ((Filter.WithCreationDateAfter (Time.mk 1000000 3600)).FilterByQuery exampleSelect).1
          [exampleEntity])
      ≠ Multiset.ofList (keptOf (Filter.WithCreationDateAfter (Time.mk 1000000 3600))
          [exampleEntity]) := by
  have h1 : selectAdded exampleSelect
      ((Filter.WithRuntimeIDs []).FilterByQuery exampleSelect).1 [exampleEntity]
      = [exampleEntity] := by decide
  have h2 : keptOf (Filter.WithRuntimeIDs []) [exampleEntity] = [] := by decide
  have h3 : selectAdded exampleSelect
      ((Filter.WithCreationDateAfter (Time.mk 1500000 0)).FilterByQuery exampleSelect).1
        [exampleEntity]
      = [exampleEntity] := by decide
  have h4 : keptOf (Filter.WithCreationDateAfter (Time.mk 1500000 0)) [exampleEntity]
      = [] := by decide
  have h5 : selectAdded exampleSelect
      ((Filter.WithCreationDateBefore (Time.mk 1999999 0)).FilterByQuery exampleSelect).1
        [exampleEntity]
      = [] := by decide
  have h6 : keptOf (Filter.WithCreationDateBefore (Time.mk 1999999 0)) [exampleEntity]
      = [exampleEntity] := by decide
  have h7 : selectAdded exampleSelect
      ((Filter.WithCreationDateAfter (Time.mk 1000000 3600)).FilterByQuery exampleSelect).1
        [exampleEntity]
      = [] := by decide
  have h8 : keptOf (Filter.WithCreationDateAfter (Time.mk 1000000 3600)) [exampleEntity]
      = [exampleEntity] := by decide
  rw [h1, h2, h3, h4, h5, h6, h7, h8]
  refine ⟨?_, ?_, ?_, ?_⟩
  · intro h
    have := congrArg Multiset.card h
    simp at this
  · intro h
    have := congrArg Multiset.card h
    simp at this
  · intro h
    have := congrArg Multiset.card h
    simp at this
  · intro h
    have := congrArg Multiset.card h
    simp at this

/-- C1, amended: filter coherence. Over a query whose column handler knows the
entity's fields and gives them different columns, with the store reading the
bound text of a time in UTC, for every finite collection `S` and every filter
`F` other than `Limit`, `WithStatuses` with an empty list and `WithRuntimeIDs`
with an empty list, and for a creation-date filter provided no entity of `S`
was created between `Time` and the time that its text spells (the wall clock
of `Time` in its Location, cut to whole milliseconds): `FilterByQuery` returns
a nil error and the multiset of entities of `S` selected by the conditions it
adds equals the multiset of entities of `S` that `FilterByInstance` keeps. For
a creation-date filter the proviso holds for every `S` when `Time` is in UTC
and a whole number of milliseconds. -/
theorem filter_coherence (q : Select) (S : List ReconciliationEntity) (F : Filter)
    (hq : columnsResolve q = true) (hF : coherentOn S F = true) :
    (F.FilterByQuery q).2 = none
    ∧ Multiset.ofList (selectAdded q (F.FilterByQuery q).1 S)
        = Multiset.ofList (keptOf F S)
    ∧ ∀ T : Time, T.offset = 0 → T.nanos % nanosPerMilli = 0 →
        coherentOn S (Filter.WithCreationDateAfter T) = true
        ∧ coherentOn S (Filter.WithCreationDateBefore T) = true := by
  refine ⟨filterByQuery_no_error q hq F, congrArg Multiset.ofList ?_,
    fun T hz hT => coherentOn_utc_whole S T hz hT⟩
  unfold selectAdded keptOf
  apply List.filter_congr
  intro e he
  exact (added_holds_eq_keptBy q hq F e (coherentOn_of_mem S F hF e he)).2

/-- C1 amended, at a concrete input: a creation-date filter whose `Time` is in
UTC and not a whole number of milliseconds, over entities created outside the
cut. -/
theorem filter_coherence_witness :
    columnsResolve exampleSelect = true
    ∧ coherentOn [exampleEntity, finishedEntity]
        (Filter.WithCreationDateAfter (Time.mk 1100000 0)) = true
    ∧ Multiset.ofList (selectAdded exampleSelect
          ((Filter.WithCreationDateAfter (Time.mk 1100000 0)).FilterByQuery exampleSelect).1
          [exampleEntity, finishedEntity])
        = Multiset.ofList (keptOf (Filter.WithCreationDateAfter (Time.mk 1100000 0))
            [exampleEntity, finishedEntity]) :=
  ⟨by decide, by decide,
   (filter_coherence exampleSelect [exampleEntity, finishedEntity]
      (Filter.WithCreationDateAfter (Time.mk 1100000 0)) (by decide) (by decide)).2.1⟩

/-! ### `Limit` in instance form -/

theorem applySuccessively_limit (c : Int) (es : List ReconciliationEntity) :
    ∀ a : Int, ∃ rs F,
      applySuccessively (Filter.Limit c a) es = Except.ok (rs, F)
      ∧ rs.length = es.length
      ∧ (∀ i (h : i < es.length),
          rs[i]? = some (if a + (i : Int) < c then some es[i] else none))
      ∧ rs.filterMap id = es.take (c - a).toNat := by
  induction es with
  | nil =>
    intro a
    exact ⟨[], Filter.Limit c a, rfl, rfl, fun i h => absurd h (Nat.not_lt_zero i), by simp⟩
  | cons e es ih =>
    intro a
    by_cases hlt : a < c
    · obtain ⟨rs, F, hrun, hlen, hidx, hkept⟩ := ih (a + 1)
      refine ⟨some e :: rs, F, ?_, by simp [hlen], ?_, ?_⟩
      · simp [applySuccessively, Filter.FilterByInstance, hlt, hrun]
      · intro i h
        cases i with
        | zero => simp [hlt]
        | succ j =>
          have hj : j < es.length := by simpa using h
          have h1 := hidx j hj
          have h2 : (a + 1 + (j : Int) < c) ↔ (a + ((j + 1 : Nat) : Int) < c) := by
            push_cast; constructor <;> intro h3 <;> omega
          simp only [List.getElem?_cons_succ, List.getElem_cons_succ, h1, h2]
      · have h2 : (c - a).toNat = (c - (a + 1)).toNat + 1 := by omega
        simp [hkept, h2]
    · obtain ⟨rs, F, hrun, hlen, hidx, hkept⟩ := ih a
      refine ⟨none :: rs, F, ?_, by simp [hlen], ?_, ?_⟩
      · simp [applySuccessively, Filter.FilterByInstance, hlt, hrun]
      · intro i h
        cases i with
        | zero => simp [hlt]
        | succ j =>
          have hj : j < es.length := by simpa using h
          have h1 := hidx j hj
          have h2 : ¬ (a + (j : Int) < c) := by omega
          have h3 : ¬ (a + ((j + 1 : Nat) : Int) < c) := by push_cast; omega
          simp only [List.getElem?_cons_succ, List.getElem_cons_succ, h1, h2, h3, if_false]
      · have h2 : (c - a).toNat = 0 := by omega
        simp [hkept, h2]

/-- C11: `Limit` in instance form counts arrivals. A fresh `Limit` with
`Count = c`, applied successively to the (non-nil) arrivals `es`, returns the
`i`-th arrival (counted from 1) when `i ≤ c` and nil otherwise; the arrivals
it keeps are the first `min c n` of the `n` arrivals when `c ≥ 0`, and none
when `c ≤ 0`; when the arrivals come ordered by `Created` descending, no
dropped arrival was created after a kept one. -/
theorem limit_counts_arrivals (c : Int) (es : List ReconciliationEntity) :
    ∃ rs F,
      applySuccessively (Filter.Limit c 0) es = Except.ok (rs, F)
      ∧ rs.length = es.length
      ∧ (∀ i (h : i < es.length),
          rs[i]? = some (if ((i : Int) + 1 ≤ c) then some es[i] else none))
      ∧ rs.filterMap id = es.take c.toNat
      ∧ (0 ≤ c → (rs.filterMap id).length = min c.toNat es.length
          ∧ ((rs.filterMap id).length : Int) = min c (es.length : Int))
      ∧ (c ≤ 0 → rs.filterMap id = [])
      ∧ (es.Pairwise (fun x y => y.Created ≤ x.Created) →
          ∀ x ∈ rs.filterMap id, ∀ y ∈ es.drop c.toNat, y.Created ≤ x.Created) := by
  obtain ⟨rs, F, hrun, hlen, hidx, hkept⟩ := applySuccessively_limit c es 0
  simp only [sub_zero] at hkept
  refine ⟨rs, F, hrun, hlen, ?_, hkept, ?_, ?_, ?_⟩
  · intro i h
    have h1 := hidx i h
    have h2 : (0 + (i : Int) < c) ↔ ((i : Int) + 1 ≤ c) := by
      constructor <;> intro h3 <;> omega
    simpa only [h2] using h1
  · intro hc
    rw [hkept, List.length_take]
    refine ⟨rfl, ?_⟩
    omega
  · intro hc
    have h0 : c.toNat = 0 := by omega
    simp [hkept, h0]
  · intro hsorted x hx y hy
    rw [hkept] at hx
    have hsplit : es = es.take c.toNat ++ es.drop c.toNat := (List.take_append_drop _ _).symm
    rw [hsplit, List.pairwise_append] at hsorted
    exact hsorted.2.2 x hx y hy

/-- C11, at a concrete input: with `Count = 1` the earlier created second
arrival is dropped. -/
theorem limit_counts_arrivals_witness :
    ∀ x ∈ [exampleEntity].take (1 : Int).toNat,
      ∀ y ∈ [exampleEntity, finishedEntity].drop (1 : Int).toNat,
        y.Created ≤ x.Created := by
  obtain ⟨rs, F, _, _, _, hkept, _, _, hsorted⟩ :=
    limit_counts_arrivals 1 [exampleEntity, finishedEntity]
  intro x hx y hy
  exact hsorted (by decide) x (by rw [hkept]; exact hx) y hy

/-! ### The mixer in query form -/

theorem queryLoop_append (pre post : List Filter) (q q1 : Select)
    (h : queryLoop pre q = (q1, none)) :
    queryLoop (pre ++ post) q = queryLoop post q1 := by
  induction pre generalizing q with
  | nil =>
    simp only [queryLoop, Prod.mk.injEq] at h
    simp [h.1]
  | cons f rest ih =>
    simp only [queryLoop, List.cons_append] at h ⊢
    cases hf : f.FilterByQuery q with
    | mk q2 err =>
      cases err with
      | some e => simp [hf] at h
      | none =>
        simp only [hf] at h ⊢
        exact ih q2 h

theorem queryLoop_all_succeed (fs : List Filter) (q : Select)
    (h : ∀ pre f post, fs = pre ++ f :: post →
      (f.FilterByQuery (queryAfter pre q)).2 = none) :
    queryLoop fs q = (queryAfter fs q, none) := by
  induction fs generalizing q with
  | nil => rfl
  | cons f rest ih =>
    have hf : (f.FilterByQuery q).2 = none := h [] f rest rfl
    have hrest : ∀ pre g post, rest = pre ++ g :: post →
        (g.FilterByQuery (queryAfter pre (f.FilterByQuery q).1)).2 = none := by
      intro pre g post hsplit
      have := h (f :: pre) g post (by simp [hsplit])
      simpa [queryAfter] using this
    cases hq : f.FilterByQuery q with
    | mk q2 err =>
      rw [hq] at hf hrest
      simp only at hf
      subst hf
      simp only [queryLoop, hq, queryAfter, List.foldl_cons]
      exact ih q2 hrest

/-- C12: `FilterMixer.FilterByQuery` applies the filters to the query in
declaration order. The empty list returns nil and leaves the query as it
was; when the filters before `f` succeeded and `f` returns an error, that
error is returned and the query is as `f` left it (no filter behind `f` was
applied); when every filter succeeds the result is nil and the query is the
one obtained by applying all filters in order. -/
theorem mixer_filterByQuery_first_error (fs : List Filter) (q : Select) :
    (FilterMixer.mk []).FilterByQuery q = (q, none)
    ∧ (∀ pre f post q1 q2 err, fs = pre ++ f :: post →
        (FilterMixer.mk pre).FilterByQuery q = (q1, none) →
        f.FilterByQuery q1 = (q2, some err) →
        (FilterMixer.mk fs).FilterByQuery q = (q2, some err))
    ∧ ((∀ pre f post, fs = pre ++ f :: post →
          (f.FilterByQuery (queryAfter pre q)).2 = none) →
        (FilterMixer.mk fs).FilterByQuery q = (queryAfter fs q, none)) := by
  refine ⟨rfl, ?_, ?_⟩
  · intro pre f post q1 q2 err hfs hpre hf
    subst hfs
    simp only [FilterMixer.FilterByQuery] at hpre ⊢
    rw [queryLoop_append pre (f :: post) q q1 hpre]
    simp [queryLoop, hf]
  · intro h
    exact queryLoop_all_succeed fs q h

/-- C12, at a concrete input: over a column handler that knows no field, the
error of the second filter is returned and the `Limit` behind it is not
applied (the query has no limit). -/
theorem mixer_filterByQuery_first_error_witness :
    (FilterMixer.mk [Filter.WithRuntimeID "r1", Filter.WithStatuses ["ready"],
        Filter.Limit 5 0]).FilterByQuery { exampleSelect with columns := [] }
      = (({ exampleSelect with columns := [] } : Select).Where
          [("RuntimeID", Value.str "r1")], some "no column for field Status") :=
  (mixer_filterByQuery_first_error
      [Filter.WithRuntimeID "r1", Filter.WithStatuses ["ready"], Filter.Limit 5 0]
      { exampleSelect with columns := [] }).2.1
    [Filter.WithRuntimeID "r1"] (Filter.WithStatuses ["ready"]) [Filter.Limit 5 0]
    _ _ _ rfl rfl rfl

/-! ### The creation-date filters in query form -/

theorem queryKeeps_after (q : Select) (hq : columnsResolve q = true) (T : Time)
    (e : ReconciliationEntity) :
    queryKeeps (Filter.WithCreationDateAfter T) q e = decide (cutToMillis T < e.Created) := by
  obtain ⟨c, hc, _⟩ := columnsResolve_field q hq "Created" (by simp [entityFields])
  have harg := arg_whereRaw q (c ++ ">$" ++ toString q.NextPlaceholderCount)
    [Cmp.mk c CmpOp.gt q.NextPlaceholderCount] [formatMillis T] 0
  simp only [Nat.add_zero] at harg
  simp only [queryKeeps, Filter.FilterByQuery, columnName, hc, whereRaw_added, List.any_cons,
    List.any_nil, Bool.or_false, Cmp.holds,
    columnValue_whereRaw q hq _ _ _ e "Created" c (by simp [entityFields]) hc, harg]
  simp [fieldValue, formatMillis, Value.compare, cutToMillis]

theorem queryKeeps_before (q : Select) (hq : columnsResolve q = true) (T : Time)
    (e : ReconciliationEntity) :
    queryKeeps (Filter.WithCreationDateBefore T) q e = decide (e.Created < cutToMillis T) := by
  obtain ⟨c, hc, _⟩ := columnsResolve_field q hq "Created" (by simp [entityFields])
  have harg := arg_whereRaw q (c ++ "<$" ++ toString q.NextPlaceholderCount)
    [Cmp.mk c CmpOp.lt q.NextPlaceholderCount] [formatMillis T] 0
  simp only [Nat.add_zero] at harg
  simp only [queryKeeps, Filter.FilterByQuery, columnName, hc, whereRaw_added, List.any_cons,
    List.any_nil, Bool.or_false, Cmp.holds,
    columnValue_whereRaw q hq _ _ _ e "Created" c (by simp [entityFields]) hc, harg]
  simp [fieldValue, formatMillis, Value.compare, cutToMillis]

theorem keptBy_after (T : Time) (e : ReconciliationEntity) :
    keptBy (Filter.WithCreationDateAfter T) e = decide (T.nanos < e.Created) := by
  simp only [keptBy, Filter.FilterByInstance]
  split_ifs <;> simp_all

theorem keptBy_before (T : Time) (e : ReconciliationEntity) :
    keptBy (Filter.WithCreationDateBefore T) e = decide (e.Created < T.nanos) := by
  simp only [keptBy, Filter.FilterByInstance]
  split_ifs <;> simp_all

theorem creationDate_query_text (q : Select) (T : Time) (c : String)
    (hc : columnName q "Created" = Except.ok c) :
    (Filter.WithCreationDateAfter T).FilterByQuery q
        = (q.WhereRaw (c ++ ">$" ++ toString q.NextPlaceholderCount)
            [Cmp.mk c CmpOp.gt q.NextPlaceholderCount] [formatMillis T], none)
    ∧ (Filter.WithCreationDateBefore T).FilterByQuery q
        = (q.WhereRaw (c ++ "<$" ++ toString q.NextPlaceholderCount)
            [Cmp.mk c CmpOp.lt q.NextPlaceholderCount] [formatMillis T], none) := by
  simp only [Filter.FilterByQuery, hc, and_self]

/-- C21 as stated fails. For the filter time 1.999999 ms in UTC and an entity
created at 1.5 ms, the query form of `WithCreationDateAfter` compares with the
time cut to 1 ms and selects the entity, while the instance form drops it; the
query form of `WithCreationDateBefore` does not select it, while the instance
form keeps it. For the filter time 2 ms, a whole number of milliseconds, in a
Location one hour west of UTC, the bound text spells 23:00:00.002 of the day
before: the query form of `WithCreationDateBefore` does not select the entity
created at 1.5 ms, while the instance form keeps it. -/
theorem creationDate_forms_differ_within_millisecond :
    queryKeeps (Filter.WithCreationDateAfter (Time.mk 1999999 0)) exampleSelect exampleEntity
        = true
    ∧ keptBy (Filter.WithCreationDateAfter (Time.mk 1999999 0)) exampleEntity = false
    ∧ queryKeeps (Filter.WithCreationDateBefore (Time.mk 1999999 0)) exampleSelect
        exampleEntity = false
    ∧ keptBy (Filter.WithCreationDateBefore (Time.mk 1999999 0)) exampleEntity = true
    ∧ queryKeeps (Filter.WithCreationDateBefore (Time.mk 2000000 (-3600))) exampleSelect
        exampleEntity = false
    ∧ keptBy (Filter.WithCreationDateBefore (Time.mk 2000000 (-3600))) exampleEntity = true := by
  refine ⟨?_, ?_, ?_, ?_, ?_, ?_⟩ <;> decide

/-- C21, amended: over a query whose column handler knows the entity's fields
and gives them different columns, the query form of a creation-date filter
adds the condition `column>$n` (`column<$n` for `WithCreationDateBefore`) and
binds the text of the filter time: its wall clock in its Location, cut to
whole milliseconds, without zone. With the store reading that text as a time
in UTC (`cutToMillis`), `WithCreationDateAfter` selects the entity exactly
when `Created` is after that time, `WithCreationDateBefore` exactly when it
is before that time, and the query form agrees with the instance form exactly
when `Created` does not lie between that time and the filter time. For a
filter time in UTC the time read is the filter time cut to whole
milliseconds, not after the filter time; the two forms agree for every entity
when the filter time is in UTC and a whole number of milliseconds. -/
theorem creationDate_query_compares_with_cut_time (q : Select) (T : Time)
    (e : ReconciliationEntity) (hq : columnsResolve q = true) :
    (∃ c, columnName q "Created" = Except.ok c
      ∧ (Filter.WithCreationDateAfter T).FilterByQuery q
          = (q.WhereRaw (c ++ ">$" ++ toString q.NextPlaceholderCount)
              [Cmp.mk c CmpOp.gt q.NextPlaceholderCount] [formatMillis T], none)
      ∧ (Filter.WithCreationDateBefore T).FilterByQuery q
          = (q.WhereRaw (c ++ "<$" ++ toString q.NextPlaceholderCount)
              [Cmp.mk c CmpOp.lt q.NextPlaceholderCount] [formatMillis T], none))
    ∧ formatMillis T = Value.stamp ((T.nanos + T.offset * nanosPerSecond) / nanosPerMilli)
    ∧ (queryKeeps (Filter.WithCreationDateAfter T) q e = true ↔ cutToMillis T < e.Created)
    ∧ (queryKeeps (Filter.WithCreationDateBefore T) q e = true ↔ e.Created < cutToMillis T)
    ∧ (queryKeeps (Filter.WithCreationDateAfter T) q e
          = keptBy (Filter.WithCreationDateAfter T) e
        ↔ ¬ (cutToMillis T < e.Created ∧ e.Created ≤ T.nanos)
          ∧ ¬ (T.nanos < e.Created ∧ e.Created ≤ cutToMillis T))
    ∧ (queryKeeps (Filter.WithCreationDateBefore T) q e
          = keptBy (Filter.WithCreationDateBefore T) e
        ↔ ¬ (cutToMillis T ≤ e.Created ∧ e.Created < T.nanos)
          ∧ ¬ (T.nanos ≤ e.Created ∧ e.Created < cutToMillis T))
    ∧ (T.offset = 0 →
        cutToMillis T = T.nanos / nanosPerMilli * nanosPerMilli ∧ cutToMillis T ≤ T.nanos)
    ∧ (T.offset = 0 → T.nanos % nanosPerMilli = 0 →
        queryKeeps (Filter.WithCreationDateAfter T) q e
            = keptBy (Filter.WithCreationDateAfter T) e
        ∧ queryKeeps (Filter.WithCreationDateBefore T) q e
            = keptBy (Filter.WithCreationDateBefore T) e) := by
  obtain ⟨c, hc, _⟩ := columnsResolve_field q hq "Created" (by simp [entityFields])
  have hcol : columnName q "Created" = Except.ok c := by simp [columnName, hc]
  rw [queryKeeps_after q hq, queryKeeps_before q hq, keptBy_after, keptBy_before]
  refine ⟨⟨c, hcol, creationDate_query_text q T c hcol⟩, rfl, by simp, by simp, ?_, ?_, ?_, ?_⟩
  · rw [Bool.eq_iff_iff]
    simp only [decide_eq_true_eq]
    constructor
    · intro h
      constructor <;> intro hc2 <;> omega
    · intro h
      constructor <;> intro h1 <;> omega
  · rw [Bool.eq_iff_iff]
    simp only [decide_eq_true_eq]
    constructor
    · intro h
      constructor <;> intro hc2 <;> omega
    · intro h
      constructor <;> intro h1 <;> omega
  · intro hz
    refine ⟨?_, cutToMillis_utc_le T hz⟩
    simp only [cutToMillis, Time.wallClock, hz, zero_mul, add_zero]
  · intro hz hT
    rw [cutToMillis_utc_whole T hz hT]
    exact ⟨rfl, rfl⟩

/-- C21 amended, at a concrete input: at the whole millisecond 2 ms in UTC both
forms of both filters agree on an entity created at 1.5 ms. -/
theorem creationDate_query_compares_with_cut_time_witness :
    columnsResolve exampleSelect = true
    ∧ (Time.mk 2000000 0).offset = 0
    ∧ (Time.mk 2000000 0).nanos % nanosPerMilli = 0
    ∧ queryKeeps (Filter.WithCreationDateAfter (Time.mk 2000000 0)) exampleSelect exampleEntity
        = keptBy (Filter.WithCreationDateAfter (Time.mk 2000000 0)) exampleEntity
    ∧ queryKeeps (Filter.WithCreationDateBefore (Time.mk 2000000 0)) exampleSelect
          exampleEntity
        = keptBy (Filter.WithCreationDateBefore (Time.mk 2000000 0)) exampleEntity :=
  ⟨by decide, by decide, by decide,
   (creationDate_query_compares_with_cut_time exampleSelect (Time.mk 2000000 0) exampleEntity
      (by decide)).2.2.2.2.2.2.2 (by decide) (by decide)⟩

/-! ### The text of the list filters in query form -/

theorem intercalate_go_append (s : String) (as : List String) (b : String) :
    ∀ acc : String,
      String.intercalate.go acc s (as ++ [b]) = String.intercalate.go acc s as ++ s ++ b := by
  induction as with
  | nil => intro acc; simp [String.intercalate.go]
  | cons a rest ih => intro acc; simp [String.intercalate.go, ih]

theorem intercalate_append_singleton (s : String) (l : List String) (b : String)
    (hl : l ≠ []) : s.intercalate (l ++ [b]) = s.intercalate l ++ s ++ b := by
  cases l with
  | nil => exact absurd rfl hl
  | cons a as => simp [String.intercalate, intercalate_go_append]

theorem range_ne_nil (k : Nat) (hk : 0 < k) : List.range k ≠ [] := by
  intro h
  have := congrArg List.length h
  simp at this
  omega

theorem statusesWhereRaw_text (column : String) (argsOffset n : Nat) :
    (statusesWhereRaw column argsOffset n).1
      = " OR ".intercalate
          ((List.range n).map (fun i => column ++ "=$" ++ toString (argsOffset + i))) := by
  unfold statusesWhereRaw
  induction n with
  | zero => simp [String.intercalate]
  | succ k ih =>
    rw [List.range_succ, List.foldl_append, List.map_append]
    simp only [List.foldl_cons, List.foldl_nil, List.map_cons, List.map_nil]
    rw [ih]
    by_cases hk : k > 0
    · rw [intercalate_append_singleton _ _ _ (by simpa using range_ne_nil k hk)]
      simp only [hk, if_true, String.append_assoc]
    · have hk0 : k = 0 := by omega
      subst hk0
      simp [String.intercalate, String.intercalate.go]

theorem runtimeIDsValues_text_prefix (argsOffset n : Nat) :
    ∀ k, k < n →
      ((List.range k).foldl
        (fun (acc : String × List Nat) i =>
          if i = n - 1 then
            (acc.1 ++ "$" ++ toString (i + argsOffset), acc.2 ++ [i + argsOffset])
          else
            (acc.1 ++ "$" ++ toString (i + argsOffset) ++ ",", acc.2 ++ [i + argsOffset]))
        ("", [])).1
        = if k = 0 then ""
          else ",".intercalate
            ((List.range k).map (fun i => "$" ++ toString (i + argsOffset))) ++ "," := by
  intro k
  induction k with
  | zero => intro _; simp
  | succ j ih =>
    intro hj
    have hj2 : j < n := by omega
    have hne : ¬ j = n - 1 := by omega
    rw [List.range_succ, List.foldl_append, List.map_append]
    simp only [List.foldl_cons, List.foldl_nil, List.map_cons, List.map_nil, hne, if_false,
      ih hj2, Nat.succ_ne_zero]
    by_cases hj0 : j = 0
    · subst hj0
      simp [String.intercalate, String.intercalate.go]
    · rw [intercalate_append_singleton _ _ _ (by simpa using range_ne_nil j (by omega))]
      simp only [hj0, if_false, String.append_assoc]

theorem runtimeIDsValues_text (argsOffset n : Nat) (hn : 0 < n) :
    (runtimeIDsValues argsOffset n).1
      = ",".intercalate ((List.range n).map (fun i => "$" ++ toString (i + argsOffset))) := by
  obtain ⟨m, rfl⟩ : ∃ m, n = m + 1 := ⟨n - 1, by omega⟩
  unfold runtimeIDsValues
  rw [List.range_succ, List.foldl_append, List.map_append]
  have hpre := runtimeIDsValues_text_prefix argsOffset (m + 1) m (by omega)
  simp only [List.foldl_cons, List.foldl_nil, List.map_cons, List.map_nil,
    Nat.add_sub_cancel, if_true]
  simp only [Nat.add_sub_cancel] at hpre
  rw [hpre]
  by_cases hm0 : m = 0
  · subst hm0
    simp [String.intercalate, String.intercalate.go]
  · rw [intercalate_append_singleton _ _ _ (by simpa using range_ne_nil m (by omega))]
    simp only [hm0, if_false, String.append_assoc]

/-- C22: placeholders and arguments are aligned in the query form of the list
filters. For a non-empty list of `n` values and a query whose next
placeholder is `$k`, `WithStatuses.FilterByQuery` (the column of `Status`
being `col`) passes to `WhereRaw` the text `col=$k OR ... OR col=$(k+n-1)`
and `WithRuntimeIDs.FilterByQuery` passes to `WhereIn` the text
`$k,...,$(k+n-1)`, the pieces joined by the separator with none in front or
behind; the placeholders are the `n` consecutive indices from `k`; the
arguments are the list values in list order, appended to the query's
arguments, so that the `i`-th placeholder is bound to the `i`-th value. -/
theorem listFilters_placeholders_aligned (q : Select) (L : List String) (col : String)
    (hL : L ≠ []) (hcol : columnName q "Status" = Except.ok col) :
    (Filter.WithStatuses L).FilterByQuery q
        = (q.WhereRaw
            (" OR ".intercalate ((List.range L.length).map
              (fun i => col ++ "=$" ++ toString (q.NextPlaceholderCount + i))))
            ((List.range L.length).map
              (fun i => Cmp.mk col CmpOp.eq (q.NextPlaceholderCount + i)))
            (L.map Value.str), none)
    ∧ (Filter.WithRuntimeIDs L).FilterByQuery q
        = (q.WhereIn "RuntimeID"
            (",".intercalate ((List.range L.length).map
              (fun i => "$" ++ toString (q.NextPlaceholderCount + i))))
            ((List.range L.length).map (fun i => q.NextPlaceholderCount + i))
            (L.map Value.str), none)
    ∧ ((Filter.WithStatuses L).FilterByQuery q).1.args = q.args ++ L.map Value.str
    ∧ ((Filter.WithRuntimeIDs L).FilterByQuery q).1.args = q.args ++ L.map Value.str
    ∧ (∀ i (h : i < L.length),
        ((Filter.WithStatuses L).FilterByQuery q).1.arg (q.NextPlaceholderCount + i)
            = some (Value.str L[i])
        ∧ ((Filter.WithRuntimeIDs L).FilterByQuery q).1.arg (q.NextPlaceholderCount + i)
            = some (Value.str L[i])) := by
  have hlen : ¬ L.length < 1 := by
    cases L with
    | nil => exact absurd rfl hL
    | cons s rest => simp
  have hpos : 0 < L.length := by omega
  have hcomm : (fun i => i + q.NextPlaceholderCount) = (fun i => q.NextPlaceholderCount + i) := by
    funext i; exact Nat.add_comm _ _
  have hcomm2 : (fun i => "$" ++ toString (i + q.NextPlaceholderCount))
      = (fun i => "$" ++ toString (q.NextPlaceholderCount + i)) := by
    funext i; rw [Nat.add_comm]
  have h1 : (Filter.WithStatuses L).FilterByQuery q
      = (q.WhereRaw
          (" OR ".intercalate ((List.range L.length).map
            (fun i => col ++ "=$" ++ toString (q.NextPlaceholderCount + i))))
          ((List.range L.length).map
            (fun i => Cmp.mk col CmpOp.eq (q.NextPlaceholderCount + i)))
          (L.map Value.str), none) := by
    simp only [Filter.FilterByQuery, hlen, if_false, hcol, statusesWhereRaw_text,
      statusesWhereRaw_terms, toInterfaceSlice_eq_map]
  have h2 : (Filter.WithRuntimeIDs L).FilterByQuery q
      = (q.WhereIn "RuntimeID"
          (",".intercalate ((List.range L.length).map
            (fun i => "$" ++ toString (q.NextPlaceholderCount + i))))
          ((List.range L.length).map (fun i => q.NextPlaceholderCount + i))
          (L.map Value.str), none) := by
    simp only [Filter.FilterByQuery, hlen, if_false, runtimeIDsValues_text _ _ hpos,
      runtimeIDsValues_placeholders, toInterfaceSlice_eq_map, hcomm, hcomm2]
  refine ⟨h1, h2, by rw [h1]; rfl, by rw [h2]; rfl, ?_⟩
  intro i hi
  rw [h1, h2]
  simp only [arg_whereRaw, arg_whereIn]
  simp [List.getElem?_eq_getElem hi]

/-- C22, at a concrete input: three values on a query that already has one
argument. -/
theorem listFilters_placeholders_aligned_witness :
    ["a", "b", "c"] ≠ ([] : List String)
    ∧ ((Filter.WithStatuses ["a", "b", "c"]).FilterByQuery
          { exampleSelect with args := [Value.bool false] }).1.clauses
        = [Clause.whereRaw "status=$2 OR status=$3 OR status=$4"
            [Cmp.mk "status" CmpOp.eq 2, Cmp.mk "status" CmpOp.eq 3,
              Cmp.mk "status" CmpOp.eq 4]]
    ∧ ((Filter.WithRuntimeIDs ["a", "b", "c"]).FilterByQuery
          { exampleSelect with args := [Value.bool false] }).1.clauses
        = [Clause.whereIn "RuntimeID" "$2,$3,$4" [2, 3, 4]]
    ∧ ((Filter.WithRuntimeIDs ["a", "b", "c"]).FilterByQuery
          { exampleSelect with args := [Value.bool false] }).1.args
        = [Value.bool false, Value.str "a", Value.str "b", Value.str "c"] :=
  ⟨by decide,
   (congrArg (fun r => r.1.clauses)
      (listFilters_placeholders_aligned { exampleSelect with args := [Value.bool false] }
        ["a", "b", "c"] "status" (by decide) rfl).1).trans (by decide),
   (congrArg (fun r => r.1.clauses)
      (listFilters_placeholders_aligned { exampleSelect with args := [Value.bool false] }
        ["a", "b", "c"] "status" (by decide) rfl).2.1).trans (by decide),
   (listFilters_placeholders_aligned { exampleSelect with args := [Value.bool false] }
        ["a", "b", "c"] "status" (by decide) rfl).2.2.2.1⟩

/-! ### The counter of `Limit` -/

theorem applySuccessively_append (F : Filter) (es1 es2 : List ReconciliationEntity)
    (rs1 : List (Option ReconciliationEntity)) (F1 : Filter)
    (h : applySuccessively F es1 = Except.ok (rs1, F1)) :
    applySuccessively F (es1 ++ es2)
      = match applySuccessively F1 es2 with
        | Except.error x => Except.error x
        | Except.ok (rs2, F2) => Except.ok (rs1 ++ rs2, F2) := by
  induction es1 generalizing F rs1 with
  | nil =>
    simp only [applySuccessively, Except.ok.injEq, Prod.mk.injEq] at h
    obtain ⟨h1, h2⟩ := h
    subst h1 h2
    rw [List.nil_append]
    cases hr : applySuccessively F es2 with
    | error x => rfl
    | ok r => simp
  | cons e rest ih =>
    have e1 : applySuccessively F ((e :: rest) ++ es2)
        = match F.FilterByInstance (some e) with
          | Except.error x => Except.error x
          | Except.ok (r, F0) =>
            match applySuccessively F0 (rest ++ es2) with
            | Except.error x => Except.error x
            | Except.ok (rs, F2) => Except.ok (r :: rs, F2) := rfl
    rw [e1]
    simp only [applySuccessively] at h
    cases hf : F.FilterByInstance (some e) with
    | error x => simp [hf] at h
    | ok r =>
      obtain ⟨r0, F0⟩ := r
      simp only [hf] at h ⊢
      cases hrest : applySuccessively F0 rest with
      | error x => simp [hrest] at h
      | ok r2 =>
        obtain ⟨rs0, F00⟩ := r2
        simp only [hrest, Except.ok.injEq, Prod.mk.injEq] at h
        obtain ⟨h1, h2⟩ := h
        subst h1 h2
        rw [ih F0 rs0 hrest]
        cases hr : applySuccessively F00 es2 with
        | error x => rfl
        | ok r3 => simp

theorem applySuccessively_limit_state (c : Int) (es : List ReconciliationEntity) :
    ∀ a : Int, ∃ rs,
      applySuccessively (Filter.Limit c a) es
        = Except.ok (rs, Filter.Limit c (a + ((rs.filterMap id).length : Int)))
      ∧ rs.length = es.length
      ∧ rs.filterMap id = es.take (c - a).toNat := by
  induction es with
  | nil =>
    intro a
    exact ⟨[], by simp [applySuccessively], rfl, by simp⟩
  | cons e es ih =>
    intro a
    by_cases hlt : a < c
    · obtain ⟨rs, hrun, hlen, hkept⟩ := ih (a + 1)
      refine ⟨some e :: rs, ?_, by simp [hlen], ?_⟩
      · simp only [applySuccessively, Filter.FilterByInstance, hlt, if_true, hrun,
          List.filterMap_cons, id_eq, List.length_cons]
        congr 3
        push_cast
        ring
      · have h2 : (c - a).toNat = (c - (a + 1)).toNat + 1 := by omega
        simp [hkept, h2]
    · obtain ⟨rs, hrun, hlen, hkept⟩ := ih a
      refine ⟨none :: rs, ?_, by simp [hlen], ?_⟩
      · simp only [applySuccessively, Filter.FilterByInstance, hlt, if_false, hrun,
          List.filterMap_cons, id_eq]
      · have h2 : (c - a).toNat = 0 := by omega
        simp [hkept, h2]

/-- C23: the counter of `Limit` is single-use. For every sequence `es` of calls
of `FilterByInstance` (on non-nil entities) on one `Limit` that starts with
counter 0, the calls return without fault, the counter afterwards equals the
number of entities accepted, and it does not exceed `max Count 0`; one call
more does not lower it; and once `Count` entities were accepted, every call
of any later sequence `es2` returns nil and leaves the counter as it is, so
that the `Limit` reused for a second query keeps nothing. In general reusing
the `Limit` is continuing the first sequence: the counter is never reset. -/
theorem limit_counter_single_use (c : Int) (es es2 : List ReconciliationEntity) :
    ∃ rs, applySuccessively (Filter.Limit c 0) es
        = Except.ok (rs, Filter.Limit c ((rs.filterMap id).length : Int))
      ∧ ((rs.filterMap id).length : Int) ≤ max c 0
      ∧ (∀ e, ∃ r rs1, applySuccessively (Filter.Limit c 0) (es ++ [e])
            = Except.ok (rs ++ [r], Filter.Limit c ((rs1.filterMap id).length : Int))
          ∧ rs1 = rs ++ [r]
          ∧ (rs.filterMap id).length ≤ (rs1.filterMap id).length)
      ∧ (((rs.filterMap id).length : Int) = c →
          applySuccessively (Filter.Limit c ((rs.filterMap id).length : Int)) es2
            = Except.ok (List.replicate es2.length none,
                Filter.Limit c ((rs.filterMap id).length : Int)))
      ∧ (∃ rs2 F2, applySuccessively (Filter.Limit c ((rs.filterMap id).length : Int)) es2
            = Except.ok (rs2, F2)
          ∧ applySuccessively (Filter.Limit c 0) (es ++ es2) = Except.ok (rs ++ rs2, F2)) := by
  obtain ⟨rs, hrun, hlen, hkept⟩ := applySuccessively_limit_state c es 0
  simp only [zero_add, sub_zero] at hrun hkept
  refine ⟨rs, hrun, ?_, ?_, ?_, ?_⟩
  · rw [hkept, List.length_take]
    omega
  · intro e
    obtain ⟨rs2, hrun2, hlen2, hkept2⟩ :=
      applySuccessively_limit_state c [e] ((rs.filterMap id).length : Int)
    have happ := applySuccessively_append (Filter.Limit c 0) es [e] rs _ hrun
    rw [hrun2] at happ
    simp only at happ
    obtain ⟨r, hr⟩ : ∃ r, rs2 = [r] := by
      cases rs2 with
      | nil => simp at hlen2
      | cons r rest =>
        cases rest with
        | nil => exact ⟨r, rfl⟩
        | cons r2 rest2 => simp at hlen2
    subst hr
    refine ⟨r, rs ++ [r], ?_, rfl, ?_⟩
    · rw [happ]
      congr 3
      simp only [List.filterMap_append, List.length_append]
      push_cast
      ring
    · simp [List.filterMap_append]
  · intro hfull
    obtain ⟨rs2, hrun2, hlen2, hkept2⟩ :=
      applySuccessively_limit_state c es2 ((rs.filterMap id).length : Int)
    have h0 : (c - ((rs.filterMap id).length : Int)).toNat = 0 := by omega
    rw [h0, List.take_zero] at hkept2
    have hnone : rs2 = List.replicate es2.length none := by
      rw [← hlen2]
      apply List.eq_replicate_iff.mpr
      refine ⟨rfl, ?_⟩
      intro x hx
      cases x with
      | none => rfl
      | some y =>
        have : y ∈ rs2.filterMap id := List.mem_filterMap.mpr ⟨some y, hx, rfl⟩
        rw [hkept2] at this
        simp at this
    rw [hrun2, hkept2, hnone]
    simp
  · obtain ⟨rs2, hrun2, _, _⟩ :=
      applySuccessively_limit_state c es2 ((rs.filterMap id).length : Int)
    refine ⟨rs2, _, hrun2, ?_⟩
    have happ := applySuccessively_append (Filter.Limit c 0) es es2 rs _ hrun
    rw [hrun2] at happ
    exact happ

/-- C23, at a concrete input: a `Limit` with `Count = 1` that accepted one
entity keeps nothing of a second query. -/
theorem limit_counter_single_use_witness :
    ∃ rs, applySuccessively (Filter.Limit 1 0) [exampleEntity, finishedEntity]
        = Except.ok (rs, Filter.Limit 1 ((rs.filterMap id).length : Int))
      ∧ (((rs.filterMap id).length : Int) = 1 →
          applySuccessively (Filter.Limit 1 ((rs.filterMap id).length : Int))
              [exampleEntity, exampleEntity]
            = Except.ok (List.replicate [exampleEntity, exampleEntity].length none,
                Filter.Limit 1 ((rs.filterMap id).length : Int))) := by
  obtain ⟨rs, h1, _, _, h4, _⟩ :=
    limit_counter_single_use 1 [exampleEntity, finishedEntity] [exampleEntity, exampleEntity]
  exact ⟨rs, h1, h4⟩

/-! ### No nil pointer inside the mixer -/

theorem calledWith_some (fs : List Filter) (e : ReconciliationEntity) :
    ∀ p ∈ calledWith fs (some e), p = some e := by
  induction fs with
  | nil => simp [calledWith]
  | cons f rest ih =>
    intro p hp
    simp only [calledWith, filterByInstance_some, List.mem_cons] at hp
    rcases hp with rfl | hp
    · rfl
    · by_cases hk : keptBy f e = true
      · simp only [hk, if_true] at hp
        exact ih p (by simpa using hp)
      · simp [hk] at hp

/-- C25: for every filter list and every non-nil input entity,
`FilterMixer.FilterByInstance` never calls a filter with a nil pointer: every
pointer that its loop passes to a filter is the input entity, no concrete
filter faults on a non-nil pointer, and the mixer returns without fault. (On
a nil pointer every concrete filter that reads a field faults, for instance
`WithRuntimeID`, and the mixer does pass a nil input on to its first
filter.) -/
theorem mixer_never_passes_nil (fs : List Filter) (e : ReconciliationEntity) :
    (∀ p ∈ calledWith fs (some e), p = some e)
    ∧ (∀ f : Filter, ∃ r f1, f.FilterByInstance (some e) = Except.ok (r, f1))
    ∧ (∃ r fm, (FilterMixer.mk fs).FilterByInstance (some e) = Except.ok (r, fm))
    ∧ (∀ r, (Filter.WithRuntimeID r).FilterByInstance none
        = Except.error Fault.nilDereference)
    ∧ (∀ f rest, calledWith (f :: rest) none ≠ []
        ∧ ∀ p ∈ (calledWith (f :: rest) none).head?, p = none) := by
  refine ⟨calledWith_some fs e, ?_, ?_, ?_, ?_⟩
  · intro f
    exact ⟨_, _, filterByInstance_some f e⟩
  · obtain ⟨fs1, h1⟩ := instanceLoop_some fs e
    exact ⟨if fs.all (fun f => keptBy f e) then some e else none, FilterMixer.mk fs1,
      by simp [FilterMixer.FilterByInstance, h1]⟩
  · intro r
    rfl
  · intro f rest
    simp [calledWith]

/-! ### Order of stateless filters -/

theorem all_keptBy_perm (fs fs2 : List Filter) (e : ReconciliationEntity) (hp : fs.Perm fs2) :
    fs.all (fun f => keptBy f e) = fs2.all (fun f => keptBy f e) := by
  rw [Bool.eq_iff_iff]
  simp only [List.all_eq_true]
  constructor
  · intro h f hf
    exact h f (hp.mem_iff.mpr hf)
  · intro h f hf
    exact h f (hp.mem_iff.mp hf)

/-- C26: for stateless filters the order of composition does not matter. For a
filter list without `Limit`, every permutation of it and every non-nil
entity, `FilterMixer.FilterByInstance` returns the same pointer for the
permuted list as for the list itself; and the mixer applied to a non-nil
result returns that result again. -/
theorem mixer_stateless_order_irrelevant (fs fs2 : List Filter) (e : ReconciliationEntity)
    (hs : ∀ f ∈ fs, f.stateless = true) (hp : fs.Perm fs2) :
    returned ((FilterMixer.mk fs2).FilterByInstance (some e))
        = returned ((FilterMixer.mk fs).FilterByInstance (some e))
    ∧ (∀ r, returned ((FilterMixer.mk fs).FilterByInstance (some e)) = Except.ok (some r) →
        returned ((FilterMixer.mk fs).FilterByInstance (some r)) = Except.ok (some r)) := by
  have hs2 : ∀ f ∈ fs2, f.stateless = true := fun f hf => hs f (hp.mem_iff.mpr hf)
  have h1 : returned ((FilterMixer.mk fs).FilterByInstance (some e))
      = Except.ok (if fs.all (fun f => keptBy f e) then some e else none) := by
    simp [returned, FilterMixer.FilterByInstance, instanceLoop_stateless fs e hs]
  have h2 : returned ((FilterMixer.mk fs2).FilterByInstance (some e))
      = Except.ok (if fs2.all (fun f => keptBy f e) then some e else none) := by
    simp [returned, FilterMixer.FilterByInstance, instanceLoop_stateless fs2 e hs2]
  constructor
  · rw [h1, h2, all_keptBy_perm fs fs2 e hp]
  · intro r hr
    rw [h1] at hr
    by_cases hall : fs.all (fun f => keptBy f e) = true
    · simp only [hall, if_true, Except.ok.injEq, Option.some.injEq] at hr
      subst hr
      rw [h1]
      simp [hall]
    · simp [hall] at hr

/-- C26, at a concrete input: two stateless filters in both orders. -/
theorem mixer_stateless_order_irrelevant_witness :
    returned ((FilterMixer.mk [Filter.WithRuntimeID "r1",
        Filter.CurrentlyReconciling]).FilterByInstance (some exampleEntity))
      = returned ((FilterMixer.mk [Filter.CurrentlyReconciling,
        Filter.WithRuntimeID "r1"]).FilterByInstance (some exampleEntity)) :=
  (mixer_stateless_order_irrelevant
    [Filter.CurrentlyReconciling, Filter.WithRuntimeID "r1"]
    [Filter.WithRuntimeID "r1", Filter.CurrentlyReconciling] exampleEntity
    (by decide) (List.Perm.swap _ _ _)).1

end Reconciliation

/-! ## Properties of the other packages -/

namespace Istio

/-! ### `parsePaths` -/

theorem split_ne_nil (s : List Char) (sep : Char) : Split s sep ≠ [] := by
  induction s with
  | nil => simp [Split]
  | cons c cs ih =>
    by_cases h : c = sep
    · simp [Split, h]
    · cases hs : Split cs sep with
      | nil => exact absurd hs ih
      | cons piece pieces => simp [Split, h, hs]

theorem split_length (s : List Char) (sep : Char) :
    (Split s sep).length = s.count sep + 1 := by
  induction s with
  | nil => simp [Split]
  | cons c cs ih =>
    by_cases h : c = sep
    · subst h
      simp [Split, ih]
    · cases hs : Split cs sep with
      | nil => exact absurd hs (split_ne_nil cs sep)
      | cons piece pieces =>
        rw [hs] at ih
        simp [Split, h, hs, List.count_cons] at ih ⊢
        omega

theorem split_no_sep (s : List Char) (sep : Char) :
    ∀ piece ∈ Split s sep, sep ∉ piece := by
  induction s with
  | nil => simp [Split]
  | cons c cs ih =>
    by_cases h : c = sep
    · intro piece hp
      simp only [Split, h, if_true, List.mem_cons] at hp
      rcases hp with rfl | hp
      · simp
      · exact ih piece hp
    · cases hs : Split cs sep with
      | nil => exact absurd hs (split_ne_nil cs sep)
      | cons p ps =>
        rw [hs] at ih
        intro piece hp
        simp only [Split, h, if_false, hs, List.mem_cons] at hp
        rcases hp with rfl | hp
        · have hp0 := ih p (List.mem_cons_self p ps)
          simp only [List.mem_cons, not_or]
          exact ⟨fun h2 => h h2.symm, hp0⟩
        · exact ih piece (List.mem_cons_of_mem p hp)

theorem trimSpace_sublist (s : List Char) : (TrimSpace s).Sublist s :=
  ((List.rdropWhile_prefix isSpace _).sublist).trans (List.dropWhile_sublist isSpace)

theorem pathsLoop_ok (isValid : List Char → Option String) (l : List (List Char)) :
    ∀ res, (∀ p ∈ l, TrimSpace p ≠ [] ∧ isValid (TrimSpace p) = none) →
      pathsLoop isValid l res = (some (res ++ l.map TrimSpace), none) := by
  induction l with
  | nil => intro res _; simp [pathsLoop]
  | cons p rest ih =>
    intro res h
    have hp := h p (List.mem_cons_self p rest)
    have hrest := fun x hx => h x (List.mem_cons_of_mem p hx)
    simp [pathsLoop, hp.1, hp.2, ih (res ++ [TrimSpace p]) hrest]

theorem pathsLoop_error (isValid : List Char → Option String) (l : List (List Char)) :
    ∀ res, (∃ p ∈ l, TrimSpace p = [] ∨ isValid (TrimSpace p) ≠ none) →
      ∃ err, pathsLoop isValid l res = (none, some err) := by
  induction l with
  | nil => intro res h; simp at h
  | cons p rest ih =>
    intro res h
    by_cases hp : TrimSpace p = []
    · exact ⟨"Invalid (empty) path provided", by simp [pathsLoop, hp]⟩
    · cases hv : isValid (TrimSpace p) with
      | some err => exact ⟨err, by simp [pathsLoop, hp, hv]⟩
      | none =>
        have hrest : ∃ x ∈ rest, TrimSpace x = [] ∨ isValid (TrimSpace x) ≠ none := by
          obtain ⟨x, hx, hbad⟩ := h
          rcases List.mem_cons.mp hx with rfl | hx
          · rcases hbad with h1 | h1
            · exact absurd h1 hp
            · exact absurd hv h1
          · exact ⟨x, hx, hbad⟩
        obtain ⟨err, herr⟩ := ih (res ++ [TrimSpace p]) hrest
        exact ⟨err, by simp [pathsLoop, hp, hv, herr]⟩

theorem pathsLoop_cases (isValid : List Char → Option String) (l res : List (List Char)) :
    ((∀ p ∈ l, TrimSpace p ≠ [] ∧ isValid (TrimSpace p) = none)
        ∧ pathsLoop isValid l res = (some (res ++ l.map TrimSpace), none))
    ∨ ((∃ p ∈ l, TrimSpace p = [] ∨ isValid (TrimSpace p) ≠ none)
        ∧ ∃ err, pathsLoop isValid l res = (none, some err)) := by
  by_cases h : ∀ p ∈ l, TrimSpace p ≠ [] ∧ isValid (TrimSpace p) = none
  · exact Or.inl ⟨h, pathsLoop_ok isValid l res h⟩
  · have h2 : ∃ p ∈ l, TrimSpace p = [] ∨ isValid (TrimSpace p) ≠ none := by
      by_contra hn
      apply h
      intro p hp
      by_contra hbad
      apply hn
      refine ⟨p, hp, ?_⟩
      by_cases h1 : TrimSpace p = []
      · exact Or.inl h1
      · right
        intro h3
        exact hbad ⟨h1, h3⟩
    exact Or.inr ⟨h2, pathsLoop_error isValid l res h2⟩

/-- C18: when `parsePaths` succeeds, its result is the list obtained by trimming
the input, splitting it at the colons and trimming every piece, in input
order; the result is not empty, has one element per piece (the number of
colons of the trimmed input plus one), and every element is non-empty,
contains no colon and was accepted by `isValid`. -/
theorem parsePaths_result (input : List Char) (isValid : List Char → Option String)
    (h : (parsePaths input isValid).2 = none) :
    ∃ res, parsePaths input isValid = (some res, none)
      ∧ res = (Split (TrimSpace input) ':').map TrimSpace
      ∧ res ≠ []
      ∧ res.length = (TrimSpace input).count ':' + 1
      ∧ ∀ p ∈ res, p ≠ [] ∧ ':' ∉ p ∧ isValid p = none := by
  unfold parsePaths at h ⊢
  by_cases h1 : TrimSpace input = []
  · simp [h1] at h
  · by_cases h2 : len (TrimSpace input) > istioctlBinaryPathMaxLen
    · simp [h1, h2] at h
    · simp only [h1, h2, if_false] at h ⊢
      rcases pathsLoop_cases isValid (Split (TrimSpace input) ':') [] with ⟨hall, hok⟩ | ⟨_, err, herr⟩
      · refine ⟨_, by simpa using hok, rfl, ?_, ?_, ?_⟩
        · simpa using split_ne_nil (TrimSpace input) ':'
        · simp [split_length]
        · intro p hp
          obtain ⟨seg, hseg, rfl⟩ := List.mem_map.mp hp
          refine ⟨(hall seg hseg).1, ?_, (hall seg hseg).2⟩
          intro hmem
          exact split_no_sep (TrimSpace input) ':' seg hseg ((trimSpace_sublist seg).mem hmem)
      · rw [herr] at h
        simp at h

/-- C18, at a concrete input: two paths with white space around them. -/
theorem parsePaths_result_witness :
    (parsePaths " /bin/a : /bin/b\n".toList (fun _ => none)).2 = none
    ∧ ∃ res, parsePaths " /bin/a : /bin/b\n".toList (fun _ => none) = (some res, none)
      ∧ res = (Split (TrimSpace " /bin/a : /bin/b\n".toList) ':').map TrimSpace
      ∧ res ≠ []
      ∧ res.length = (TrimSpace " /bin/a : /bin/b\n".toList).count ':' + 1
      ∧ ∀ p ∈ res, p ≠ [] ∧ ':' ∉ p ∧ (fun _ => none : List Char → Option String) p = none :=
  ⟨by decide, parsePaths_result " /bin/a : /bin/b\n".toList (fun _ => none) (by decide)⟩

/-- C19: `parsePaths` returns an error exactly when the trimmed input is empty,
or it is longer than 12290 bytes, or a piece between colons is empty after
trimming, or `isValid` rejects a trimmed piece; with an error the list is
nil. The limit is inclusive and applies to the trimmed input: an input of
exactly 12290 bytes after trimming fails only for a bad piece, and one of
12291 bytes fails with the length error. -/
theorem parsePaths_error_iff (input : List Char) (isValid : List Char → Option String) :
    ((parsePaths input isValid).2 ≠ none ↔
        (TrimSpace input = [] ∨ len (TrimSpace input) > 12290
          ∨ (∃ seg ∈ Split (TrimSpace input) ':', TrimSpace seg = [])
          ∨ (∃ seg ∈ Split (TrimSpace input) ':', isValid (TrimSpace seg) ≠ none)))
    ∧ ((parsePaths input isValid).2 ≠ none → (parsePaths input isValid).1 = none)
    ∧ (len (TrimSpace input) = 12290 →
        ((parsePaths input isValid).2 ≠ none ↔
          ((∃ seg ∈ Split (TrimSpace input) ':', TrimSpace seg = [])
            ∨ (∃ seg ∈ Split (TrimSpace input) ':', isValid (TrimSpace seg) ≠ none))))
    ∧ (len (TrimSpace input) = 12291 →
        parsePaths input isValid = (none, some
          "ISTIOCTL_PATH env variable exceeds the maximum istio path limit of 12290 characters")) := by
  have hmain : (parsePaths input isValid).2 ≠ none ↔
      (TrimSpace input = [] ∨ len (TrimSpace input) > 12290
        ∨ (∃ seg ∈ Split (TrimSpace input) ':', TrimSpace seg = [])
        ∨ (∃ seg ∈ Split (TrimSpace input) ':', isValid (TrimSpace seg) ≠ none)) := by
    unfold parsePaths
    by_cases h1 : TrimSpace input = []
    · simp [h1]
    · by_cases h2 : len (TrimSpace input) > istioctlBinaryPathMaxLen
      · have h3 : len (TrimSpace input) > 12290 := h2
        simp [h1, h2, h3]
      · have h3 : ¬ len (TrimSpace input) > 12290 := h2
        simp only [h1, h2, if_false, h3, false_or]
        rcases pathsLoop_cases isValid (Split (TrimSpace input) ':') [] with
          ⟨hall, hok⟩ | ⟨hbad, err, herr⟩
        · rw [hok]
          simp only [ne_eq, not_true_eq_false, false_iff, not_or, not_exists, not_and]
          exact ⟨fun seg hseg => (hall seg hseg).1,
            fun seg hseg => not_not.mpr (hall seg hseg).2⟩
        · rw [herr]
          simp only [ne_eq, reduceCtorEq, not_false_eq_true, true_iff]
          obtain ⟨p, hp, hp2⟩ := hbad
          rcases hp2 with h4 | h4
          · exact Or.inl ⟨p, hp, h4⟩
          · exact Or.inr ⟨p, hp, h4⟩
  refine ⟨hmain, ?_, ?_, ?_⟩
  · intro herr
    unfold parsePaths at herr ⊢
    by_cases h1 : TrimSpace input = []
    · simp [h1]
    · by_cases h2 : len (TrimSpace input) > istioctlBinaryPathMaxLen
      · simp [h1, h2]
      · simp only [h1, h2, if_false] at herr ⊢
        rcases pathsLoop_cases isValid (Split (TrimSpace input) ':') [] with
          ⟨_, hok⟩ | ⟨_, err, herr2⟩
        · rw [hok] at herr
          simp at herr
        · rw [herr2]
  · intro hlen
    rw [hmain]
    have h1 : TrimSpace input ≠ [] := by
      intro h0
      rw [h0] at hlen
      simp [len] at hlen
    simp [h1, hlen]
  · intro hlen
    have h1 : TrimSpace input ≠ [] := by
      intro h0
      rw [h0] at hlen
      simp [len] at hlen
    have h2 : len (TrimSpace input) > istioctlBinaryPathMaxLen := by
      rw [hlen]; decide
    simp only [parsePaths, h1, h2, if_false, if_true]
    rfl

/-- C19, at a concrete input: a doubled colon leaves an empty piece. -/
theorem parsePaths_error_iff_witness :
    (parsePaths "/bin/a::/bin/b".toList (fun _ => none)).2 ≠ none :=
  (parsePaths_error_iff "/bin/a::/bin/b".toList (fun _ => none)).1.mpr
    (Or.inr (Or.inr (Or.inl ⟨[], by decide, by decide⟩)))

/-! ### `parsePaths` on its own output -/

theorem len_append (a b : List Char) : len (a ++ b) = len a + len b := by
  simp [len, List.map_append, List.sum_append]

theorem len_cons (c : Char) (s : List Char) : len (c :: s) = c.utf8Size + len s := by
  simp [len]

theorem len_sublist (a b : List Char) (h : a.Sublist b) : len a ≤ len b := by
  induction h with
  | slnil => exact le_refl _
  | cons c _ ih => rw [len_cons]; omega
  | cons₂ c _ ih => rw [len_cons, len_cons]; omega

theorem join_split (s : List Char) (sep : Char) : Join (Split s sep) sep = s := by
  induction s with
  | nil => simp [Split, Join]
  | cons c cs ih =>
    cases hs : Split cs sep with
    | nil => exact absurd hs (split_ne_nil cs sep)
    | cons piece pieces =>
      rw [hs] at ih
      by_cases h : c = sep
      · subst h
        simp [Split, hs, Join, ih]
      · cases pieces with
        | nil =>
          simp only [Join] at ih
          simp [Split, h, hs, Join, ih]
        | cons b r =>
          simp only [Join] at ih
          simp [Split, h, hs, Join, ih]

theorem split_single (a : List Char) (sep : Char) (h : sep ∉ a) : Split a sep = [a] := by
  induction a with
  | nil => simp [Split]
  | cons c cs ih =>
    have hc : ¬ c = sep := fun h2 => h (by simp [h2])
    have hcs : sep ∉ cs := fun h2 => h (List.mem_cons_of_mem c h2)
    simp [Split, hc, ih hcs]

theorem split_append_sep (a t : List Char) (sep : Char) (h : sep ∉ a) :
    Split (a ++ sep :: t) sep = a :: Split t sep := by
  induction a with
  | nil => simp [Split]
  | cons c cs ih =>
    have hc : ¬ c = sep := fun h2 => h (by simp [h2])
    have hcs : sep ∉ cs := fun h2 => h (List.mem_cons_of_mem c h2)
    simp [Split, hc, ih hcs]

theorem split_join (res : List (List Char)) (sep : Char) (hne : res ≠ [])
    (h : ∀ p ∈ res, sep ∉ p) : Split (Join res sep) sep = res := by
  induction res with
  | nil => exact absurd rfl hne
  | cons a rest ih =>
    have ha : sep ∉ a := h a (List.mem_cons_self a rest)
    cases rest with
    | nil => simp [Join, split_single a sep ha]
    | cons b r =>
      have hrest : ∀ p ∈ b :: r, sep ∉ p := fun p hp => h p (List.mem_cons_of_mem a hp)
      simp only [Join]
      rw [split_append_sep a _ sep ha, ih (by simp) hrest]

theorem len_join_map_trimSpace (l : List (List Char)) (sep : Char) :
    len (Join (l.map TrimSpace) sep) ≤ len (Join l sep) := by
  induction l with
  | nil => simp [Join]
  | cons a rest ih =>
    have ha := len_sublist _ _ (trimSpace_sublist a)
    cases rest with
    | nil => simpa [Join] using ha
    | cons b r =>
      simp only [List.map_cons, Join, len_append, len_cons] at ih ⊢
      omega

theorem dropWhile_head_not (p : Char → Bool) (x : List Char) (a : Char) (t : List Char)
    (h : x.dropWhile p = a :: t) : p a = false := by
  induction x with
  | nil => simp at h
  | cons c cs ih =>
    by_cases hc : p c = true
    · simp only [List.dropWhile_cons, hc, if_true] at h
      exact ih h
    · simp only [List.dropWhile_cons, hc] at h
      simp only [Bool.false_eq_true, if_false, List.cons.injEq] at h
      rw [← h.1]
      simpa using hc

theorem dropWhile_fixed_append (p : Char → Bool) (a l : List Char) (hne : a ≠ [])
    (h : a.dropWhile p = a) : (a ++ l).dropWhile p = a ++ l := by
  cases a with
  | nil => exact absurd rfl hne
  | cons c cs =>
    have hc : p c = false := dropWhile_head_not p (c :: cs) c cs h
    simp [List.dropWhile_cons, hc]

theorem rdropWhile_fixed_append (p : Char → Bool) (b l : List Char) (hne : b ≠ [])
    (h : b.rdropWhile p = b) : (l ++ b).rdropWhile p = l ++ b := by
  have h1 : b.reverse.dropWhile p = b.reverse := by
    have := congrArg List.reverse h
    simpa [List.rdropWhile] using this
  have h2 := dropWhile_fixed_append p b.reverse l.reverse (by simpa using hne) h1
  simp [List.rdropWhile, h2]

theorem trimSpace_fixed (x : List Char) (hne : TrimSpace x ≠ []) :
    (TrimSpace x).dropWhile isSpace = TrimSpace x
    ∧ (TrimSpace x).rdropWhile isSpace = TrimSpace x := by
  refine ⟨?_, List.rdropWhile_idempotent _ _⟩
  unfold TrimSpace at hne ⊢
  cases hy : x.dropWhile isSpace with
  | nil =>
    rw [hy] at hne
    simp [List.rdropWhile] at hne
  | cons a t =>
    have ha : isSpace a = false := dropWhile_head_not isSpace x a t hy
    rw [hy] at hne
    obtain ⟨s, hs⟩ := List.rdropWhile_prefix isSpace (a :: t)
    cases hr : List.rdropWhile isSpace (a :: t) with
    | nil => exact absurd hr hne
    | cons c cs =>
      rw [hr] at hs
      have hca : c = a := by
        simp only [List.cons_append, List.cons.injEq] at hs
        exact hs.1
      subst hca
      simp [List.dropWhile_cons, ha]

theorem trimSpace_of_fixed (p : List Char) (h1 : p.dropWhile isSpace = p)
    (h2 : p.rdropWhile isSpace = p) : TrimSpace p = p := by
  simp [TrimSpace, h1, h2]

theorem join_head (a : List Char) (rest : List (List Char)) (sep : Char) :
    ∃ t, Join (a :: rest) sep = a ++ t := by
  cases rest with
  | nil => exact ⟨[], by simp [Join]⟩
  | cons b r => exact ⟨sep :: Join (b :: r) sep, rfl⟩

theorem join_last (init : List (List Char)) (z : List Char) (sep : Char) :
    ∃ t, Join (init ++ [z]) sep = t ++ z := by
  induction init with
  | nil => exact ⟨[], by simp [Join]⟩
  | cons a rest ih =>
    obtain ⟨t, ht⟩ := ih
    cases hr : rest ++ [z] with
    | nil => simp at hr
    | cons b r =>
      refine ⟨a ++ sep :: t, ?_⟩
      rw [hr] at ht
      simp only [List.cons_append, hr, Join, ht, List.append_assoc]

theorem trimSpace_join (res : List (List Char)) (sep : Char) (hne : res ≠ [])
    (h : ∀ p ∈ res, p ≠ [] ∧ p.dropWhile isSpace = p ∧ p.rdropWhile isSpace = p) :
    TrimSpace (Join res sep) = Join res sep ∧ Join res sep ≠ [] := by
  have hd : (Join res sep).dropWhile isSpace = Join res sep ∧ Join res sep ≠ [] := by
    cases res with
    | nil => exact absurd rfl hne
    | cons a rest =>
      obtain ⟨t, ht⟩ := join_head a rest sep
      have ha := h a (List.mem_cons_self a rest)
      rw [ht]
      refine ⟨dropWhile_fixed_append isSpace a t ha.1 ha.2.1, ?_⟩
      intro h0
      exact ha.1 (List.append_eq_nil.mp h0).1
  have hr : (Join res sep).rdropWhile isSpace = Join res sep := by
    rcases List.eq_nil_or_concat res with h0 | ⟨init, z, hz⟩
    · exact absurd h0 hne
    · rw [List.concat_eq_append] at hz
      subst hz
      obtain ⟨t, ht⟩ := join_last init z sep
      have hz := h z (by simp)
      rw [ht]
      exact rdropWhile_fixed_append isSpace z t hz.1 hz.2.2
  exact ⟨trimSpace_of_fixed _ hd.1 hr, hd.2⟩

theorem parsePaths_success (input : List Char) (isValid : List Char → Option String)
    (res : List (List Char)) (h : parsePaths input isValid = (some res, none)) :
    res = (Split (TrimSpace input) ':').map TrimSpace
    ∧ len (TrimSpace input) ≤ istioctlBinaryPathMaxLen
    ∧ ∀ seg ∈ Split (TrimSpace input) ':',
        TrimSpace seg ≠ [] ∧ isValid (TrimSpace seg) = none := by
  unfold parsePaths at h
  by_cases h1 : TrimSpace input = []
  · simp [h1] at h
  · by_cases h2 : len (TrimSpace input) > istioctlBinaryPathMaxLen
    · simp [h1, h2] at h
    · simp only [h1, h2, if_false] at h
      rcases pathsLoop_cases isValid (Split (TrimSpace input) ':') [] with
        ⟨hall, hok⟩ | ⟨_, err, herr⟩
      · rw [hok] at h
        simp only [List.nil_append, Prod.mk.injEq, Option.some.injEq, and_true] at h
        exact ⟨h.symm, by omega, hall⟩
      · rw [herr] at h
        simp at h

/-- C27: `parsePaths` is idempotent on its own output. When
`parsePaths(input, isValid)` succeeds with the list `res`, then
`parsePaths(strings.Join(res, ":"), isValid)` succeeds with the same list;
the joined string is not longer than the trimmed input, so it stays within
the length limit. -/
theorem parsePaths_idempotent (input : List Char) (isValid : List Char → Option String)
    (res : List (List Char)) (h : parsePaths input isValid = (some res, none)) :
    parsePaths (Join res ':') isValid = (some res, none)
    ∧ len (Join res ':') ≤ len (TrimSpace input)
    ∧ len (TrimSpace (Join res ':')) ≤ istioctlBinaryPathMaxLen := by
  obtain ⟨hres, hlen, hall⟩ := parsePaths_success input isValid res h
  have hne : res ≠ [] := by
    rw [hres]
    simpa using split_ne_nil (TrimSpace input) ':'
  have helem : ∀ p ∈ res, p ≠ [] ∧ p.dropWhile isSpace = p ∧ p.rdropWhile isSpace = p
      ∧ ':' ∉ p ∧ isValid p = none := by
    intro p hp
    rw [hres] at hp
    obtain ⟨seg, hseg, rfl⟩ := List.mem_map.mp hp
    have hs := hall seg hseg
    have hf := trimSpace_fixed seg hs.1
    refine ⟨hs.1, hf.1, hf.2, ?_, hs.2⟩
    intro hmem
    exact split_no_sep (TrimSpace input) ':' seg hseg ((trimSpace_sublist seg).mem hmem)
  have htrim : ∀ p ∈ res, TrimSpace p = p := fun p hp =>
    trimSpace_of_fixed p (helem p hp).2.1 (helem p hp).2.2.1
  obtain ⟨hj, hjne⟩ := trimSpace_join res ':' hne
    (fun p hp => ⟨(helem p hp).1, (helem p hp).2.1, (helem p hp).2.2.1⟩)
  have hjlen : len (Join res ':') ≤ len (TrimSpace input) := by
    have := len_join_map_trimSpace (Split (TrimSpace input) ':') ':'
    rw [← hres, join_split] at this
    exact this
  have hsplit : Split (Join res ':') ':' = res :=
    split_join res ':' hne (fun p hp => (helem p hp).2.2.2.1)
  have hmap : res.map TrimSpace = res := by
    conv_rhs => rw [← List.map_id res]
    exact List.map_congr_left (fun p hp => by simpa using htrim p hp)
  have hloop := pathsLoop_ok isValid res []
    (fun p hp => by
      rw [htrim p hp]
      exact ⟨(helem p hp).1, (helem p hp).2.2.2.2⟩)
  have hlim : ¬ len (Join res ':') > istioctlBinaryPathMaxLen := by omega
  refine ⟨?_, hjlen, by rw [hj]; omega⟩
  simp only [parsePaths, hj, hjne, if_false, hlim, hsplit, hloop, hmap, List.nil_append]

/-- C27, at a concrete input: two paths with white space around them, parsed
and parsed again from the joined result. -/
theorem parsePaths_idempotent_witness :
    parsePaths " /bin/a : /bin/b\n".toList (fun _ => none)
        = (some ["/bin/a".toList, "/bin/b".toList], none)
    ∧ parsePaths (Join ["/bin/a".toList, "/bin/b".toList] ':') (fun _ => none)
        = (some ["/bin/a".toList, "/bin/b".toList], none) :=
  ⟨by decide,
   (parsePaths_idempotent " /bin/a : /bin/b\n".toList (fun _ => none)
      ["/bin/a".toList, "/bin/b".toList] (by decide)).1⟩

end Istio

namespace Hydra

/-! ### `restartHydraMaesterDeploymentNeeded` -/

/-- C20 as stated fails: hydra's only running pod was created at instant 100,
before hydra-maester's only running pod, created at instant 200;
`restartHydraMaesterDeploymentNeeded` returns false and
`TriggerSynchronization` sends no patch. With the instants exchanged (hydra
started later than hydra-maester) it returns true and the patch is sent. -/
theorem restart_not_needed_when_hydra_started_earlier :
    getEarliestPodStartTime hydraPodName (exampleClient 100 200) "kyma-system" = (100, none)
    ∧ getEarliestPodStartTime hydraMaesterPodName (exampleClient 100 200) "kyma-system"
        = (200, none)
    ∧ restartHydraMaesterDeploymentNeeded (exampleClient 100 200) "kyma-system" = (false, none)
    ∧ TriggerSynchronization (exampleClient 100 200) "kyma-system" = (false, none)
    ∧ restartHydraMaesterDeploymentNeeded (exampleClient 200 100) "kyma-system" = (true, none)
    ∧ TriggerSynchronization (exampleClient 200 100) "kyma-system" = (true, none) := by
  refine ⟨?_, ?_, ?_, ?_, ?_, ?_⟩ <;> decide

/-! ### `getEarliestPodStartTime` -/

theorem earliestLoop_spec (items : List Pod) :
    ∀ init : Int,
      earliestLoop items init ≤ init
      ∧ (∀ p ∈ items, p.Phase = PodRunning → earliestLoop items init ≤ p.CreationTimestamp)
      ∧ (earliestLoop items init = init
          ∨ ∃ p ∈ items, p.Phase = PodRunning
              ∧ p.CreationTimestamp = earliestLoop items init) := by
  induction items with
  | nil =>
    intro init
    simp [earliestLoop]
  | cons pod rest ih =>
    intro init
    by_cases hrun : pod.Phase = PodRunning
    · by_cases hlt : pod.CreationTimestamp < init
      · obtain ⟨h1, h2, h3⟩ := ih pod.CreationTimestamp
        have e : earliestLoop (pod :: rest) init = earliestLoop rest pod.CreationTimestamp := by
          simp [earliestLoop, hrun, hlt]
        rw [e]
        refine ⟨by omega, ?_, ?_⟩
        · intro p hp hpr
          rcases List.mem_cons.mp hp with rfl | hp
          · exact h1
          · exact h2 p hp hpr
        · right
          rcases h3 with h3 | ⟨p, hp, hpr, hpt⟩
          · exact ⟨pod, List.mem_cons_self pod rest, hrun, h3.symm⟩
          · exact ⟨p, List.mem_cons_of_mem pod hp, hpr, hpt⟩
      · obtain ⟨h1, h2, h3⟩ := ih init
        have e : earliestLoop (pod :: rest) init = earliestLoop rest init := by
          simp [earliestLoop, hrun, hlt]
        rw [e]
        refine ⟨h1, ?_, ?_⟩
        · intro p hp hpr
          rcases List.mem_cons.mp hp with rfl | hp
          · omega
          · exact h2 p hp hpr
        · rcases h3 with h3 | ⟨p, hp, hpr, hpt⟩
          · exact Or.inl h3
          · exact Or.inr ⟨p, List.mem_cons_of_mem pod hp, hpr, hpt⟩
    · obtain ⟨h1, h2, h3⟩ := ih init
      have e : earliestLoop (pod :: rest) init = earliestLoop rest init := by
        simp [earliestLoop, hrun]
      rw [e]
      refine ⟨h1, ?_, ?_⟩
      · intro p hp hpr
        rcases List.mem_cons.mp hp with rfl | hp
        · exact absurd hpr hrun
        · exact h2 p hp hpr
      · rcases h3 with h3 | ⟨p, hp, hpr, hpt⟩
        · exact Or.inl h3
        · exact Or.inr ⟨p, List.mem_cons_of_mem pod hp, hpr, hpt⟩

theorem getEarliestPodStartTime_ok (label : String) (client : Client) (kubeNamespace : String)
    (t : Int) (h : getEarliestPodStartTime label client kubeNamespace = (t, none)) :
    ∃ items, client.listPods kubeNamespace label = Except.ok items
      ∧ (∃ p ∈ items, p.Phase = PodRunning ∧ p.CreationTimestamp = t)
      ∧ ∀ p ∈ items, p.Phase = PodRunning → t ≤ p.CreationTimestamp := by
  unfold getEarliestPodStartTime at h
  cases hl : client.listPods kubeNamespace label with
  | error err => simp [hl] at h
  | ok items =>
    obtain ⟨_, h2, h3⟩ := earliestLoop_spec items maxStartTime
    by_cases hlen : items.length < 1
    · simp [hl, hlen] at h
    · by_cases heq : earliestLoop items maxStartTime = maxStartTime
      · simp [hl, hlen, heq] at h
      · simp only [hl, hlen, heq, if_false, Prod.mk.injEq, and_true] at h
        subst h
        refine ⟨items, rfl, ?_, h2⟩
        rcases h3 with h3 | h3
        · exact absurd h3 heq
        · exact h3

/-- C20, amended: the restart is needed exactly when hydra started later than
hydra-maester. `restartHydraMaesterDeploymentNeeded` returns true if and only
if both earliest start times are found and the one of hydra is after the one
of hydra-maester; `TriggerSynchronization` sends the patch of the
`ory-hydra-maester` deployment in exactly that case; and a time found for a
label is the earliest creation time among the running pods of that label. -/
theorem restart_needed_iff_hydra_started_later (client : Client) (kubeNamespace : String) :
    ((restartHydraMaesterDeploymentNeeded client kubeNamespace).1 = true ↔
        ∃ h m, getEarliestPodStartTime hydraPodName client kubeNamespace = (h, none)
          ∧ getEarliestPodStartTime hydraMaesterPodName client kubeNamespace = (m, none)
          ∧ m < h)
    ∧ (TriggerSynchronization client kubeNamespace).1
        = (restartHydraMaesterDeploymentNeeded client kubeNamespace).1
    ∧ (∀ h m, getEarliestPodStartTime hydraPodName client kubeNamespace = (h, none) →
        getEarliestPodStartTime hydraMaesterPodName client kubeNamespace = (m, none) →
        restartHydraMaesterDeploymentNeeded client kubeNamespace = (decide (m < h), none)
        ∧ (∃ items, client.listPods kubeNamespace hydraPodName = Except.ok items
            ∧ (∃ p ∈ items, p.Phase = PodRunning ∧ p.CreationTimestamp = h)
            ∧ ∀ p ∈ items, p.Phase = PodRunning → h ≤ p.CreationTimestamp)
        ∧ (∃ items, client.listPods kubeNamespace hydraMaesterPodName = Except.ok items
            ∧ (∃ p ∈ items, p.Phase = PodRunning ∧ p.CreationTimestamp = m)
            ∧ ∀ p ∈ items, p.Phase = PodRunning → m ≤ p.CreationTimestamp)) := by
  refine ⟨?_, ?_, ?_⟩
  · rcases hh : getEarliestPodStartTime hydraPodName client kubeNamespace with ⟨h, _ | err⟩
    · rcases hm : getEarliestPodStartTime hydraMaesterPodName client kubeNamespace
        with ⟨m, _ | err⟩
      · simp [restartHydraMaesterDeploymentNeeded, hh, hm]
      · simp [restartHydraMaesterDeploymentNeeded, hh, hm]
    · simp [restartHydraMaesterDeploymentNeeded, hh]
  · rcases hh : getEarliestPodStartTime hydraPodName client kubeNamespace with ⟨h, _ | err⟩
    · rcases hm : getEarliestPodStartTime hydraMaesterPodName client kubeNamespace
        with ⟨m, _ | err⟩
      · have hr : restartHydraMaesterDeploymentNeeded client kubeNamespace
            = (decide (m < h), none) := by
          simp [restartHydraMaesterDeploymentNeeded, hh, hm]
        by_cases hlt : m < h
        · cases hp : client.patchDeployment kubeNamespace hydraMaesterDeployment <;>
            simp [TriggerSynchronization, hr, hlt, hp]
        · simp [TriggerSynchronization, hr, hlt]
      · simp [TriggerSynchronization, restartHydraMaesterDeploymentNeeded, hh, hm]
    · simp [TriggerSynchronization, restartHydraMaesterDeploymentNeeded, hh]
  · intro h m hh hm
    refine ⟨by simp [restartHydraMaesterDeploymentNeeded, hh, hm],
      getEarliestPodStartTime_ok _ _ _ h hh, getEarliestPodStartTime_ok _ _ _ m hm⟩

/-- C20 amended, at a concrete input: hydra's running pod was created at
instant 200, after hydra-maester's, created at instant 100; the restart is
needed and the patch is sent. -/
theorem restart_needed_iff_hydra_started_later_witness :
    (restartHydraMaesterDeploymentNeeded (exampleClient 200 100) "kyma-system").1 = true
    ∧ (TriggerSynchronization (exampleClient 200 100) "kyma-system").1 = true :=
  ⟨(restart_needed_iff_hydra_started_later (exampleClient 200 100) "kyma-system").1.mpr
      ⟨200, 100, by decide, by decide, by decide⟩,
   (restart_needed_iff_hydra_started_later (exampleClient 200 100) "kyma-system").2.1.trans
      (by decide)⟩

/-- C24 as stated fails: the pod list has a pod in phase `Running`, created at
the instant `maxStartTime` (December 31 of the year 9999), and
`getEarliestPodStartTime` returns the error of a list without running pod. -/
theorem getEarliestPodStartTime_misses_pod_at_maxStartTime :
    getEarliestPodStartTime hydraPodName (exampleClient maxStartTime 0) "kyma-system"
      = (zeroTime, some
          "Could not find any running pod for label app.kubernetes.io/name=hydra in namespace kyma-system")
    ∧ ∃ items, (exampleClient maxStartTime 0).listPods "kyma-system" hydraPodName
          = Except.ok items
        ∧ ∃ p ∈ items, p.Phase = PodRunning := by
  refine ⟨by decide, _, rfl, _, List.mem_cons_self _ _, rfl⟩

/-- C24, amended: for every pod list that contains at least one pod in phase
`Running` created before `maxStartTime`, `getEarliestPodStartTime` returns,
without error, the minimum `CreationTimestamp` among the `Running` pods
(pods in any other phase are ignored); it returns an error (and the zero
time) if and only if the pod listing fails, the list is empty, or no pod of
the list is `Running` and created before `maxStartTime`. -/
theorem getEarliestPodStartTime_minimum (label : String) (client : Client)
    (kubeNamespace : String) :
    (∀ err, client.listPods kubeNamespace label = Except.error err →
        (getEarliestPodStartTime label client kubeNamespace).1 = zeroTime
        ∧ (getEarliestPodStartTime label client kubeNamespace).2 ≠ none)
    ∧ (∀ items, client.listPods kubeNamespace label = Except.ok items →
        ((∃ p ∈ items, p.Phase = PodRunning ∧ p.CreationTimestamp < maxStartTime) →
          ∃ m, getEarliestPodStartTime label client kubeNamespace = (m, none)
            ∧ (∃ p ∈ items, p.Phase = PodRunning ∧ p.CreationTimestamp = m)
            ∧ ∀ p ∈ items, p.Phase = PodRunning → m ≤ p.CreationTimestamp)
        ∧ ((getEarliestPodStartTime label client kubeNamespace).2 ≠ none ↔
            (items = []
              ∨ ¬ ∃ p ∈ items, p.Phase = PodRunning ∧ p.CreationTimestamp < maxStartTime))
        ∧ ((getEarliestPodStartTime label client kubeNamespace).2 ≠ none →
            (getEarliestPodStartTime label client kubeNamespace).1 = zeroTime)) := by
  constructor
  · intro err herr
    simp [getEarliestPodStartTime, herr]
  · intro items hitems
    obtain ⟨h1, h2, h3⟩ := earliestLoop_spec items maxStartTime
    have hgood : (∃ p ∈ items, p.Phase = PodRunning ∧ p.CreationTimestamp < maxStartTime) →
        earliestLoop items maxStartTime ≠ maxStartTime := by
      rintro ⟨p, hp, hpr, hpt⟩ heq
      have := h2 p hp hpr
      omega
    have hlen : (∃ p ∈ items, p.Phase = PodRunning ∧ p.CreationTimestamp < maxStartTime) →
        ¬ items.length < 1 := by
      rintro ⟨p, hp, _, _⟩
      cases items with
      | nil => simp at hp
      | cons a as => simp
    refine ⟨?_, ?_, ?_⟩
    · intro hex
      refine ⟨earliestLoop items maxStartTime, ?_, ?_, h2⟩
      · simp [getEarliestPodStartTime, hitems, hlen hex, hgood hex]
      · rcases h3 with h3 | h3
        · exact absurd h3 (hgood hex)
        · exact h3
    · by_cases hex : ∃ p ∈ items, p.Phase = PodRunning ∧ p.CreationTimestamp < maxStartTime
      · have hne : items ≠ [] := by
          obtain ⟨p, hp, _, _⟩ := hex
          intro h0
          rw [h0] at hp
          simp at hp
        simp [getEarliestPodStartTime, hitems, hlen hex, hgood hex, hne, hex]
      · have hbad : items.length < 1 ∨ earliestLoop items maxStartTime = maxStartTime := by
          by_cases hl : items.length < 1
          · exact Or.inl hl
          · right
            rcases h3 with h3 | ⟨p, hp, hpr, hpt⟩
            · exact h3
            · by_contra hne
              apply hex
              refine ⟨p, hp, hpr, ?_⟩
              rw [hpt]
              omega
        have herr : (getEarliestPodStartTime label client kubeNamespace).2 ≠ none := by
          rcases hbad with hl | heq
          · simp [getEarliestPodStartTime, hitems, hl]
          · by_cases hl : items.length < 1
            · simp [getEarliestPodStartTime, hitems, hl]
            · simp [getEarliestPodStartTime, hitems, hl, heq]
        simp only [herr, ne_eq, not_false_eq_true, true_iff]
        exact Or.inr hex
    · intro herr
      by_cases hl : items.length < 1
      · simp [getEarliestPodStartTime, hitems, hl]
      · by_cases heq : earliestLoop items maxStartTime = maxStartTime
        · simp [getEarliestPodStartTime, hitems, hl, heq]
        · simp [getEarliestPodStartTime, hitems, hl, heq] at herr

/-- C24 amended, at a concrete input: one running pod created at instant 100. -/
theorem getEarliestPodStartTime_minimum_witness :
    ∃ m, getEarliestPodStartTime hydraPodName (exampleClient 100 200) "kyma-system" = (m, none)
      ∧ (∃ p ∈ [Pod.mk "ory-hydra-0" PodRunning 100],
          p.Phase = PodRunning ∧ p.CreationTimestamp = m)
      ∧ ∀ p ∈ [Pod.mk "ory-hydra-0" PodRunning 100],
          p.Phase = PodRunning → m ≤ p.CreationTimestamp :=
  ((getEarliestPodStartTime_minimum hydraPodName (exampleClient 100 200) "kyma-system").2
    [Pod.mk "ory-hydra-0" PodRunning 100] rfl).1
    ⟨Pod.mk "ory-hydra-0" PodRunning 100, List.mem_cons_self _ _, rfl, by decide⟩

end Hydra

namespace Cluster

/-! ### The latest row -/

theorem latestBy_mem {α : Type} (key : α → Int) (l : List α) (m : α)
    (h : latestBy key l = some m) : m ∈ l := by
  induction l generalizing m with
  | nil => simp [latestBy] at h
  | cons x xs ih =>
    simp only [latestBy] at h
    cases hxs : latestBy key xs with
    | none =>
      simp only [hxs, Option.some.injEq] at h
      simp [h]
    | some y =>
      simp only [hxs] at h
      by_cases hlt : key x < key y
      · simp only [hlt, if_true, Option.some.injEq] at h
        subst h
        exact List.mem_cons_of_mem x (ih y hxs)
      · simp only [hlt, if_false, Option.some.injEq] at h
        simp [h]

theorem latestBy_max {α : Type} (key : α → Int) (l : List α) (m : α)
    (h : latestBy key l = some m) : ∀ x ∈ l, key x ≤ key m := by
  induction l generalizing m with
  | nil => simp
  | cons x xs ih =>
    simp only [latestBy] at h
    cases hxs : latestBy key xs with
    | none =>
      have hnil : xs = [] := by
        cases xs with
        | nil => rfl
        | cons a as =>
          simp only [latestBy] at hxs
          cases h2 : latestBy key as with
          | none => simp [h2] at hxs
          | some b => simp only [h2] at hxs; split_ifs at hxs
      simp only [hxs, Option.some.injEq] at h
      subst h hnil
      simp
    | some y =>
      simp only [hxs] at h
      have hy := ih y hxs
      by_cases hlt : key x < key y
      · simp only [hlt, if_true, Option.some.injEq] at h
        subst h
        intro z hz
        rcases List.mem_cons.mp hz with rfl | hz
        · omega
        · exact hy z hz
      · simp only [hlt, if_false, Option.some.injEq] at h
        subst h
        intro z hz
        rcases List.mem_cons.mp hz with rfl | hz
        · exact le_refl _
        · have := hy z hz
          omega

theorem latestBy_append_greater {α : Type} (key : α → Int) (l : List α) (n : α)
    (h : ∀ x ∈ l, key x < key n) : latestBy key (l ++ [n]) = some n := by
  induction l with
  | nil => simp [latestBy]
  | cons x xs ih =>
    have hx : key x < key n := h x (List.mem_cons_self x xs)
    have hxs : ∀ y ∈ xs, key y < key n := fun y hy => h y (List.mem_cons_of_mem x hy)
    simp [latestBy, ih hxs, hx]

theorem latestBy_cons_smaller {α : Type} (key : α → Int) (l : List α) (x : α)
    (h : ∃ y ∈ l, key x < key y) : latestBy key (x :: l) = latestBy key l := by
  obtain ⟨y, hy, hlt⟩ := h
  cases hl : latestBy key l with
  | none =>
    cases l with
    | nil => simp at hy
    | cons a as =>
      simp only [latestBy] at hl
      cases h2 : latestBy key as with
      | none => simp [h2] at hl
      | some b => simp only [h2] at hl; split_ifs at hl
  | some m =>
    have hmax := latestBy_max key l m hl y hy
    have : key x < key m := by omega
    simp [latestBy, hl, this]

/-! ### `UpdateStatus` -/

theorem appendStatus_wellFormed (inv : Inventory) (config : ClusterConfigurationEntity)
    (status : Status) (now : Int) (h : inv.wellFormed) :
    (appendStatus inv config status now).1.wellFormed := by
  obtain ⟨h1, h2⟩ := h
  constructor
  · simp only [appendStatus, List.pairwise_append]
    refine ⟨h1, by simp, ?_⟩
    intro a ha b hb
    rw [List.mem_singleton] at hb
    subst hb
    exact h2 a ha
  · intro s hs
    simp only [appendStatus, List.mem_append, List.mem_singleton] at hs ⊢
    rcases hs with hs | rfl
    · have := h2 s hs
      omega
    · simp

theorem updateStatus_cases (inv : Inventory) (state : State) (s : Status) (now : Int) :
    (∀ old, latestStatus inv state.Configuration.RuntimeID state.Configuration.Version
          = some old → old.Status = s →
        UpdateStatus inv state s now = Except.ok (inv, { state with Status := old }))
    ∧ ((∀ old, latestStatus inv state.Configuration.RuntimeID state.Configuration.Version
          = some old → old.Status ≠ s) →
        UpdateStatus inv state s now
          = Except.ok ((appendStatus inv state.Configuration s now).1,
              { state with Status := (appendStatus inv state.Configuration s now).2 })) := by
  constructor
  · intro old hold hs
    simp [UpdateStatus, hold, hs]
  · intro h
    cases hl : latestStatus inv state.Configuration.RuntimeID state.Configuration.Version with
    | none => simp [UpdateStatus, hl]
    | some old => simp [UpdateStatus, hl, h old hl]

/-- C13 as stated fails on a state that is no longer current. In the test
"Get clusters with particular status" the state returned by `CreateOrUpdate`
(status `ReconcilePending`) is updated to `ReconcileError` and then, the same
state again, to `ReconcilePending`: the new status equals
`state.Status.Status`, and a row is appended all the same and the returned
`Status.ID` differs from the state's. Read by the letter
(`UpdateStatusBySnapshot`) the test would find one cluster to reconcile
instead of two. -/
theorem updateStatus_stale_state_appends :
    (∃ inv1 st inv2 st2 inv3 st3,
      CreateOrUpdate emptyInventory 1 (newCluster "3" 1 false) 0 = Except.ok (inv1, st)
      ∧ UpdateStatus inv1 st Status.ReconcileError 0 = Except.ok (inv2, st2)
      ∧ UpdateStatus inv2 st Status.ReconcilePending 0 = Except.ok (inv3, st3)
      ∧ st.Status.Status = Status.ReconcilePending
      ∧ inv3.statuses.length = inv2.statuses.length + 1
      ∧ st3.Status.ID ≠ st.Status.ID)
    ∧ particularStatusTest UpdateStatus
        = some ([Status.ReconcilePending, Status.DeletePending],
            [Status.ReconcileError, Status.Reconciling, Status.DeleteError, Status.Deleting])
    ∧ particularStatusTest UpdateStatusBySnapshot
        = some ([Status.DeletePending],
            [Status.ReconcileError, Status.ReconcileError, Status.Reconciling,
              Status.DeleteError, Status.Deleting]) := by
  refine ⟨⟨_, _, _, _, _, _, rfl, rfl, rfl, ?_, ?_, ?_⟩, ?_, ?_⟩
  · decide
  · decide
  · decide
  · decide
  · decide

/-- C13, amended: `UpdateStatus` appends a status row if and only if the new
status differs from the latest status stored for the state's Configuration.
If it equals that latest status, nothing is written and the state is
returned with that status; if it differs (or no status is stored), exactly
one row is appended for the state's Configuration, the returned State
carries it, its status is the new one and its ID is greater than every
stored ID. For a current state (one whose `Status` is the latest stored) this
is the comparison with `state.Status.Status`: an equal status returns the
state unchanged, a different one a `Status.ID` strictly greater than
`state.Status.ID`. The store stays well formed. -/
theorem updateStatus_appends_iff_differs_from_latest (inv : Inventory) (state : State)
    (s : Status) (now : Int) (hwf : inv.wellFormed) :
    (∀ old, latestStatus inv state.Configuration.RuntimeID state.Configuration.Version
          = some old → old.Status = s →
        UpdateStatus inv state s now = Except.ok (inv, { state with Status := old }))
    ∧ ((∀ old, latestStatus inv state.Configuration.RuntimeID state.Configuration.Version
          = some old → old.Status ≠ s) →
        ∃ inv1 st1, UpdateStatus inv state s now = Except.ok (inv1, st1)
          ∧ inv1.statuses = inv.statuses ++ [st1.Status]
          ∧ inv1.clusters = inv.clusters ∧ inv1.configurations = inv.configurations
          ∧ st1.Cluster = state.Cluster ∧ st1.Configuration = state.Configuration
          ∧ st1.Status.Status = s
          ∧ st1.Status.RuntimeID = state.Configuration.RuntimeID
          ∧ st1.Status.ConfigVersion = state.Configuration.Version
          ∧ ∀ row ∈ inv.statuses, row.ID < st1.Status.ID)
    ∧ (latestStatus inv state.Configuration.RuntimeID state.Configuration.Version
          = some state.Status →
        (s = state.Status.Status → UpdateStatus inv state s now = Except.ok (inv, state))
        ∧ (s ≠ state.Status.Status →
            ∃ inv1 st1, UpdateStatus inv state s now = Except.ok (inv1, st1)
              ∧ inv1.statuses = inv.statuses ++ [st1.Status]
              ∧ st1.Status.Status = s ∧ state.Status.ID < st1.Status.ID))
    ∧ (∀ inv1 st1, UpdateStatus inv state s now = Except.ok (inv1, st1) → inv1.wellFormed) := by
  obtain ⟨hsame, hdiff⟩ := updateStatus_cases inv state s now
  refine ⟨hsame, ?_, ?_, ?_⟩
  · intro h
    refine ⟨_, _, hdiff h, rfl, rfl, rfl, rfl, rfl, rfl, rfl, rfl, ?_⟩
    intro row hrow
    exact hwf.2 row hrow
  · intro hcur
    constructor
    · intro hs
      rw [hsame state.Status hcur hs.symm]
    · intro hs
      have h : ∀ old, latestStatus inv state.Configuration.RuntimeID
          state.Configuration.Version = some old → old.Status ≠ s := by
        intro old hold
        rw [hcur] at hold
        cases hold
        exact fun h2 => hs h2.symm
      refine ⟨_, _, hdiff h, rfl, rfl, ?_⟩
      have hmem : state.Status ∈ inv.statuses := by
        have := latestBy_mem _ _ _ hcur
        exact (List.mem_filter.mp this).1
      exact hwf.2 state.Status hmem
  · intro inv1 st1 hrun
    cases hl : latestStatus inv state.Configuration.RuntimeID state.Configuration.Version with
    | none =>
      simp only [UpdateStatus, hl, Except.ok.injEq, Prod.mk.injEq] at hrun
      rw [← hrun.1]
      exact appendStatus_wellFormed inv _ _ _ hwf
    | some old =>
      by_cases hs : old.Status = s
      · simp only [UpdateStatus, hl, hs, if_true, Except.ok.injEq, Prod.mk.injEq] at hrun
        rw [← hrun.1]
        exact hwf
      · simp only [UpdateStatus, hl, hs, if_false, Except.ok.injEq, Prod.mk.injEq] at hrun
        rw [← hrun.1]
        exact appendStatus_wellFormed inv _ _ _ hwf

/-- C13 amended, at a concrete input: the current state of a fresh cluster
keeps its status row when updated to `ReconcilePending` and gets a row with
a greater ID when updated to `Reconciling` (scenario S3). -/
theorem updateStatus_appends_iff_differs_from_latest_witness :
    exampleInventory.wellFormed
    ∧ UpdateStatus exampleInventory exampleState Status.ReconcilePending 5
        = Except.ok (exampleInventory, exampleState)
    ∧ ∃ inv1 st1, UpdateStatus exampleInventory exampleState Status.Reconciling 5
          = Except.ok (inv1, st1)
        ∧ inv1.statuses = exampleInventory.statuses ++ [st1.Status]
        ∧ st1.Status.Status = Status.Reconciling
        ∧ exampleState.Status.ID < st1.Status.ID :=
  ⟨by decide,
   ((updateStatus_appends_iff_differs_from_latest exampleInventory exampleState
      Status.ReconcilePending 5 (by decide)).2.2.1 (by decide)).1 (by decide),
   ((updateStatus_appends_iff_differs_from_latest exampleInventory exampleState
      Status.Reconciling 5 (by decide)).2.2.1 (by decide)).2 (by decide)⟩

/-! ### `CreateOrUpdate` -/

theorem latestBy_eq_none {α : Type} (key : α → Int) (l : List α)
    (h : latestBy key l = none) : l = [] := by
  cases l with
  | nil => rfl
  | cons a as =>
    simp only [latestBy] at h
    cases h2 : latestBy key as with
    | none => simp [h2] at h
    | some b => simp only [h2] at h; split_ifs at h

theorem createCluster_spec (inv : Inventory) (contract : Int) (cluster : KebCluster) :
    latestCluster (createCluster inv contract cluster).1 cluster.RuntimeID
        = some (createCluster inv contract cluster).2
    ∧ (createCluster inv contract cluster).2.Metadata = cluster.Metadata
    ∧ (createCluster inv contract cluster).2.Runtime = cluster.RuntimeInput
    ∧ (createCluster inv contract cluster).2.RuntimeID = cluster.RuntimeID
    ∧ (createCluster inv contract cluster).1.configurations = inv.configurations
    ∧ (createCluster inv contract cluster).1.statuses = inv.statuses
    ∧ (createCluster inv contract cluster).1.nextStatusID = inv.nextStatusID := by
  cases hl : latestCluster inv cluster.RuntimeID with
  | none =>
    have hnil := latestBy_eq_none _ _ hl
    have hc : createCluster inv contract cluster
        = ({ inv with clusters := inv.clusters ++
              [{ RuntimeID := cluster.RuntimeID, Version := 1, Contract := contract,
                 Metadata := cluster.Metadata, Runtime := cluster.RuntimeInput }] },
           { RuntimeID := cluster.RuntimeID, Version := 1, Contract := contract,
             Metadata := cluster.Metadata, Runtime := cluster.RuntimeInput }) := by
      simp [createCluster, hl]
    rw [hc]
    refine ⟨?_, rfl, rfl, rfl, rfl, rfl, rfl⟩
    simp [latestCluster, List.filter_append, hnil, latestBy]
  | some old =>
    have hmem := latestBy_mem _ _ _ hl
    have hold : old.RuntimeID = cluster.RuntimeID := by
      simpa using (List.mem_filter.mp hmem).2
    by_cases hsame : old.Metadata = cluster.Metadata ∧ old.Runtime = cluster.RuntimeInput
    · have hc : createCluster inv contract cluster = (inv, old) := by
        simp [createCluster, hl, hsame]
      rw [hc]
      exact ⟨hl, hsame.1, hsame.2, hold, rfl, rfl, rfl⟩
    · have hc : createCluster inv contract cluster
          = ({ inv with clusters := inv.clusters ++
                [{ RuntimeID := cluster.RuntimeID, Version := old.Version + 1,
                   Contract := contract, Metadata := cluster.Metadata,
                   Runtime := cluster.RuntimeInput }] },
             { RuntimeID := cluster.RuntimeID, Version := old.Version + 1,
               Contract := contract, Metadata := cluster.Metadata,
               Runtime := cluster.RuntimeInput }) := by
        simp only [createCluster, hl, hsame, if_false]
      rw [hc]
      refine ⟨?_, rfl, rfl, rfl, rfl, rfl, rfl⟩
      have hmax := latestBy_max _ _ _ hl
      simp only [latestCluster, List.filter_append, List.filter_cons, List.filter_nil,
        decide_True, if_true]
      apply latestBy_append_greater
      intro x hx
      have := hmax x hx
      simp only at this ⊢
      omega

theorem createCluster_of_latest (inv : Inventory) (contract : Int) (cluster : KebCluster)
    (ce : ClusterEntity) (h1 : latestCluster inv cluster.RuntimeID = some ce)
    (h2 : ce.Metadata = cluster.Metadata) (h3 : ce.Runtime = cluster.RuntimeInput) :
    createCluster inv contract cluster = (inv, ce) := by
  simp [createCluster, h1, h2, h3]

theorem sameConfiguration_new (inv : Inventory) (contract : Int) (cluster : KebCluster)
    (ce : ClusterEntity) :
    sameConfiguration (newConfiguration inv contract cluster ce) cluster = true := by
  simp [sameConfiguration, newConfiguration]

theorem nextConfigurationVersion_greater (inv : Inventory) (r : String) (cv : Int) :
    ∀ x ∈ inv.configurations.filter (fun c => c.RuntimeID = r ∧ c.ClusterVersion = cv),
      x.Version < nextConfigurationVersion inv r := by
  intro x hx
  have hx2 : x ∈ inv.configurations.filter (fun c => c.RuntimeID = r) := by
    simp only [List.mem_filter, decide_eq_true_eq] at hx ⊢
    exact ⟨hx.1, hx.2.1⟩
  cases hl : latestBy (fun c : ClusterConfigurationEntity => c.Version)
      (inv.configurations.filter (fun c => c.RuntimeID = r)) with
  | none =>
    rw [latestBy_eq_none _ _ hl] at hx2
    simp at hx2
  | some m =>
    have := latestBy_max _ _ _ hl x hx2
    simp only [nextConfigurationVersion, hl]
    simp only at this
    omega

theorem createConfiguration_spec (inv : Inventory) (contract : Int) (cluster : KebCluster)
    (ce : ClusterEntity) :
    latestConfiguration (createConfiguration inv contract cluster ce).1 ce.RuntimeID ce.Version
        = some (createConfiguration inv contract cluster ce).2.1
    ∧ sameConfiguration (createConfiguration inv contract cluster ce).2.1 cluster = true
    ∧ (createConfiguration inv contract cluster ce).1.clusters = inv.clusters
    ∧ (createConfiguration inv contract cluster ce).1.statuses = inv.statuses
    ∧ (createConfiguration inv contract cluster ce).1.nextStatusID = inv.nextStatusID := by
  have hnew : latestConfiguration
      { inv with configurations :=
          inv.configurations ++ [newConfiguration inv contract cluster ce] }
      ce.RuntimeID ce.Version = some (newConfiguration inv contract cluster ce) := by
    have hkeep : (decide ((newConfiguration inv contract cluster ce).RuntimeID = ce.RuntimeID
        ∧ (newConfiguration inv contract cluster ce).ClusterVersion = ce.Version)) = true := by
      simp [newConfiguration]
    simp only [latestConfiguration, List.filter_append, List.filter_cons, List.filter_nil,
      hkeep, if_true]
    apply latestBy_append_greater
    intro x hx
    exact nextConfigurationVersion_greater inv ce.RuntimeID ce.Version x hx
  cases hl : latestConfiguration inv ce.RuntimeID ce.Version with
  | none =>
    have hc : createConfiguration inv contract cluster ce
        = ({ inv with configurations :=
              inv.configurations ++ [newConfiguration inv contract cluster ce] },
           newConfiguration inv contract cluster ce, true) := by
      simp only [createConfiguration, hl]
    rw [hc]
    exact ⟨hnew, sameConfiguration_new _ _ _ _, rfl, rfl, rfl⟩
  | some old =>
    by_cases hsame : sameConfiguration old cluster = true
    · have hc : createConfiguration inv contract cluster ce = (inv, old, false) := by
        simp only [createConfiguration, hl, hsame, if_true]
      rw [hc]
      exact ⟨hl, hsame, rfl, rfl, rfl⟩
    · have hc : createConfiguration inv contract cluster ce
          = ({ inv with configurations :=
                inv.configurations ++ [newConfiguration inv contract cluster ce] },
             newConfiguration inv contract cluster ce, true) := by
        simp [createConfiguration, hl, hsame]
      rw [hc]
      exact ⟨hnew, sameConfiguration_new _ _ _ _, rfl, rfl, rfl⟩

theorem createConfiguration_of_latest (inv : Inventory) (contract : Int) (cluster : KebCluster)
    (ce : ClusterEntity) (cfg : ClusterConfigurationEntity)
    (h1 : latestConfiguration inv ce.RuntimeID ce.Version = some cfg)
    (h2 : sameConfiguration cfg cluster = true) :
    createConfiguration inv contract cluster ce = (inv, cfg, false) := by
  simp [createConfiguration, h1, h2]

theorem createOrUpdate_of_latest (inv : Inventory) (contract : Int) (cluster : KebCluster)
    (now : Int) (ce : ClusterEntity) (cfg : ClusterConfigurationEntity)
    (status : ClusterStatusEntity)
    (h1 : latestCluster inv cluster.RuntimeID = some ce)
    (h2 : ce.Metadata = cluster.Metadata) (h3 : ce.Runtime = cluster.RuntimeInput)
    (h4 : latestConfiguration inv ce.RuntimeID ce.Version = some cfg)
    (h5 : sameConfiguration cfg cluster = true)
    (h6 : latestStatus inv cfg.RuntimeID cfg.Version = some status) :
    CreateOrUpdate inv contract cluster now = Except.ok (inv, State.mk ce cfg status) := by
  simp only [CreateOrUpdate, createCluster_of_latest inv contract cluster ce h1 h2 h3,
    createConfiguration_of_latest inv contract cluster ce cfg h4 h5, h6]

theorem latestCluster_congr (inv inv2 : Inventory) (h : inv2.clusters = inv.clusters)
    (r : String) : latestCluster inv2 r = latestCluster inv r := by
  simp [latestCluster, h]

theorem latestConfiguration_congr (inv inv2 : Inventory)
    (h : inv2.configurations = inv.configurations) (r : String) (v : Int) :
    latestConfiguration inv2 r v = latestConfiguration inv r v := by
  simp [latestConfiguration, h]

theorem wellFormed_congr (inv inv2 : Inventory) (h1 : inv2.statuses = inv.statuses)
    (h2 : inv2.nextStatusID = inv.nextStatusID) (h : inv.wellFormed) : inv2.wellFormed := by
  unfold Inventory.wellFormed at h ⊢
  rw [h1, h2]
  exact h

theorem latestStatus_appendStatus (inv : Inventory) (config : ClusterConfigurationEntity)
    (status : Status) (now : Int) (h : inv.wellFormed) :
    latestStatus (appendStatus inv config status now).1 config.RuntimeID config.Version
      = some (appendStatus inv config status now).2 := by
  simp only [latestStatus, statusRows, appendStatus, List.filter_append, List.filter_cons,
    List.filter_nil, and_self, decide_True, if_true]
  apply latestBy_append_greater
  intro x hx
  exact h.2 x (List.mem_filter.mp hx).1

/-- C14: `CreateOrUpdate` is idempotent. On a well-formed store, when
`CreateOrUpdate(c, s)` returned a State, calling it again with the same
submission returns the same State (the same `Cluster.Version`,
`Configuration.Version` and `Status.ID`) and leaves the store as the first
call left it: no cluster version, configuration version or status row is
created. The store stays well formed. -/
theorem createOrUpdate_idempotent (inv : Inventory) (contract : Int) (cluster : KebCluster)
    (now now2 : Int) (inv1 : Inventory) (st1 : State) (hwf : inv.wellFormed)
    (h : CreateOrUpdate inv contract cluster now = Except.ok (inv1, st1)) :
    CreateOrUpdate inv1 contract cluster now2 = Except.ok (inv1, st1)
    ∧ (∃ st2, CreateOrUpdate inv1 contract cluster now2 = Except.ok (inv1, st2)
        ∧ st2.Cluster.Version = st1.Cluster.Version
        ∧ st2.Configuration.Version = st1.Configuration.Version
        ∧ st2.Status.ID = st1.Status.ID)
    ∧ inv1.wellFormed := by
  obtain ⟨c1, c2, c3, c4, _, c6, c7⟩ := createCluster_spec inv contract cluster
  obtain ⟨f1, f2, f3, f4, f5⟩ := createConfiguration_spec
    (createCluster inv contract cluster).1 contract cluster (createCluster inv contract cluster).2
  have hwf2 : (createConfiguration (createCluster inv contract cluster).1 contract cluster
      (createCluster inv contract cluster).2).1.wellFormed :=
    wellFormed_congr inv _ (f4.trans c6) (f5.trans c7) hwf
  have hcl : latestCluster (createConfiguration (createCluster inv contract cluster).1 contract
      cluster (createCluster inv contract cluster).2).1 cluster.RuntimeID
      = some (createCluster inv contract cluster).2 := by
    rw [latestCluster_congr _ _ f3]
    exact c1
  have hmain : CreateOrUpdate inv1 contract cluster now2 = Except.ok (inv1, st1) ∧ inv1.wellFormed := by
    unfold CreateOrUpdate at h
    cases hr2 : createConfiguration (createCluster inv contract cluster).1 contract cluster
        (createCluster inv contract cluster).2 with
    | mk inv2 rest =>
      cases rest with
      | mk cfg minted =>
        rw [hr2] at h f1 f2 hwf2 hcl
        simp only at f1 f2 hwf2 hcl
        cases minted with
        | false =>
          simp only at h
          cases hls : latestStatus inv2 cfg.RuntimeID cfg.Version with
          | none => simp [hls] at h
          | some status =>
            simp only [hls, Except.ok.injEq, Prod.mk.injEq] at h
            obtain ⟨h1, h2⟩ := h
            subst h1 h2
            exact ⟨createOrUpdate_of_latest _ contract cluster now2 _ cfg status hcl c2 c3 f1 f2
              hls, hwf2⟩
        | true =>
          simp only [Except.ok.injEq, Prod.mk.injEq] at h
          obtain ⟨h1, h2⟩ := h
          subst h1 h2
          refine ⟨createOrUpdate_of_latest _ contract cluster now2 _ cfg _ ?_ c2 c3 ?_ f2 ?_,
            appendStatus_wellFormed _ _ _ _ hwf2⟩
          · exact (latestCluster_congr inv2
              (appendStatus inv2 cfg Status.ReconcilePending now).1 rfl _).trans hcl
          · exact (latestConfiguration_congr inv2
              (appendStatus inv2 cfg Status.ReconcilePending now).1 rfl _ _).trans f1
          · exact latestStatus_appendStatus inv2 cfg Status.ReconcilePending now hwf2
  exact ⟨hmain.1, ⟨st1, hmain.1, rfl, rfl, rfl⟩, hmain.2⟩

/-- C14, at a concrete input (scenario S1): the first submission of cluster
`"1"` to the empty store, submitted again. -/
theorem createOrUpdate_idempotent_witness :
    emptyInventory.wellFormed
    ∧ CreateOrUpdate emptyInventory 1 (newCluster "1" 1 false) 0
        = Except.ok (exampleInventory, exampleState)
    ∧ CreateOrUpdate exampleInventory 1 (newCluster "1" 1 false) 7
        = Except.ok (exampleInventory, exampleState) :=
  ⟨by decide, rfl,
   (createOrUpdate_idempotent emptyInventory 1 (newCluster "1" 1 false) 0 7
      exampleInventory exampleState (by decide) rfl).1⟩

/-! ### Work lists -/

theorem mem_latestStates (inv : Inventory) (st : State) :
    st ∈ latestStates inv ↔ ∃ r ∈ runtimeIDs inv, GetLatest inv r = Except.ok st := by
  simp only [latestStates, List.mem_filterMap]
  constructor
  · rintro ⟨r, hr, h⟩
    refine ⟨r, hr, ?_⟩
    cases hg : GetLatest inv r with
    | error e => simp [hg] at h
    | ok st2 =>
      simp only [hg, Option.some.injEq] at h
      rw [h]
  · rintro ⟨r, hr, h⟩
    exact ⟨r, hr, by simp [h]⟩

theorem latestStatus_cons_older (inv : Inventory) (old : ClusterStatusEntity)
    (h : ∃ newer ∈ inv.statuses, newer.RuntimeID = old.RuntimeID
      ∧ newer.ConfigVersion = old.ConfigVersion ∧ old.ID < newer.ID)
    (r : String) (v : Int) :
    latestStatus { inv with statuses := old :: inv.statuses } r v = latestStatus inv r v := by
  obtain ⟨newer, hmem, hr, hv, hlt⟩ := h
  by_cases hold : old.RuntimeID = r ∧ old.ConfigVersion = v
  · have hfil : statusRows { inv with statuses := old :: inv.statuses } r v
        = old :: statusRows inv r v := by
      simp [statusRows, List.filter_cons, hold]
    simp only [latestStatus, hfil]
    apply latestBy_cons_smaller
    refine ⟨newer, ?_, hlt⟩
    simp only [statusRows, List.mem_filter, decide_eq_true_eq]
    exact ⟨hmem, hr.trans hold.1, hv.trans hold.2⟩
  · have hfil : statusRows { inv with statuses := old :: inv.statuses } r v
        = statusRows inv r v := by
      simp [statusRows, List.filter_cons, hold]
    simp only [latestStatus, hfil]

theorem latestStates_cons_older (inv : Inventory) (old : ClusterStatusEntity)
    (h : ∃ newer ∈ inv.statuses, newer.RuntimeID = old.RuntimeID
      ∧ newer.ConfigVersion = old.ConfigVersion ∧ old.ID < newer.ID) :
    latestStates { inv with statuses := old :: inv.statuses } = latestStates inv := by
  have hget : ∀ r, GetLatest { inv with statuses := old :: inv.statuses } r = GetLatest inv r := by
    intro r
    have hc : latestCluster { inv with statuses := old :: inv.statuses } r
        = latestCluster inv r := rfl
    have hf : ∀ v, latestConfiguration { inv with statuses := old :: inv.statuses } r v
        = latestConfiguration inv r v := fun _ => rfl
    simp only [GetLatest, hc, hf, latestStatus_cons_older inv old h]
  simp only [latestStates, hget]
  rfl

/-- C15: the work lists depend only on the current status of each cluster.
`ClustersToReconcile(0)` returns exactly the latest States whose status is
`ReconcilePending` or `DeletePending`, and `ClustersNotReady()` exactly the
latest States whose status is `Reconciling`, `ReconcileError`, `Deleting` or
`DeleteError`, where the latest States are the results of `GetLatest` over
the RuntimeIDs of the store. A status row older than another row of the same
Configuration (an earlier status of the history) changes neither list. -/
theorem workLists_depend_on_current_status (inv : Inventory) (now : Int) :
    (∀ st, st ∈ ClustersToReconcile inv 0 now ↔
        (∃ r ∈ runtimeIDs inv, GetLatest inv r = Except.ok st)
        ∧ (st.Status.Status = Status.ReconcilePending
            ∨ st.Status.Status = Status.DeletePending))
    ∧ (∀ st, st ∈ ClustersNotReady inv ↔
        (∃ r ∈ runtimeIDs inv, GetLatest inv r = Except.ok st)
        ∧ (st.Status.Status = Status.Reconciling ∨ st.Status.Status = Status.ReconcileError
            ∨ st.Status.Status = Status.Deleting ∨ st.Status.Status = Status.DeleteError))
    ∧ (∀ old : ClusterStatusEntity,
        (∃ newer ∈ inv.statuses, newer.RuntimeID = old.RuntimeID
          ∧ newer.ConfigVersion = old.ConfigVersion ∧ old.ID < newer.ID) →
        ClustersToReconcile { inv with statuses := old :: inv.statuses } 0 now
            = ClustersToReconcile inv 0 now
        ∧ ClustersNotReady { inv with statuses := old :: inv.statuses }
            = ClustersNotReady inv) := by
  refine ⟨?_, ?_, ?_⟩
  · intro st
    simp only [ClustersToReconcile, List.mem_filter, mem_latestStates, ne_eq,
      not_true_eq_false, false_and, or_false, Bool.decide_or, Bool.or_eq_true,
      decide_eq_true_eq, Bool.decide_and, Bool.and_eq_true, decide_not, Bool.not_eq_true',
      decide_eq_false_iff_not]
  · intro st
    simp only [ClustersNotReady, List.mem_filter, mem_latestStates, Bool.decide_or,
      Bool.or_eq_true, decide_eq_true_eq]
  · intro old h
    simp only [ClustersToReconcile, ClustersNotReady, latestStates_cons_older inv old h,
      and_self]

/-- C15, at a concrete input: an earlier `ReconcileError` row put into the
history of a cluster whose current status is `ReconcilePending` leaves it in
the list of clusters to reconcile and out of the list of clusters not ready. -/
theorem workLists_depend_on_current_status_witness :
    ClustersToReconcile
        { exampleInventory with statuses :=
            ClusterStatusEntity.mk 0 "1" 1 Status.ReconcileError 0 :: exampleInventory.statuses }
        0 9 = ClustersToReconcile exampleInventory 0 9
    ∧ ClustersNotReady
        { exampleInventory with statuses :=
            ClusterStatusEntity.mk 0 "1" 1 Status.ReconcileError 0 :: exampleInventory.statuses }
        = ClustersNotReady exampleInventory :=
  (workLists_depend_on_current_status exampleInventory 9).2.2
    (ClusterStatusEntity.mk 0 "1" 1 Status.ReconcileError 0)
    ⟨ClusterStatusEntity.mk 1 "1" 1 Status.ReconcilePending 0, by decide, rfl, rfl, by decide⟩

/-! ### `CountRetries` -/

theorem orderedInsert_last {α : Type} (r : α → α → Prop) [DecidableRel r] (x : α)
    (ys : List α) (h : ∀ y ∈ ys, ¬ r x y) : ys.orderedInsert r x = ys ++ [x] := by
  induction ys with
  | nil => rfl
  | cons y rest ih =>
    have hy : ¬ r x y := h y (List.mem_cons_self y rest)
    have hrest : ∀ z ∈ rest, ¬ r x z := fun z hz => h z (List.mem_cons_of_mem y hz)
    simp [List.orderedInsert, hy, ih hrest]

theorem insertionSort_descending (l : List ClusterStatusEntity)
    (h : l.Pairwise (fun a b => a.ID < b.ID)) :
    l.insertionSort (fun a b => b.ID ≤ a.ID) = l.reverse := by
  induction l with
  | nil => rfl
  | cons x xs ih =>
    rw [List.pairwise_cons] at h
    rw [List.insertionSort, ih h.2, List.reverse_cons]
    apply orderedInsert_last
    intro y hy
    have := h.1 y (List.mem_reverse.mp hy)
    omega

theorem insertionSort_ascending (l : List ClusterStatusEntity)
    (h : l.Pairwise (fun a b => a.ID < b.ID)) :
    l.insertionSort (fun a b => a.ID ≤ b.ID) = l := by
  apply List.Sorted.insertionSort_eq
  exact h.imp (fun hab => le_of_lt hab)

theorem statusRows_pairwise (inv : Inventory) (h : inv.wellFormed) (r : String) (v : Int) :
    (statusRows inv r v).Pairwise (fun a b => a.ID < b.ID) :=
  h.1.sublist (List.filter_sublist _)

theorem countPairs_append_singleton (R : List Status) (s : Status) (ys : List Status) :
    ∀ xs : List Status,
      countPairs R (xs ++ s :: ys) = countPairs R (xs ++ [s]) + countPairs R (s :: ys) := by
  intro xs
  induction xs with
  | nil => simp [countPairs]
  | cons a rest ih =>
    cases rest with
    | nil =>
      cases ys with
      | nil => simp [countPairs]
      | cons y ys2 => simp [countPairs]
    | cons b rest2 =>
      have e1 : countPairs R ((a :: b :: rest2) ++ s :: ys)
          = (if a ∈ R ∧ b = Status.Reconciling then 1 else 0)
            + countPairs R ((b :: rest2) ++ s :: ys) := rfl
      have e2 : countPairs R ((a :: b :: rest2) ++ [s])
          = (if a ∈ R ∧ b = Status.Reconciling then 1 else 0)
            + countPairs R ((b :: rest2) ++ [s]) := rfl
      rw [e1, e2, ih]
      omega

theorem countLoop_takeWhile (R : List Status) (rows : List Status) :
    ∀ later, countLoop R rows later
      = countLoop R (rows.takeWhile (fun s => s ≠ Status.Ready)) later := by
  induction rows with
  | nil => intro later; rfl
  | cons s older ih =>
    intro later
    by_cases hs : s = Status.Ready
    · simp [countLoop, hs, List.takeWhile]
    · simp only [countLoop, hs, if_false, List.takeWhile, ne_eq, not_false_eq_true,
        decide_True]
      rw [ih (some s)]

theorem countLoop_eq_countPairs (R : List Status) (seg : List Status)
    (h : ∀ s ∈ seg, s ≠ Status.Ready) :
    ∀ later : Option Status,
      countLoop R seg later = countPairs R (seg.reverse ++ later.toList) := by
  induction seg with
  | nil =>
    intro later
    cases later <;> simp [countLoop, countPairs]
  | cons s older ih =>
    intro later
    have hs : s ≠ Status.Ready := h s (List.mem_cons_self s older)
    have holder : ∀ t ∈ older, t ≠ Status.Ready :=
      fun t ht => h t (List.mem_cons_of_mem s ht)
    have ih2 : countLoop R older (some s) = countPairs R (older.reverse ++ [s]) :=
      ih holder (some s)
    have e1 : countLoop R (s :: older) later
        = (if s ∈ R ∧ later = some Status.Reconciling then 1 else 0)
          + countLoop R older (some s) := by
      simp only [countLoop, hs, if_false]
    rw [e1, ih2, List.reverse_cons, List.append_assoc, List.singleton_append,
      countPairs_append_singleton R s later.toList older.reverse]
    cases later with
    | none => simp [countPairs]
    | some t => simp [countPairs, Nat.add_comm]

theorem countLoop_reverse (R : List Status) (timeline : List Status) :
    countLoop R timeline.reverse none = retriesSinceReady R timeline := by
  rw [countLoop_takeWhile, countLoop_eq_countPairs]
  · simp [retriesSinceReady, afterLastReady, List.rtakeWhile]
  · intro s hs
    have := List.mem_takeWhile_imp hs
    simpa using this

theorem rtakeWhile_after (p : Status → Bool) (pre suf : List Status) (x : Status)
    (hx : p x = false) (hsuf : ∀ y ∈ suf, p y = true) :
    (pre ++ [x] ++ suf).rtakeWhile p = suf := by
  induction suf using List.reverseRecOn with
  | nil => simpa using List.rtakeWhile_concat_neg p (pre) x (by simp [hx])
  | append_singleton ys y ih =>
    have hy : p y = true := hsuf y (by simp)
    have hys : ∀ z ∈ ys, p z = true := fun z hz => hsuf z (by simp [hz])
    rw [← List.append_assoc, List.rtakeWhile_concat_pos _ _ _ hy, ih hys]

theorem countPairs_retryRounds (R : List Status)
    (hR : Status.ReconcileErrorRetryable ∈ R) (n : Nat) :
    countPairs R (retryRounds n) = n
    ∧ countPairs R (Status.Reconciling :: retryRounds n) = n := by
  induction n with
  | zero => simp [retryRounds, countPairs]
  | succ k ih =>
    have h1 : countPairs R (retryRounds (k + 1)) = k + 1 := by
      simp only [retryRounds, countPairs, hR, true_and, if_true, ih.2]
      omega
    refine ⟨h1, ?_⟩
    have h2 : countPairs R (Status.Reconciling :: retryRounds (k + 1))
        = (if Status.Reconciling ∈ R ∧ Status.ReconcileErrorRetryable = Status.Reconciling
            then 1 else 0) + countPairs R (retryRounds (k + 1)) := by
      simp only [retryRounds, countPairs]
    rw [h2, h1]
    simp

theorem retryRounds_not_ready (n : Nat) : ∀ s ∈ retryRounds n, s ≠ Status.Ready := by
  induction n with
  | zero => simp [retryRounds]
  | succ k ih =>
    intro s hs
    simp only [retryRounds, List.mem_cons] at hs
    rcases hs with rfl | rfl | hs
    · decide
    · decide
    · exact ih s hs

/-- C16: `CountRetries` counts the retries since the most recent `Ready`. On a
well-formed store, for a non-empty RuntimeID and a status timeline of the
Configuration that fits in the window, it returns without error the number of
positions after the most recent `Ready` at which a member of the status list
is immediately followed in forward time by `Reconciling`; it returns 0 when
the timeline ends in `Ready`, and `n` when the timeline ends with `n`
repetitions of `ReconcileErrorRetryable`, `Reconciling` after a `Ready` and
`ReconcileErrorRetryable` is in the list. -/
theorem countRetries_counts_since_ready (inv : Inventory) (runtimeID : String)
    (configVersion : Int) (window : Int) (retryable : List Status) (hwf : inv.wellFormed)
    (hr : runtimeID ≠ "")
    (hwin : ((statusTimeline inv runtimeID configVersion).length : Int) ≤ window) :
    CountRetries inv runtimeID configVersion window retryable
        = (((retriesSinceReady retryable (statusTimeline inv runtimeID configVersion) : Nat)
            : Int), none)
    ∧ (∀ pre, statusTimeline inv runtimeID configVersion = pre ++ [Status.Ready] →
        CountRetries inv runtimeID configVersion window retryable = (0, none))
    ∧ (∀ pre n, Status.ReconcileErrorRetryable ∈ retryable →
        statusTimeline inv runtimeID configVersion = pre ++ [Status.Ready] ++ retryRounds n →
        CountRetries inv runtimeID configVersion window retryable = ((n : Int), none)) := by
  have hpw := statusRows_pairwise inv hwf runtimeID configVersion
  have htl : statusTimeline inv runtimeID configVersion
      = (statusRows inv runtimeID configVersion).map (fun s => s.Status) := by
    simp [statusTimeline, insertionSort_ascending _ hpw]
  have hlen : (statusRows inv runtimeID configVersion).length ≤ window.toNat := by
    rw [htl, List.length_map] at hwin
    omega
  have hmain : CountRetries inv runtimeID configVersion window retryable
      = (((retriesSinceReady retryable (statusTimeline inv runtimeID configVersion) : Nat)
          : Int), none) := by
    simp only [CountRetries, hr, if_false, insertionSort_descending _ hpw]
    rw [List.take_of_length_le (by simpa using hlen), List.map_reverse, ← htl,
      countLoop_reverse]
  refine ⟨hmain, ?_, ?_⟩
  · intro pre hpre
    rw [hmain, hpre]
    have : retriesSinceReady retryable (pre ++ [Status.Ready]) = 0 := by
      simp [retriesSinceReady, afterLastReady, List.rtakeWhile_concat_neg, countPairs]
    rw [this]
    rfl
  · intro pre n hR hpre
    rw [hmain, hpre]
    have : retriesSinceReady retryable (pre ++ [Status.Ready] ++ retryRounds n) = n := by
      simp only [retriesSinceReady, afterLastReady]
      rw [rtakeWhile_after _ pre (retryRounds n) Status.Ready (by simp)
        (fun y hy => by simpa using retryRounds_not_ready n y hy)]
      exact (countPairs_retryRounds retryable hR n).1
    rw [this]

set_option maxRecDepth 100000 in
/-- C16, at a concrete input (scenario S6): the store built by the test
"Calculate retry count for a retryable cluster", with two rounds; and the two
counting tests of `TestCountRetries` themselves, which return 50 and 0. -/
theorem countRetries_counts_since_ready_witness :
    (retryInventory 2).wellFormed
    ∧ CountRetries (retryInventory 2) "1" 1 150
        [Status.ReconcileErrorRetryable, Status.ReconcileError] = (2, none)
    ∧ countRetriesScript 50 150 = Except.ok (50, none)
    ∧ countRetriesScript 0 10 = Except.ok (0, none) :=
  ⟨by decide,
   (countRetries_counts_since_ready (retryInventory 2) "1" 1 150
      [Status.ReconcileErrorRetryable, Status.ReconcileError] (by decide) (by decide)
      (by decide)).2.2
      [Status.ReconcilePending, Status.ReconcileErrorRetryable] 2 (by decide) (by decide),
   by rfl, by rfl⟩

/-- C17: `CountRetries` called with an empty RuntimeID fails, whatever the
configuration version, the window and the status list: it returns the
sentinel `-1` together with a non-nil error (`InvalidArgument`). -/
theorem countRetries_empty_runtimeID (inv : Inventory) (configVersion : Int) (window : Int)
    (retryable : List Status) :
    CountRetries inv "" configVersion window retryable = (-1, some Error.InvalidArgument)
    ∧ (CountRetries inv "" configVersion window retryable).1 = -1
    ∧ (CountRetries inv "" configVersion window retryable).2 ≠ none := by
  simp [CountRetries]

end Cluster
